import Mathlib

/-!
# AbsolutePitchTrainer: curriculum model and progress store

A shallow embedding of `src/trainingmodel.cpp` (classes `TrainingSpec` and
`TrainingState`, struct `LevelSummary`) together with the properties of the
curriculum table, the pitch sets and the progress state.

Conventions of the embedding:
* C++ `int` is modelled by `Int`; signed overflow is undefined behaviour in C++ and
  lies outside the model.
* `double` values occurring in the model are two-digit decimal literals or
  quotients of small integers; they are modelled by exact rationals.
* `QVector<T>` is `List T`, `QString` is `String`.
-/

namespace AbsolutePitchTrainer

/-! ## Level specifications (`TrainingSpec`) -/

/-- `kLevelsPerStage` of `trainingmodel.cpp`. -/
def kLevelsPerStage : Int := 24

/-- `kTotalPitches` of `trainingmodel.cpp`. -/
def kTotalPitches : Int := 12

/-- `struct LevelSpec` of `trainingmodel.h`. -/
structure LevelSpec where
  globalIndex : Int
  stageIndex : Int
  levelInStage : Int
  passAccuracy : ℚ
  trialCount : Int
  responseWindowMs : Int
  feedback : Bool
  tokensAllowed : Bool
  deriving DecidableEq

/-- The default-constructed `LevelSpec` (the member initialisers of the header). -/
instance : Inhabited LevelSpec :=
  ⟨{ globalIndex := 0, stageIndex := 0, levelInStage := 0, passAccuracy := 0,
     trialCount := 0, responseWindowMs := 0, feedback := false, tokensAllowed := true }⟩

/-- The local table `accuracyTargets` of `TrainingSpec::buildLevelSpecs`. -/
def accuracyTargets : List ℚ :=
  [0.20, 0.30, 0.40, 0.50, 0.60, 0.65, 0.70, 0.75, 0.80, 0.85, 0.88, 0.90,
   0.60, 0.65, 0.70, 0.75, 0.80, 0.82, 0.85, 0.88, 0.90, 0.90, 0.90, 0.90]

/-- The body of the inner loop of `TrainingSpec::buildLevelSpecs`: the entry appended for
`stage` and `level` when the table already holds `size` entries. -/
def buildLevelSpec (size : Nat) (stage level : Int) : LevelSpec :=
  let baseRt : Int := 2028 - (stage - 1) * 80
  let rtAdjustment : Int := (level - 1) * 15
  let rtAdjustment : Int := if level > 12 then rtAdjustment + 70 else rtAdjustment
  { globalIndex := (size : Int)
    stageIndex := stage
    levelInStage := level
    passAccuracy := accuracyTargets.getD (level - 1).toNat 0
    trialCount := 20
    responseWindowMs := max 1183 (baseRt - rtAdjustment)
    feedback := decide (level ≤ 12)
    tokensAllowed := decide (level ≠ kLevelsPerStage) }

/-- The values taken by a loop variable of `for (int v = 1; v <= bound; ++v)`. -/
def loopRange (bound : Int) : List Int :=
  (List.range bound.toNat).map (fun j => (j : Int) + 1)

/-- The function `TrainingSpec::buildLevelSpecs`: two nested counting loops, each pass of
the inner one appending one entry whose `globalIndex` is the size of the table so far. -/
def buildLevelSpecs : List LevelSpec :=
  (loopRange kTotalPitches).foldl
    (fun specs stage =>
      (loopRange kLevelsPerStage).foldl
        (fun specs level => specs ++ [buildLevelSpec specs.length stage level])
        specs)
    []

/-- The function `TrainingSpec::levelSpecs` (the table is built once). -/
def levelSpecs : List LevelSpec := buildLevelSpecs

/-- The function `TrainingSpec::totalLevelCount`. -/
def totalLevelCount : Int := kLevelsPerStage * kTotalPitches

/-- The function `TrainingSpec::specForIndex`. -/
def specForIndex (idx : Int) : LevelSpec :=
  let specs := levelSpecs
  if idx < 0 then specs.head?.getD default
  else if idx ≥ (specs.length : Int) then specs.getLast?.getD default
  else specs.getD idx.toNat default

/-- The pass accuracy of position `p` of a stage: entry `p - 1` of `accuracyTargets`. -/
def passAccuracyAt (p : Int) : ℚ := accuracyTargets.getD (p - 1).toNat 0

/-- The level-table entry at index `k` in closed form: what the nested loops of
`buildLevelSpecs` append as their `k`-th entry. -/
def levelSpecEntry (k : Nat) : LevelSpec :=
  buildLevelSpec k ((k / 24 : Nat) + 1) ((k % 24 : Nat) + 1)

/-! ## Pitch sets (`TrainingSpec`) -/

/-- The function `buildChromaticOrder` of the anonymous namespace. -/
def buildChromaticOrder : List String :=
  "C" :: "C#" :: "D" :: "D#" :: "E" :: "F" :: "F#" :: "G" :: "G#" :: "A" :: "A#" :: "B" :: []

/-- The function `TrainingSpec::chromaticOrder`. -/
def chromaticOrder : List String := buildChromaticOrder

/-- `QVector::indexOf`: the first position of `x`, or `-1` when it is absent. -/
def indexOf (xs : List String) (x : String) : Int :=
  if x ∈ xs then (xs.indexOf x : Int) else -1

/-- The variables of the `while` loop of `TrainingSpec::stagePitchSet`. -/
structure PitchLoop where
  indices : List Int
  lowest : Int
  highest : Int
  pickLower : Bool
  deriving DecidableEq

/-- The `while` loop of `TrainingSpec::stagePitchSet`, `size` being `order.size()`. Every
pass either lowers `lowest` or raises `highest`; the last `else` (nothing appended) is the
fall-through of the `if` chain, which the loop guard excludes. -/
def stagePitchLoop (stageIndex size : Int) (st : PitchLoop) : PitchLoop :=
  if _h : (st.indices.length : Int) < stageIndex ∧ (st.lowest > 0 ∨ st.highest < size - 1) then
    if _h1 : st.pickLower = true ∧ st.lowest > 0 then
      stagePitchLoop stageIndex size
        { indices := st.indices ++ [st.lowest - 1], lowest := st.lowest - 1,
          highest := st.highest, pickLower := !st.pickLower }
    else if _h2 : st.pickLower = false ∧ st.highest < size - 1 then
      stagePitchLoop stageIndex size
        { indices := st.indices ++ [st.highest + 1], lowest := st.lowest,
          highest := st.highest + 1, pickLower := !st.pickLower }
    else if _h3 : st.lowest > 0 then
      stagePitchLoop stageIndex size
        { indices := st.indices ++ [st.lowest - 1], lowest := st.lowest - 1,
          highest := st.highest, pickLower := !st.pickLower }
    else if _h4 : st.highest < size - 1 then
      stagePitchLoop stageIndex size
        { indices := st.indices ++ [st.highest + 1], lowest := st.lowest,
          highest := st.highest + 1, pickLower := !st.pickLower }
    else
      stagePitchLoop stageIndex size { st with pickLower := !st.pickLower }
  else st
termination_by st.lowest.toNat + (size - 1 - st.highest).toNat
decreasing_by all_goals (simp_wf; omega)

/-- The function `TrainingSpec::stagePitchSet`. -/
def stagePitchSet (stageIndex : Int) : List String :=
  let order := chromaticOrder
  if stageIndex ≤ 0 then []
  else
    let startIndex := indexOf order "F"
    let st := stagePitchLoop stageIndex (order.length : Int)
      { indices := [startIndex], lowest := startIndex, highest := startIndex,
        pickLower := true }
    st.indices.foldl
      (fun result idx =>
        if idx ≥ 0 ∧ idx < (order.length : Int) then result ++ [order.getD idx.toNat ""]
        else result)
      []

/-- `std::sort` on a vector of `int`. -/
def sortInts (xs : List Int) : List Int := xs.insertionSort (fun a b => a ≤ b)

/-- The duplicate-removing loop that ends `TrainingSpec::outOfBoundsForStage`: the state is
the pair of the set `unique` and the vector `filtered`. -/
def removeDuplicates (bounds : List String) : List String :=
  (bounds.foldl
    (fun (acc : List String × List String) name =>
      if name ∉ acc.1 then (name :: acc.1, acc.2 ++ [name]) else acc)
    ([], [])).2

/-- The function `TrainingSpec::outOfBoundsForStage`. -/
def outOfBoundsForStage (stageIndex : Int) : List String :=
  let order := chromaticOrder
  let trained := stagePitchSet stageIndex
  if trained.isEmpty then []
  else
    let trainedIdx := sortInts (trained.map (indexOf order))
    let lowest := trainedIdx.head?.getD 0
    let highest := trainedIdx.getLast?.getD 0
    let bounds : List String := []
    let bounds :=
      if lowest > 0 then
        let lowerOne := lowest - 1
        let bounds := bounds ++ [order.getD lowerOne.toNat ""]
        if lowerOne > 0 then bounds ++ [order.getD (lowerOne - 1).toNat ""] else bounds
      else bounds
    let bounds :=
      if highest < (order.length : Int) - 1 then
        let upperOne := highest + 1
        let bounds := bounds ++ [order.getD upperOne.toNat ""]
        if upperOne < (order.length : Int) - 1 then
          bounds ++ [order.getD (upperOne + 1).toNat ""]
        else bounds
      else bounds
    removeDuplicates bounds

/-- The order in which the stages introduce the pitches: `F` first, then one semitone
further down and up in turn, and upward only once `C` has been reached. -/
def pitchIntroductionOrder : List String :=
  ["F", "E", "F#", "D#", "G", "D", "G#", "C#", "A", "C", "A#", "B"]

/-- The chromatic indices (positions in `chromaticOrder`) of a list of pitch names. -/
def chromaticIndices (pitches : List String) : List Int :=
  pitches.map (indexOf chromaticOrder)

/-! ## Dates, times and JSON values (Qt) -/

/-- `QDate`: the null date, or a calendar day given by its day number (counted from the
day of the epoch). -/
inductive QDate
  | invalid
  | valid (day : Int)
  deriving DecidableEq

/-- `QDateTime`: the null date-time, or an instant in milliseconds since the epoch. -/
inductive QDateTime
  | invalid
  | valid (msecs : Int)
  deriving DecidableEq

/-- `QDate::isValid`. -/
def QDate.isValid : QDate → Bool
  | .invalid => false
  | .valid _ => true

/-- `QDateTime::isValid`. -/
def QDateTime.isValid : QDateTime → Bool
  | .invalid => false
  | .valid _ => true

/-- `QDate::daysTo`: the number of days from `a` to `b`, and `0` when either is invalid. -/
def QDate.daysTo : QDate → QDate → Int
  | .valid a, .valid b => b - a
  | _, _ => 0

/-- The text of a JSON string value, as far as the ISO-8601 readers of Qt tell texts apart:
the empty text, a `Qt::ISODate` date `yyyy-MM-dd`, a `Qt::ISODate` date-time
`yyyy-MM-ddTHH:mm:ss` (whole seconds: the format has no milliseconds, which only
`Qt::ISODateWithMs` writes), and any other text. All texts are taken in one time zone. -/
inductive JsonText
  | empty
  | isoDate (day : Int)
  | isoDateTime (secs : Int)
  | other (s : String)
  deriving DecidableEq

/-- `QString::isEmpty` on the text of a JSON string value. -/
def JsonText.isEmpty : JsonText → Bool
  | .empty => true
  | _ => false

/-- `QDate::toString(Qt::ISODate)`: the empty text for the null date. -/
def QDate.toString : QDate → JsonText
  | .invalid => .empty
  | .valid d => .isoDate d

/-- `QDate::fromString(text, Qt::ISODate)`: reads the leading `yyyy-MM-dd`. -/
def QDate.fromString : JsonText → QDate
  | .isoDate d => .valid d
  | .isoDateTime secs => .valid (secs / 86400)
  | _ => .invalid

/-- `QDateTime::toString(Qt::ISODate)`: the empty text for the null date-time, and
otherwise the instant cut to whole seconds. -/
def QDateTime.toString : QDateTime → JsonText
  | .invalid => .empty
  | .valid ms => .isoDateTime (ms / 1000)

/-- `QDateTime::fromString(text, Qt::ISODate)`: a date without a time reads as the start of
that day. -/
def QDateTime.fromString : JsonText → QDateTime
  | .isoDateTime secs => .valid (secs * 1000)
  | .isoDate d => .valid (d * 86400 * 1000)
  | _ => .invalid

/-- Insertion into a container keyed by strings (`QJsonObject`, `QHash`): the value of
`key` is replaced, or the entry is added. -/
def insertEntry {α : Type} (entries : List (String × α)) (key : String) (v : α) :
    List (String × α) :=
  if entries.any (fun kv => kv.1 == key) then
    entries.map (fun kv => if kv.1 == key then (key, v) else kv)
  else entries ++ [(key, v)]

/-- `QJsonValue`, with the members of an object in a list. -/
inductive QJsonValue
  | undefined
  | null
  | bool (b : Bool)
  | double (x : ℚ)
  | string (t : JsonText)
  | array (xs : List QJsonValue)
  | object (members : List (String × QJsonValue))

/-- `QJsonObject`. -/
abbrev QJsonObject := List (String × QJsonValue)

/-- `QJsonObject::value(key)`: the member, or `Undefined`. -/
def QJsonObject.value (obj : QJsonObject) (key : String) : QJsonValue :=
  match obj.find? (fun kv => kv.1 == key) with
  | some kv => kv.2
  | none => .undefined

/-- `obj[key] = v`: replaces the member `key`, or adds it. -/
def QJsonObject.insert (obj : QJsonObject) (key : String) (v : QJsonValue) : QJsonObject :=
  insertEntry obj key v

/-- `QJsonValue(int)`: a JSON number. -/
def QJsonValue.ofInt (n : Int) : QJsonValue := .double (n : ℚ)

/-- `QJsonValue::toInt()`: the number when it is whole and fits an `int`, else `0`. -/
def QJsonValue.toInt : QJsonValue → Int
  | .double x => if x.den = 1 ∧ -2147483648 ≤ x.num ∧ x.num ≤ 2147483647 then x.num else 0
  | _ => 0

/-- `QJsonValue::toDouble()`. -/
def QJsonValue.toDouble : QJsonValue → ℚ
  | .double x => x
  | _ => 0

/-- `QJsonValue::toBool()`. -/
def QJsonValue.toBool : QJsonValue → Bool
  | .bool b => b
  | _ => false

/-- `QJsonValue::toString()`. -/
def QJsonValue.toString : QJsonValue → JsonText
  | .string t => t
  | _ => .empty

/-- `QJsonValue::toObject()`. -/
def QJsonValue.toObject : QJsonValue → QJsonObject
  | .object members => members
  | _ => []

/-- `QJsonValue::toArray()`. -/
def QJsonValue.toArray : QJsonValue → List QJsonValue
  | .array xs => xs
  | _ => []
/-! ## Level summaries and the progress state (`TrainingState`) -/

/-- `struct PitchSummary` of `trainingmodel.h`. -/
structure PitchSummary where
  totalTrials : Int := 0
  correctTrials : Int := 0
  deriving DecidableEq

/-- `QHash<QString, PitchSummary>`: the entries, each key held once. The order of the list
belongs to the model; a `QHash` has none. -/
abbrev PitchHash := List (String × PitchSummary)

/-- `QHash::insert`: replaces the value of `key`, or adds the entry. -/
def PitchHash.insert (h : PitchHash) (key : String) (v : PitchSummary) : PitchHash :=
  insertEntry h key v

/-- `QHash::value(key)`: the value, or a default-constructed one. -/
def PitchHash.value (h : PitchHash) (key : String) : PitchSummary :=
  match h.find? (fun kv => kv.1 == key) with
  | some kv => kv.2
  | none => {}

/-- `struct LevelSummary` of `trainingmodel.h`. -/
structure LevelSummary where
  levelIndex : Int := 0
  accuracy : ℚ := 0
  passed : Bool := false
  specialExercise : Bool := false
  completedAt : QDateTime := .invalid
  perPitch : PitchHash := []
  deriving DecidableEq

/-- The function `LevelSummary::toJson`. -/
def LevelSummary.toJson (s : LevelSummary) : QJsonObject :=
  let obj : QJsonObject := []
  let obj := obj.insert "levelIndex" (.ofInt s.levelIndex)
  let obj := obj.insert "accuracy" (.double s.accuracy)
  let obj := obj.insert "passed" (.bool s.passed)
  let obj := obj.insert "special" (.bool s.specialExercise)
  let obj := obj.insert "completedAt" (.string s.completedAt.toString)
  let perPitchObj : QJsonObject :=
    s.perPitch.foldl
      (fun perPitchObj it =>
        let stats : QJsonObject := []
        let stats := stats.insert "total" (.ofInt it.2.totalTrials)
        let stats := stats.insert "correct" (.ofInt it.2.correctTrials)
        perPitchObj.insert it.1 (.object stats))
      []
  obj.insert "perPitch" (.object perPitchObj)

/-- The function `LevelSummary::fromJson`. -/
def LevelSummary.fromJson (obj : QJsonObject) : LevelSummary :=
  let summary : LevelSummary := {}
  let summary := { summary with levelIndex := (obj.value "levelIndex").toInt }
  let summary := { summary with accuracy := (obj.value "accuracy").toDouble }
  let summary := { summary with passed := (obj.value "passed").toBool }
  let summary := { summary with specialExercise := (obj.value "special").toBool }
  let summary :=
    { summary with completedAt := QDateTime.fromString (obj.value "completedAt").toString }
  let perPitchObj := (obj.value "perPitch").toObject
  perPitchObj.foldl
    (fun summary it =>
      let statsObj := it.2.toObject
      let stats : PitchSummary := {}
      let stats := { stats with totalTrials := (statsObj.value "total").toInt }
      let stats := { stats with correctTrials := (statsObj.value "correct").toInt }
      { summary with perPitch := summary.perPitch.insert it.1 stats })
    summary

/-- The data members of `class TrainingState`. -/
structure TrainingState where
  m_currentLevelIndex : Int := 0
  m_tokens : Int := 0
  m_countedSeconds : ℚ := 0
  m_streakCount : Int := 0
  m_lastActivityDate : QDate := .invalid
  m_levelsSinceSpecial : Int := 0
  m_history : List LevelSummary := []
  m_trainingCompleted : Bool := false
  m_finalLevelConsecutivePasses : Int := 0
  m_finalLevelCooldownStart : QDateTime := .invalid
  m_totalLevelAttempts : Int := 0
  m_tokensSpent : Int := 0
  m_profileDirectory : String := ""
  deriving DecidableEq

/-- The state file of the profile directory as `TrainingState::load` meets it: absent,
present but not openable, or holding a JSON document with the given root (`Null` for text
that is no JSON). -/
inductive StateFile
  | absent
  | unreadable
  | document (root : QJsonValue)

namespace TrainingState

/-- The function `TrainingState::resetState`. -/
def resetState (st : TrainingState) : TrainingState :=
  { st with
    m_currentLevelIndex := 0
    m_tokens := 0
    m_countedSeconds := 0
    m_streakCount := 0
    m_lastActivityDate := .invalid
    m_levelsSinceSpecial := 0
    m_history := []
    m_trainingCompleted := false
    m_finalLevelConsecutivePasses := 0
    m_finalLevelCooldownStart := .invalid
    m_totalLevelAttempts := 0
    m_tokensSpent := 0 }

/-- The function `TrainingState::load`: the returned flag and the state it leaves. -/
def load (st : TrainingState) (file : StateFile) : Bool × TrainingState :=
  let st := st.resetState
  match file with
  | .absent => (true, st)
  | .unreadable => (false, st)
  | .document root =>
    let obj := root.toObject
    let st := { st with m_currentLevelIndex := (obj.value "currentLevel").toInt }
    let st := { st with m_tokens := (obj.value "tokens").toInt }
    let st := { st with m_countedSeconds := (obj.value "countedSeconds").toDouble }
    let st := { st with m_streakCount := (obj.value "streak").toInt }
    let st := { st with m_levelsSinceSpecial := (obj.value "levelsSinceSpecial").toInt }
    let st := { st with m_trainingCompleted := (obj.value "trainingCompleted").toBool }
    let st := { st with m_finalLevelConsecutivePasses := (obj.value "finalLevelPasses").toInt }
    let st := { st with m_totalLevelAttempts := (obj.value "totalLevelAttempts").toInt }
    let st := { st with m_tokensSpent := (obj.value "tokensSpent").toInt }
    let lastDateStr := (obj.value "lastActivityDate").toString
    let st :=
      if !lastDateStr.isEmpty then
        { st with m_lastActivityDate := QDate.fromString lastDateStr }
      else st
    let cooldownStr := (obj.value "finalLevelCooldown").toString
    let st :=
      if !cooldownStr.isEmpty then
        { st with m_finalLevelCooldownStart := QDateTime.fromString cooldownStr }
      else st
    let historyArray := (obj.value "history").toArray
    let st :=
      historyArray.foldl
        (fun st value =>
          { st with m_history := st.m_history ++ [LevelSummary.fromJson value.toObject] })
        st
    (true, st)

/-- The JSON object that `TrainingState::save` builds. -/
def saveObject (st : TrainingState) : QJsonObject :=
  let obj : QJsonObject := []
  let obj := obj.insert "currentLevel" (.ofInt st.m_currentLevelIndex)
  let obj := obj.insert "tokens" (.ofInt st.m_tokens)
  let obj := obj.insert "countedSeconds" (.double st.m_countedSeconds)
  let obj := obj.insert "streak" (.ofInt st.m_streakCount)
  let obj := obj.insert "levelsSinceSpecial" (.ofInt st.m_levelsSinceSpecial)
  let obj := obj.insert "trainingCompleted" (.bool st.m_trainingCompleted)
  let obj := obj.insert "finalLevelPasses" (.ofInt st.m_finalLevelConsecutivePasses)
  let obj := obj.insert "totalLevelAttempts" (.ofInt st.m_totalLevelAttempts)
  let obj := obj.insert "tokensSpent" (.ofInt st.m_tokensSpent)
  let obj := obj.insert "lastActivityDate" (.string st.m_lastActivityDate.toString)
  let obj := obj.insert "finalLevelCooldown" (.string st.m_finalLevelCooldownStart.toString)
  let historyArray : List QJsonValue :=
    st.m_history.foldl
      (fun historyArray summary => historyArray ++ [.object summary.toJson])
      []
  obj.insert "history" (.array historyArray)

/-- The function `TrainingState::save`: the returned flag and the state file afterwards;
`canOpen` tells whether the file can be opened for writing. -/
def save (st : TrainingState) (canOpen : Bool) (file : StateFile) : Bool × StateFile :=
  if !canOpen then (false, file)
  else (true, .document (.object st.saveObject))

/-- The function `TrainingState::setCurrentLevelIndex` (`qBound(min, value, max)`). -/
def setCurrentLevelIndex (st : TrainingState) (idx : Int) : TrainingState :=
  { st with m_currentLevelIndex := max 0 (min idx (totalLevelCount - 1)) }

/-- The function `TrainingState::addTokens`. -/
def addTokens (st : TrainingState) (amount : Int) : TrainingState :=
  { st with m_tokens := max 0 (st.m_tokens + amount) }

/-- The function `TrainingState::incrementTokensSpent`. -/
def incrementTokensSpent (st : TrainingState) (amount : Int) : TrainingState :=
  { st with m_tokensSpent := max 0 (st.m_tokensSpent + amount) }

/-- The function `TrainingState::consumeTokens`: the returned flag and the state it
leaves. -/
def consumeTokens (st : TrainingState) (amount : Int) : Bool × TrainingState :=
  if amount ≤ 0 then (true, st)
  else if st.m_tokens < amount then (false, st)
  else
    let st := { st with m_tokens := st.m_tokens - amount }
    (true, st.incrementTokensSpent amount)

/-- The function `TrainingState::markActivity`, `today` being `QDate::currentDate()`. -/
def markActivity (st : TrainingState) (today : QDate) : TrainingState :=
  let st :=
    if !st.m_lastActivityDate.isValid then { st with m_streakCount := 1 }
    else
      let diff := st.m_lastActivityDate.daysTo today
      if diff = 0 then st
      else if diff = 1 then { st with m_streakCount := st.m_streakCount + 1 }
      else if diff > 2 then { st with m_streakCount := 1 }
      else { st with m_streakCount := 1 }
  if !today.isValid then st
  else { st with m_lastActivityDate := today }

/-- The constant `kMaxHistory` of `TrainingState::trimHistory`. -/
def kMaxHistory : Int := 80

/-- The `while` loop of `TrainingState::trimHistory` on the history vector. -/
def trimHistoryLoop (history : List LevelSummary) : List LevelSummary :=
  if _h : (history.length : Int) > kMaxHistory then trimHistoryLoop history.tail
  else history
termination_by history.length
decreasing_by
  simp_wf
  simp only [kMaxHistory] at _h
  omega

/-- The function `TrainingState::trimHistory`. -/
def trimHistory (st : TrainingState) : TrainingState :=
  { st with m_history := trimHistoryLoop st.m_history }

/-- The function `TrainingState::recordLevelSummary`. -/
def recordLevelSummary (st : TrainingState) (summary : LevelSummary) : TrainingState :=
  trimHistory { st with m_history := st.m_history ++ [summary] }

end TrainingState

/-! ## Predicates and sample values used by the theorems -/

/-- A progress state with a balance of ten tokens and nothing spent. -/
def tenTokens : TrainingState := { m_tokens := 10 }

/-- The invariant of the progress state named by the specification: the level index is in
range, the balance is not negative and the history holds at most 80 summaries. -/
def TrainingState.Invariant (st : TrainingState) : Prop :=
  0 ≤ st.m_currentLevelIndex ∧ st.m_currentLevelIndex < 288 ∧ 0 ≤ st.m_tokens ∧
    st.m_history.length ≤ 80

/-- A summary completed half a second after a whole second. -/
def sampleSummary : LevelSummary :=
  { levelIndex := 3, accuracy := 0.75, passed := true, completedAt := .valid 1500,
    perPitch := [("F", { totalTrials := 3, correctTrials := 2 })] }

/-- A progress state whose history is full: 80 summaries of levels 0 to 79. -/
def fullHistory : TrainingState :=
  { m_history := (List.range 80).map (fun k => { levelIndex := (k : Int) }) }

/-- A progress state inside its invariant: level 5, ten tokens, one summary. -/
def sampleState : TrainingState :=
  { m_currentLevelIndex := 5, m_tokens := 10, m_streakCount := 1,
    m_lastActivityDate := .valid 100, m_history := [sampleSummary] }

/-- A value of C++ type `int`. -/
def IsInt32 (n : Int) : Prop := -2147483648 ≤ n ∧ n ≤ 2147483647

/-- `QDateTime` cut to whole seconds (the null date-time stays null). -/
def QDateTime.wholeSeconds : QDateTime → QDateTime
  | .invalid => .invalid
  | .valid ms => .valid (ms / 1000 * 1000)

/-- A summary with its completion time cut to whole seconds. -/
def LevelSummary.wholeSeconds (s : LevelSummary) : LevelSummary :=
  { s with completedAt := s.completedAt.wholeSeconds }

/-- A summary as the program can hold it: `int` members are `int`s and the hash holds
each key once. -/
def LevelSummary.WellFormed (s : LevelSummary) : Prop :=
  IsInt32 s.levelIndex ∧ (s.perPitch.map Prod.fst).Nodup ∧
    ∀ it ∈ s.perPitch, IsInt32 it.2.totalTrials ∧ IsInt32 it.2.correctTrials

/-- A progress state as the program can hold it. -/
def TrainingState.WellFormed (st : TrainingState) : Prop :=
  IsInt32 st.m_currentLevelIndex ∧ IsInt32 st.m_tokens ∧ IsInt32 st.m_streakCount ∧
    ∀ s ∈ st.m_history, s.WellFormed

/-- The statistics object that `LevelSummary::toJson` writes for one pitch. -/
def statsToJson (stats : PitchSummary) : QJsonValue :=
  .object [("total", .ofInt stats.totalTrials), ("correct", .ofInt stats.correctTrials)]

/-- The statistics that `LevelSummary::fromJson` reads for one pitch. -/
def statsFromJson (v : QJsonValue) : PitchSummary :=
  { totalTrials := (v.toObject.value "total").toInt,
    correctTrials := (v.toObject.value "correct").toInt }

/-- A stored record with a negative level index, a negative balance and 81 summaries. -/
def corruptRecord : QJsonValue :=
  .object [("currentLevel", .ofInt (-5)), ("tokens", .ofInt (-3)),
    ("history", .array (List.replicate 81 (.object [])))]

/-! ## The least accurate pitch (`TrainingState::leastAccuratePitch`) -/

namespace TrainingState

/-- The accumulation loop of `TrainingState::leastAccuratePitch` over the entries of one
summary: the counts of each key are added to those the aggregate holds for it. -/
def addPerPitch (aggregates : PitchHash) (perPitch : PitchHash) : PitchHash :=
  perPitch.foldl
    (fun aggregates it =>
      let stats := aggregates.value it.1
      let stats := { stats with totalTrials := stats.totalTrials + it.2.totalTrials }
      let stats := { stats with correctTrials := stats.correctTrials + it.2.correctTrials }
      aggregates.insert it.1 stats)
    aggregates

/-- The selection loop of `TrainingState::leastAccuratePitch`: the state is the pair of
`leastPitch` and `lowestAccuracy`. -/
def selectLeast (aggregates : PitchHash) : String × ℚ :=
  aggregates.foldl
    (fun (best : String × ℚ) it =>
      if it.2.totalTrials = 0 then best
      else
        let acc : ℚ := (it.2.correctTrials : ℚ) / (it.2.totalTrials : ℚ)
        if acc < best.2 then (it.1, acc) else best)
    ("", 2)

/-- The first loop of `TrainingState::leastAccuratePitch` over the summaries of the
window: special exercises are skipped, the counts of the others are accumulated. -/
def aggregateSummaries (entries : List LevelSummary) : PitchHash :=
  entries.foldl
    (fun aggregates summary =>
      if summary.specialExercise then aggregates
      else addPerPitch aggregates summary.perPitch)
    []

/-- The function `TrainingState::leastAccuratePitch`. -/
def leastAccuratePitch (st : TrainingState) : String :=
  let window := min 15 st.m_history.length
  if window = 0 then ""
  else
    let aggregates := aggregateSummaries (st.m_history.drop (st.m_history.length - window))
    (selectLeast aggregates).1

end TrainingState

/-- The entries that `leastAccuratePitch` counts: of the 15 most recent summaries, those
that are no special exercise. -/
def countedSummaries (history : List LevelSummary) : List LevelSummary :=
  (history.drop (history.length - 15)).filter (fun s => !s.specialExercise)

/-- The total-trial count of `key` summed over a list of summaries. -/
def summedTotal (entries : List LevelSummary) (key : String) : Int :=
  (entries.map (fun s => (s.perPitch.value key).totalTrials)).sum

/-- The correct-trial count of `key` summed over a list of summaries. -/
def summedCorrect (entries : List LevelSummary) (key : String) : Int :=
  (entries.map (fun s => (s.perPitch.value key).correctTrials)).sum

/-- The per-pitch counts of a summary are counts: the hash holds each key once, no key is
the empty string, and of every key no more trials are correct than were run. Every summary
that `PitchTraining::recordSummary` builds is of this kind. -/
def LevelSummary.CountsValid (s : LevelSummary) : Prop :=
  (s.perPitch.map Prod.fst).Nodup ∧
    ∀ it ∈ s.perPitch, it.1 ≠ "" ∧ 0 ≤ it.2.correctTrials ∧
      it.2.correctTrials ≤ it.2.totalTrials

/-- A progress state with one recorded level: one of four trials on F correct, three of
four on G. -/
def weakOnF : TrainingState :=
  { m_history :=
      [{ levelIndex := 0, accuracy := 0.5, passed := true,
         perPitch := [("F", { totalTrials := 4, correctTrials := 1 }),
                      ("G", { totalTrials := 4, correctTrials := 3 })] }] }

/-! ## The session engine (`PitchTraining`)

The members of `class PitchTraining` that carry the session, and of its widgets the ones
whose content or enabled state the handlers set: the feedback label, the status label, the
trial log list, the buttons and the two response containers. Progress bars, visibility,
focus, styling, the labels redrawn from the progress state and audio output are left out;
the calls that set them write no member. `m_state.save()` writes the state file and changes
no member either. Random draws, the elapsed time of the trial timer and the clock are
arguments of the handlers. -/

/-- `enum class SessionMode`. -/
inductive SessionMode
  | Idle
  | Level
  | SpecialExercise
  deriving DecidableEq

/-- `enum class PlaybackContext`. -/
inductive PlaybackContext
  | None
  | Trial
  | Sample
  | Shepard
  deriving DecidableEq

/-- `struct TrialData`. -/
structure TrialData where
  presentedPitch : String := ""
  octave : Int := 4
  outOfBounds : Bool := false
  response : String := ""
  correct : Bool := false
  semitoneError : Bool := false
  timedOut : Bool := false
  responseTimeMs : Int := 0
  usedDouble : Bool := false
  luckyDouble : Bool := false
  deriving DecidableEq

/-- `struct SpecialContext`. -/
structure SpecialContext where
  active : Bool := false
  targetPitch : String := ""
  feedbackPhase : Bool := true
  totalTrials : Int := 0
  completedTrials : Int := 0
  secondPhasePending : Bool := false
  deriving DecidableEq

/-- An item of the trial log list: its text and its foreground colour. -/
structure LogItem where
  text : String
  colour : String
  deriving DecidableEq

/-- The clock as a handler reads it: the instant (`QDateTime::currentDateTime`,
`QDateTime::currentDateTimeUtc`) in milliseconds since the epoch, and the local calendar
day (`QDate::currentDate`). -/
structure Clock where
  nowMs : Int
  today : Int
  deriving DecidableEq

/-- The values that `prepareNextTrial` draws from `QRandomGenerator` and reads from the
tone library: `bounded(2)`, the index into the distractors, the index into the pool,
`bounded(80)`, the supported octaves and the index into them. -/
structure TrialDraw where
  playTarget : Int
  fallbackIndex : Int
  poolIndex : Int
  luckyDraw : Int
  octaves : List Int
  octaveIndex : Int
  deriving DecidableEq

/-- A response button of the level: its properties `outOfBound` and `pitch`. -/
structure ResponseButton where
  outOfBound : Bool
  pitch : String
  deriving DecidableEq

/-- The session members and widgets of `class PitchTraining`. -/
structure PitchTraining where
  m_state : TrainingState := {}
  m_currentSpec : LevelSpec := default
  m_trainingPitches : List String := []
  m_outOfBoundsPitches : List String := []
  m_trialLog : List TrialData := []
  m_levelActive : Bool := false
  m_waitingForShepard : Bool := false
  m_doubleArmed : Bool := false
  m_randomDouble : Bool := false
  m_samplesQueued : Bool := false
  m_sampleQueue : List String := []
  m_trialsCompleted : Int := 0
  m_requiredTrials : Int := 0
  m_correctTrials : Int := 0
  m_effectiveBonus : ℚ := 0
  m_currentResponseWindowMs : Int := 0
  m_currentTrial : TrialData := {}
  m_specialContext : SpecialContext := {}
  m_mode : SessionMode := .Idle
  m_playbackContext : PlaybackContext := .None
  m_sessionActive : Bool := false
  m_trialLogHasEntries : Bool := false
  responseTimerActive : Bool := false
  feedbackText : String := ""
  feedbackPositive : Bool := false
  statusText : String := ""
  trialLogList : List LogItem := []
  startLevelEnabled : Bool := false
  startTrialEnabled : Bool := false
  sampleEnabled : Bool := false
  doubleEnabled : Bool := false
  responseEnabled : Bool := false
  specialEnabled : Bool := false
  controlsEnabled : Bool := true

/-- `QDateTime::secsTo`: whole seconds from `a` to `b` (the quotient of the milliseconds
truncates toward zero), and `0` when either is null. -/
def QDateTime.secsTo : QDateTime → QDateTime → Int
  | .valid a, .valid b => (b - a).tdiv 1000
  | _, _ => 0

/-- `static_cast<int>` of a `double`: truncation toward zero. -/
def truncToInt (x : ℚ) : Int := if 0 ≤ x then ⌊x⌋ else ⌈x⌉

/-- The constant `kTokenCostForDouble`. -/
def kTokenCostForDouble : Int := 10

/-- The table `kTokenThresholds` of `PitchTraining::resolveLevelCompletion`. -/
def kTokenThresholds : List ℚ := [0.60, 0.75, 0.90]

namespace PitchTraining

/-- The function `PitchTraining::updateFeedback`. -/
def updateFeedback (w : PitchTraining) (text : String) (positive : Bool) : PitchTraining :=
  { w with feedbackText := text, feedbackPositive := positive }

/-- The function `PitchTraining::refreshStartLevelButton`. -/
def refreshStartLevelButton (w : PitchTraining) : PitchTraining :=
  let canStart := w.m_sessionActive && !w.m_levelActive && !w.m_specialContext.active
    && !w.m_waitingForShepard
  { w with startLevelEnabled := canStart }

/-- The function `PitchTraining::setResponseEnabled`. -/
def setResponseEnabled (w : PitchTraining) (levelEnabled specialEnabled : Bool) :
    PitchTraining :=
  { w with responseEnabled := levelEnabled, specialEnabled := specialEnabled }

/-- The function `PitchTraining::setControlsEnabled`. -/
def setControlsEnabled (w : PitchTraining) (enabled : Bool) : PitchTraining :=
  { w with controlsEnabled := enabled }

/-- The function `PitchTraining::resetTrialLog`. -/
def resetTrialLog (w : PitchTraining) : PitchTraining :=
  { w with
    m_trialLogHasEntries := false
    trialLogList :=
      [{ text := "No trials yet. Press \"Hear next tone\" to begin.", colour := "#94a3b8" }] }

/-- The function `PitchTraining::appendTrialLogEntry`. -/
def appendTrialLogEntry (w : PitchTraining) (trialNumber : Int) (description : String)
    (positive : Bool) : PitchTraining :=
  let w : PitchTraining :=
    if !w.m_trialLogHasEntries then { w with trialLogList := [], m_trialLogHasEntries := true }
    else w
  let item : LogItem :=
    { text := "Trial " ++ toString trialNumber ++ ": " ++ description
      colour := if positive then "#1b5e20" else "#b71c1c" }
  { w with trialLogList := w.trialLogList ++ [item] }

/-- The function `PitchTraining::resetLevelState`. -/
def resetLevelState (w : PitchTraining) : PitchTraining :=
  let w : PitchTraining := { w with m_trialLog := [] }
  let w : PitchTraining := { w with m_trialsCompleted := 0 }
  let w : PitchTraining := { w with m_correctTrials := 0 }
  let w : PitchTraining := { w with m_effectiveBonus := 0 }
  let w : PitchTraining := { w with m_doubleArmed := false }
  let w : PitchTraining := { w with m_randomDouble := false }
  let w : PitchTraining := { w with m_waitingForShepard := false }
  let w : PitchTraining := { w with m_samplesQueued := false }
  let w : PitchTraining := { w with m_sampleQueue := [] }
  let w : PitchTraining := { w with m_currentTrial := {} }
  let w : PitchTraining := { w with feedbackText := "" }
  let w : PitchTraining := { w with m_currentResponseWindowMs := 0 }
  w.resetTrialLog

/-- The function `PitchTraining::shouldRunSpecialExercise`. -/
def shouldRunSpecialExercise (w : PitchTraining) : Bool :=
  let spec := specForIndex w.m_state.m_currentLevelIndex
  decide (w.m_state.m_levelsSinceSpecial ≥ 15) && decide (spec.stageIndex ≥ 5)

/-- The function `PitchTraining::playShepardTone`. -/
def playShepardTone (w : PitchTraining) : PitchTraining :=
  let w : PitchTraining := { w with m_waitingForShepard := true }
  let w : PitchTraining := { w with m_playbackContext := .Shepard }
  let w : PitchTraining := { w with startTrialEnabled := false }
  let w : PitchTraining := { w with statusText := "Memory reset: Shepard tone playing for 20 s" }
  let w : PitchTraining := w.updateFeedback "Memory reset tone playing..." true
  let w : PitchTraining := w.setControlsEnabled false
  w.refreshStartLevelButton

/-- The function `PitchTraining::scheduleShepardIfNeeded`. -/
def scheduleShepardIfNeeded (w : PitchTraining) : PitchTraining :=
  let shouldPlayShepard := decide (w.m_mode = .Level) && !w.m_currentSpec.feedback
  if shouldPlayShepard then w.playShepardTone else w

/-- The function `PitchTraining::startLevelInternal`. -/
def startLevelInternal (w : PitchTraining) : PitchTraining :=
  let w : PitchTraining := { w with m_currentSpec := specForIndex w.m_state.m_currentLevelIndex }
  let w : PitchTraining := { w with m_trainingPitches := stagePitchSet w.m_currentSpec.stageIndex }
  let w : PitchTraining :=
    { w with m_outOfBoundsPitches := outOfBoundsForStage w.m_currentSpec.stageIndex }
  let w : PitchTraining := w.resetLevelState
  let w : PitchTraining := w.setResponseEnabled false false
  let w : PitchTraining := { w with m_mode := .Level }
  let w : PitchTraining := { w with m_levelActive := true }
  let w : PitchTraining := { w with m_requiredTrials := w.m_currentSpec.trialCount }
  let w : PitchTraining :=
    { w with statusText := "Level in progress. Press \"Hear next tone\" to hear a tone." }
  let w : PitchTraining := { w with startTrialEnabled := true }
  let w : PitchTraining := { w with sampleEnabled := true }
  let w : PitchTraining := { w with doubleEnabled := w.m_currentSpec.tokensAllowed }
  let w : PitchTraining := w.scheduleShepardIfNeeded
  w.refreshStartLevelButton

/-- The function `PitchTraining::startSpecialExercise`. -/
def startSpecialExercise (w : PitchTraining) : PitchTraining :=
  let w : PitchTraining := { w with m_currentSpec := specForIndex w.m_state.m_currentLevelIndex }
  let w : PitchTraining := { w with m_specialContext := {} }
  let w : PitchTraining := { w with m_specialContext := { w.m_specialContext with active := true } }
  let w : PitchTraining :=
    { w with m_specialContext := { w.m_specialContext with feedbackPhase := true } }
  let w : PitchTraining :=
    { w with m_specialContext := { w.m_specialContext with totalTrials := 12 } }
  let w : PitchTraining :=
    { w with m_specialContext := { w.m_specialContext with secondPhasePending := true } }
  let w : PitchTraining := { w with m_mode := .SpecialExercise }
  let w : PitchTraining := { w with m_levelActive := false }
  let weakest := w.m_state.leastAccuratePitch
  let w : PitchTraining :=
    if !weakest.isEmpty then
      { w with m_specialContext := { w.m_specialContext with targetPitch := weakest } }
    else if !w.m_trainingPitches.isEmpty then
      { w with m_specialContext :=
          { w.m_specialContext with targetPitch := w.m_trainingPitches.headD "" } }
    else
      { w with m_specialContext := { w.m_specialContext with targetPitch := "F" } }
  let w : PitchTraining :=
    { w with statusText :=
        "Special exercise: lock onto pitch " ++ w.m_specialContext.targetPitch }
  let w : PitchTraining := { w with startTrialEnabled := true }
  let w : PitchTraining := w.resetLevelState
  let w : PitchTraining := w.setResponseEnabled false false
  w.refreshStartLevelButton

/-- The function `PitchTraining::handleStartLevel`. -/
def handleStartLevel (w : PitchTraining) (clock : Clock) : PitchTraining :=
  if w.m_levelActive || w.m_specialContext.active then w
  else if !w.m_sessionActive then
    let w : PitchTraining :=
      w.updateFeedback "Start a 15-min session before beginning a level." false
    w.refreshStartLevelButton
  else if w.shouldRunSpecialExercise then w.startSpecialExercise
  else
    let spec := specForIndex w.m_state.m_currentLevelIndex
    if spec.globalIndex = totalLevelCount - 1 ∧ w.m_state.m_finalLevelConsecutivePasses ≥ 3 ∧
        w.m_state.m_trainingCompleted = false then
      let last := w.m_state.m_finalLevelCooldownStart
      let now := QDateTime.valid clock.nowMs
      if !last.isValid || decide (last.secsTo now < 12 * 3600) then
        w.updateFeedback "Wait at least 12 h after the third clear before the final attempt."
          false
      else w.startLevelInternal
    else w.startLevelInternal

end PitchTraining

namespace PitchTraining

/-- The loop of `PitchTraining::recordSummary` over the trial log: every trial is counted
under its pitch, or under `"OUT"` when the pitch was a distractor. -/
def tallyTrials (summary : LevelSummary) (trialLog : List TrialData) : LevelSummary :=
  trialLog.foldl
    (fun (summary : LevelSummary) trial =>
      let key := if trial.outOfBounds then "OUT" else trial.presentedPitch
      let stats := summary.perPitch.value key
      let stats := { stats with totalTrials := stats.totalTrials + 1 }
      let stats :=
        if trial.correct then { stats with correctTrials := stats.correctTrials + 1 }
        else stats
      { summary with perPitch := summary.perPitch.insert key stats })
    summary

/-- The function `PitchTraining::recordSummary`, the clock giving `completedAt`. -/
def recordSummary (w : PitchTraining) (specialExercise : Bool) (accuracy : ℚ) (passed : Bool)
    (clock : Clock) : PitchTraining :=
  let summary : LevelSummary := {}
  let summary := { summary with levelIndex := w.m_currentSpec.globalIndex }
  let summary := { summary with accuracy := accuracy }
  let summary := { summary with passed := passed }
  let summary := { summary with specialExercise := specialExercise }
  let summary := { summary with completedAt := .valid clock.nowMs }
  let summary := tallyTrials summary w.m_trialLog
  let w : PitchTraining := { w with m_state := w.m_state.recordLevelSummary summary }
  { w with m_trialLog := [] }

/-- The `for` loop of `PitchTraining::resolveLevelCompletion` that looks for the next
level, from candidate index `idx` on, `nextLevel` being the value the variable holds. -/
def advanceLoop (specs : List LevelSpec) (current : LevelSpec) (achieved : ℚ)
    (idx nextLevel : Int) : Int :=
  if _h : idx < (specs.length : Int) then
    let candidate := specs.getD idx.toNat default
    if candidate.stageIndex ≠ current.stageIndex then idx
    else if candidate.feedback ≠ current.feedback then nextLevel
    else if achieved < candidate.passAccuracy then idx
    else advanceLoop specs current achieved (idx + 1) idx
  else nextLevel
termination_by ((specs.length : Int) - idx).toNat
decreasing_by
  simp_wf
  omega

/-- The loop of `PitchTraining::resolveLevelCompletion` over `kTokenThresholds`: the
number of thresholds that the actual accuracy meets. -/
def tokensEarned (actualAccuracy : ℚ) : Int :=
  kTokenThresholds.foldl
    (fun earned threshold => if actualAccuracy ≥ threshold then earned + 1 else earned) 0

/-- The part of `PitchTraining::resolveLevelCompletion` that computes `nextLevel`. -/
def nextLevelAfter (w : PitchTraining) (passed : Bool) (actualAccuracy : ℚ) : Int :=
  let nextLevel : Int := w.m_state.m_currentLevelIndex
  if passed then
    let specs := levelSpecs
    let achieved := actualAccuracy
    let nextLevel : Int := min (w.m_state.m_currentLevelIndex + 1) (totalLevelCount - 1)
    advanceLoop specs w.m_currentSpec achieved (w.m_state.m_currentLevelIndex + 1) nextLevel
  else nextLevel

/-- The part of `PitchTraining::resolveLevelCompletion` that handles the final level. -/
def resolveFinalLevel (w : PitchTraining) (passed : Bool) (clock : Clock) : PitchTraining :=
  if w.m_currentSpec.globalIndex = totalLevelCount - 1 then
    if passed then
      let passes : Int := w.m_state.m_finalLevelConsecutivePasses + 1
      let w : PitchTraining := { w with m_state :=
        { w.m_state with m_finalLevelConsecutivePasses := max 0 passes } }
      if passes = 3 then
        let w : PitchTraining := { w with m_state :=
          { w.m_state with m_finalLevelCooldownStart := .valid clock.nowMs } }
        w.updateFeedback
          "Final level cleared three times. Wait 12 h, then clear it once more." true
      else if passes > 3 then
        let last := w.m_state.m_finalLevelCooldownStart
        if last.isValid && decide (last.secsTo (.valid clock.nowMs) ≥ 12 * 3600) then
          let w : PitchTraining :=
            { w with m_state := { w.m_state with m_trainingCompleted := true } }
          w.updateFeedback "Congratulations! Training sequence completed." true
        else w
      else w
    else
      let w : PitchTraining :=
        { w with m_state := { w.m_state with m_finalLevelConsecutivePasses := max 0 0 } }
      { w with m_state := { w.m_state with m_finalLevelCooldownStart := .invalid } }
  else w

/-- The value `actualAccuracy` of `PitchTraining::resolveLevelCompletion`. -/
def actualAccuracy (w : PitchTraining) : ℚ :=
  if w.m_requiredTrials = 0 then 0 else (w.m_correctTrials : ℚ) / (w.m_requiredTrials : ℚ)

/-- The value `effectiveAccuracy` of `PitchTraining::resolveLevelCompletion`. -/
def effectiveAccuracy (w : PitchTraining) : ℚ :=
  if w.m_requiredTrials = 0 then 0
  else min 1 (((w.m_correctTrials : ℚ) + w.m_effectiveBonus) / (w.m_requiredTrials : ℚ))

/-- The value `passed` of `PitchTraining::resolveLevelCompletion`. -/
def levelPassed (w : PitchTraining) : Bool :=
  decide (w.effectiveAccuracy ≥ w.m_currentSpec.passAccuracy)

/-- The part of `PitchTraining::resolveLevelCompletion` that announces the outcome and
grants the token reward. -/
def rewardLevel (w : PitchTraining) (actualAccuracy effectiveAccuracy : ℚ) (passed : Bool) :
    PitchTraining :=
  let w : PitchTraining :=
    if passed then
      w.updateFeedback
        ("Level passed at " ++ toString (truncToInt (effectiveAccuracy * 100)) ++ "% accuracy.")
        true
    else
      w.updateFeedback
        ("Level failed (" ++ toString (truncToInt (effectiveAccuracy * 100))
          ++ "% accuracy). Keep going!")
        false
  let earned : Int := tokensEarned actualAccuracy
  if earned > 0 then { w with m_state := w.m_state.addTokens earned } else w

/-- The part of `PitchTraining::resolveLevelCompletion` that books the level and returns the
engine to idle. -/
def closeLevel (w : PitchTraining) (actualAccuracy : ℚ) (passed : Bool) (clock : Clock) :
    PitchTraining :=
  let w : PitchTraining := { w with m_state :=
    { w.m_state with m_totalLevelAttempts := w.m_state.m_totalLevelAttempts + 1 } }
  let w : PitchTraining := w.recordSummary false actualAccuracy passed clock
  let w : PitchTraining := { w with m_state :=
    { w.m_state with m_levelsSinceSpecial := w.m_state.m_levelsSinceSpecial + 1 } }
  let w : PitchTraining :=
    { w with m_state := w.m_state.markActivity (.valid clock.today) }
  let w : PitchTraining := { w with m_levelActive := false }
  let w : PitchTraining := { w with m_mode := .Idle }
  let w : PitchTraining := { w with startTrialEnabled := false }
  let w : PitchTraining := { w with sampleEnabled := false }
  let w : PitchTraining := { w with doubleEnabled := false }
  let w : PitchTraining := w.setResponseEnabled false false
  w.refreshStartLevelButton

/-- The part of `PitchTraining::resolveLevelCompletion` that moves the level pointer. -/
def advanceLevel (w : PitchTraining) (actualAccuracy : ℚ) (passed : Bool) : PitchTraining :=
  let nextLevel : Int := w.nextLevelAfter passed actualAccuracy
  { w with m_state := w.m_state.setCurrentLevelIndex nextLevel }

/-- The function `PitchTraining::resolveLevelCompletion`: its parts in the order of the
source, the two accuracies and `passed` being computed first. -/
def resolveLevelCompletion (w : PitchTraining) (clock : Clock) : PitchTraining :=
  let actualAccuracy : ℚ := w.actualAccuracy
  let effectiveAccuracy : ℚ := w.effectiveAccuracy
  let passed : Bool := w.levelPassed
  let w : PitchTraining := w.rewardLevel actualAccuracy effectiveAccuracy passed
  let w : PitchTraining := w.closeLevel actualAccuracy passed clock
  let w : PitchTraining := w.advanceLevel actualAccuracy passed
  w.resolveFinalLevel passed clock

/-- The function `PitchTraining::resolveSpecialExercise`. -/
def resolveSpecialExercise (w : PitchTraining) (clock : Clock) : PitchTraining :=
  if w.m_specialContext.feedbackPhase && w.m_specialContext.secondPhasePending then
    let w : PitchTraining :=
      { w with m_specialContext := { w.m_specialContext with feedbackPhase := false } }
    let w : PitchTraining :=
      { w with m_specialContext := { w.m_specialContext with totalTrials := 22 } }
    let w : PitchTraining :=
      { w with m_specialContext := { w.m_specialContext with secondPhasePending := false } }
    let w : PitchTraining := { w with m_trialsCompleted := 0 }
    let w : PitchTraining := { w with m_trialLog := [] }
    let w : PitchTraining := { w with m_currentResponseWindowMs := 0 }
    let w : PitchTraining := w.resetTrialLog
    let w : PitchTraining := { w with statusText := "Special exercise phase 2: no feedback." }
    let w : PitchTraining := { w with startTrialEnabled := true }
    w.setResponseEnabled false false
  else
    let w : PitchTraining := w.recordSummary true 0 true clock
    let w : PitchTraining := { w with m_specialContext := {} }
    let w : PitchTraining := { w with m_mode := .Idle }
    let w : PitchTraining := { w with m_state := { w.m_state with m_levelsSinceSpecial := 0 } }
    let w : PitchTraining := { w with m_waitingForShepard := false }
    let w : PitchTraining := { w with startTrialEnabled := false }
    let w : PitchTraining := { w with statusText := "Special exercise done. Resume main training." }
    let w : PitchTraining := w.setResponseEnabled false false
    w.refreshStartLevelButton

/-- The part of `PitchTraining::finishCurrentTrial` that judges the trial: the value of
`correct`, and the engine with the semitone flag of the trial set where it applies. -/
def judgeTrial (w : PitchTraining) (timedOut : Bool) : PitchTraining × Bool :=
  let correct : Bool := false
  if !timedOut then
    if w.m_mode = .SpecialExercise then
      let targetTone : Bool := !w.m_currentTrial.outOfBounds
      let answeredTarget : Bool :=
        decide (w.m_currentTrial.response = w.m_specialContext.targetPitch)
      (w, (targetTone && answeredTarget)
        || (!targetTone && decide (w.m_currentTrial.response = "OUT")))
    else
      if w.m_currentTrial.outOfBounds then
        (w, decide (w.m_currentTrial.response = "OUT"))
      else
        let correct : Bool :=
          decide (w.m_currentTrial.response = w.m_currentTrial.presentedPitch)
        if !correct then
          let order := chromaticOrder
          let played := indexOf order w.m_currentTrial.presentedPitch
          let answered := indexOf order w.m_currentTrial.response
          if played ≥ 0 ∧ answered ≥ 0 ∧ |played - answered| = 1 then
            ({ w with m_currentTrial := { w.m_currentTrial with semitoneError := true } },
              correct)
          else (w, correct)
        else (w, correct)
  else (w, correct)

/-- The part of `PitchTraining::finishCurrentTrial` that applies or cancels the bonus. -/
def applyTrialBonus (w : PitchTraining) (correct : Bool) : PitchTraining :=
  let w : PitchTraining :=
    if correct then
      let appliedBonus : Bool := false
      let r : PitchTraining × Bool :=
        if w.m_doubleArmed then
          let w : PitchTraining := { w with m_effectiveBonus := w.m_effectiveBonus + 1 }
          let w : PitchTraining :=
            { w with m_currentTrial := { w.m_currentTrial with usedDouble := true } }
          ({ w with m_doubleArmed := false }, true)
        else (w, appliedBonus)
      let w : PitchTraining := r.1
      let appliedBonus : Bool := r.2
      if w.m_randomDouble && w.m_currentSpec.tokensAllowed && !appliedBonus then
        let w : PitchTraining := { w with m_effectiveBonus := w.m_effectiveBonus + 1 }
        { w with m_currentTrial := { w.m_currentTrial with luckyDouble := true } }
      else w
    else { w with m_doubleArmed := false }
  { w with m_randomDouble := false }

/-- The part of `PitchTraining::finishCurrentTrial` that shows the outcome: the feedback
label and the entry of the trial log list. -/
def reportTrial (w : PitchTraining) (correct timedOut : Bool) (trialNumber : Int) :
    PitchTraining :=
  let w : PitchTraining :=
    if !correct && timedOut then w.updateFeedback "Time up!" false
    else if !correct then w.updateFeedback "Incorrect." false
    else w.updateFeedback "Correct" true
  let w : PitchTraining := { w with m_currentResponseWindowMs := 0 }
  let w : PitchTraining := w.setResponseEnabled false false
  let actualDisplay : String :=
    if w.m_currentTrial.outOfBounds then "other" else w.m_currentTrial.presentedPitch
  let responseDisplay : String :=
    if w.m_currentTrial.response.isEmpty then "none"
    else if w.m_currentTrial.response = "OUT" then "other" else w.m_currentTrial.response
  let positiveLog : Bool := correct && !timedOut
  let r : String × Bool :=
    if timedOut then ("Time expired (target " ++ actualDisplay ++ ")", false)
    else if correct then ("Correct (" ++ actualDisplay ++ ")", positiveLog)
    else
      ("Incorrect (target " ++ actualDisplay ++ ", answered " ++ responseDisplay ++ ")",
        positiveLog)
  let logText : String :=
    if w.m_mode = .SpecialExercise then "[Special] " ++ r.1 else r.1
  w.appendTrialLogEntry trialNumber logText r.2

/-- The part of `PitchTraining::finishCurrentTrial` that settles the trial and appends it
to the trial log, `elapsedMs` being what the trial timer shows (`0` when it is not
running). -/
def recordTrial (w : PitchTraining) (timedOut : Bool) (elapsedMs : Int) : PitchTraining :=
  let w : PitchTraining := { w with responseTimerActive := false }
  let w : PitchTraining :=
    { w with m_currentTrial := { w.m_currentTrial with timedOut := timedOut } }
  let w : PitchTraining :=
    { w with m_currentTrial := { w.m_currentTrial with responseTimeMs := elapsedMs } }
  let trialNumber : Int := w.m_trialsCompleted + 1
  let judged := w.judgeTrial timedOut
  let w : PitchTraining := judged.1
  let correct : Bool := judged.2
  let w : PitchTraining :=
    { w with m_currentTrial := { w.m_currentTrial with correct := correct } }
  let w : PitchTraining :=
    if correct && decide (w.m_mode ≠ .SpecialExercise) then
      { w with m_correctTrials := w.m_correctTrials + 1 }
    else w
  let w : PitchTraining := w.applyTrialBonus correct
  let w : PitchTraining := w.reportTrial correct timedOut trialNumber
  let w : PitchTraining := { w with m_trialLog := w.m_trialLog ++ [w.m_currentTrial] }
  { w with m_trialsCompleted := w.m_trialsCompleted + 1 }

/-- The function `PitchTraining::finishCurrentTrial`: the trial is settled, and the level
or the special exercise resolved once the trials needed are completed. -/
def finishCurrentTrial (w : PitchTraining) (timedOut : Bool) (elapsedMs : Int)
    (clock : Clock) : PitchTraining :=
  if !(w.m_levelActive || w.m_specialContext.active) then w
  else
    let w : PitchTraining := w.recordTrial timedOut elapsedMs
    let needed : Int :=
      if w.m_mode = .SpecialExercise then w.m_specialContext.totalTrials else w.m_requiredTrials
    if w.m_trialsCompleted ≥ needed then
      if w.m_mode = .SpecialExercise then w.resolveSpecialExercise clock
      else w.resolveLevelCompletion clock
    else { w with startTrialEnabled := true }

/-- The function `PitchTraining::prepareNextTrial`. -/
def prepareNextTrial (w : PitchTraining) (draw : TrialDraw) : PitchTraining :=
  let w : PitchTraining := { w with startTrialEnabled := false }
  let w : PitchTraining := w.setResponseEnabled false false
  let w : PitchTraining := { w with m_playbackContext := .Trial }
  let w : PitchTraining := { w with m_currentTrial := {} }
  let w : PitchTraining :=
    if w.m_mode = .SpecialExercise then
      let playTarget := decide (draw.playTarget = 0)
      if playTarget || w.m_outOfBoundsPitches.isEmpty then
        let w : PitchTraining := { w with m_currentTrial :=
          { w.m_currentTrial with presentedPitch := w.m_specialContext.targetPitch } }
        { w with m_currentTrial := { w.m_currentTrial with outOfBounds := false } }
      else
        let fallback := w.m_outOfBoundsPitches.getD draw.fallbackIndex.toNat ""
        let w : PitchTraining :=
          { w with m_currentTrial := { w.m_currentTrial with presentedPitch := fallback } }
        { w with m_currentTrial := { w.m_currentTrial with outOfBounds := true } }
    else
      let pool :=
        w.m_outOfBoundsPitches.foldl
          (fun pool name => if !pool.contains name then pool ++ [name] else pool)
          w.m_trainingPitches
      let w : PitchTraining := { w with m_currentTrial :=
        { w.m_currentTrial with presentedPitch := pool.getD draw.poolIndex.toNat "" } }
      let w : PitchTraining := { w with m_currentTrial :=
        { w.m_currentTrial with
          outOfBounds := w.m_outOfBoundsPitches.contains w.m_currentTrial.presentedPitch } }
      let w : PitchTraining := { w with
        m_randomDouble := w.m_currentSpec.tokensAllowed && decide (draw.luckyDraw = 0) }
      if w.m_randomDouble then w.updateFeedback "Lucky double bonus ready!" true else w
  let w : PitchTraining :=
    if !draw.octaves.isEmpty then
      { w with m_currentTrial :=
        { w.m_currentTrial with octave := draw.octaves.getD draw.octaveIndex.toNat 4 } }
    else w
  let window := w.m_currentSpec.responseWindowMs
  let w : PitchTraining := { w with responseTimerActive := true }
  let w : PitchTraining := { w with m_currentResponseWindowMs := window }
  let w : PitchTraining := { w with statusText := "Tone presented. Identify it." }
  if w.m_mode = .SpecialExercise then w.setResponseEnabled false true
  else w.setResponseEnabled true false

/-- The function `PitchTraining::handleStartTrial`. -/
def handleStartTrial (w : PitchTraining) (draw : TrialDraw) : PitchTraining :=
  if !(w.m_levelActive || w.m_specialContext.active) || w.m_waitingForShepard then w
  else w.prepareNextTrial draw

/-- The function `PitchTraining::handleResponse`, `button` being the button of the given
id, if there is one. -/
def handleResponse (w : PitchTraining) (button : Option ResponseButton) (elapsedMs : Int)
    (clock : Clock) : PitchTraining :=
  if !w.m_levelActive || decide (w.m_mode ≠ .Level) then w
  else
    match button with
    | none => w
    | some button =>
      let isOut := button.outOfBound
      let pitch := button.pitch
      let w : PitchTraining := { w with m_currentTrial :=
        { w.m_currentTrial with response := if isOut then "OUT" else pitch } }
      w.finishCurrentTrial false elapsedMs clock

/-- The function `PitchTraining::handleSpecialResponse`. -/
def handleSpecialResponse (w : PitchTraining) (isTarget : Bool) (elapsedMs : Int)
    (clock : Clock) : PitchTraining :=
  if !w.m_specialContext.active then w
  else
    let w : PitchTraining := { w with m_currentTrial :=
      { w.m_currentTrial with
        response := if isTarget then w.m_specialContext.targetPitch else "OUT" } }
    w.finishCurrentTrial false elapsedMs clock

/-- The function `PitchTraining::handleResponseTimeout`. -/
def handleResponseTimeout (w : PitchTraining) (elapsedMs : Int) (clock : Clock) :
    PitchTraining :=
  w.finishCurrentTrial true elapsedMs clock

/-- The slot connected to the double-bonus button in `PitchTraining::buildUi`. -/
def handleDoubleButton (w : PitchTraining) : PitchTraining :=
  if !w.m_levelActive || !w.m_currentSpec.tokensAllowed then
    w.updateFeedback "Bonus unavailable right now" false
  else
    let r := w.m_state.consumeTokens kTokenCostForDouble
    let w : PitchTraining := { w with m_state := r.2 }
    if !r.1 then
      w.updateFeedback ("You need " ++ toString kTokenCostForDouble ++ " tokens") false
    else
      let w : PitchTraining := { w with m_doubleArmed := true }
      w.updateFeedback "Double bonus armed for the next correct answer" true

end PitchTraining

/-- Level 5 of stage 1 (index 4) at its end: 15 of the 20 trials correct, ten tokens in the
balance. -/
def fifteenOfTwenty : PitchTraining :=
  { m_state := { m_tokens := 10, m_currentLevelIndex := 4 }, m_currentSpec := specForIndex 4,
    m_levelActive := true, m_mode := .Level, m_requiredTrials := 20, m_correctTrials := 15,
    m_trialsCompleted := 20 }

/-- A clock reading: an instant and its day. -/
def sampleClock : Clock := { nowMs := 86400000000, today := 1000 }

/-- The final level at its end with 19 of the 20 trials correct, after two consecutive
passes of it. -/
def finalLevelTwice : PitchTraining :=
  { m_state := { m_currentLevelIndex := 287, m_finalLevelConsecutivePasses := 2 },
    m_currentSpec := specForIndex 287, m_levelActive := true, m_mode := .Level,
    m_requiredTrials := 20, m_correctTrials := 19, m_trialsCompleted := 20 }

/-- An idle engine in a running session, the final level cleared three times and the
cooldown started at instant 0. -/
def awaitingFinalAttempt : PitchTraining :=
  { m_state := { m_currentLevelIndex := 287, m_finalLevelConsecutivePasses := 3,
                 m_finalLevelCooldownStart := .valid 0 },
    m_sessionActive := true }

/-- One trial of a special exercise as the learner goes through it: the draws of the trial,
the answer given with the two buttons (`some true` for the target button, `some false` for
the other) or `none` when the response window runs out, the reading of the trial timer and
the clock at the answer. -/
structure SpecialTrial where
  draw : TrialDraw
  answer : Option Bool
  elapsedMs : Int
  clock : Clock

/-- The handlers that one trial of a special exercise calls: `handleStartTrial`, then
`handleSpecialResponse` or `handleResponseTimeout`. -/
def runSpecialTrial (w : PitchTraining) (t : SpecialTrial) : PitchTraining :=
  let w : PitchTraining := w.handleStartTrial t.draw
  match t.answer with
  | some isTarget => w.handleSpecialResponse isTarget t.elapsedMs t.clock
  | none => w.handleResponseTimeout t.elapsedMs t.clock

/-- A run of trials of a special exercise, one after the other. -/
def runSpecialTrials (w : PitchTraining) (trials : List SpecialTrial) : PitchTraining :=
  trials.foldl runSpecialTrial w

/-- An idle engine in a running session after level 1 of stage 5 (index 96): all ten trials
on F were right and two of the ten trials on distractors, which `recordSummary` has filed
under `"OUT"`; the pointer has moved on to index 101 and a special exercise is due. -/
def markerWeakest : PitchTraining :=
  { m_state :=
      { m_currentLevelIndex := 101, m_levelsSinceSpecial := 15, m_totalLevelAttempts := 15,
        m_history :=
          [{ levelIndex := 96, accuracy := 0.6, passed := true, completedAt := .valid 0,
             perPitch := [("F", { totalTrials := 10, correctTrials := 10 }),
                          ("OUT", { totalTrials := 10, correctTrials := 2 })] }] },
    m_currentSpec := specForIndex 96, m_trainingPitches := stagePitchSet 5,
    m_outOfBoundsPitches := outOfBoundsForStage 5, m_requiredTrials := 20,
    m_correctTrials := 12, m_trialsCompleted := 20, m_sessionActive := true }

/-- A draw that presents the target of a special exercise. -/
def targetDraw : TrialDraw :=
  { playTarget := 0, fallbackIndex := 0, poolIndex := 0, luckyDraw := 1, octaves := [4],
    octaveIndex := 0 }

/-- A special-exercise trial that presents the target and is answered in time with the
target button. -/
def targetAnswered : SpecialTrial :=
  { draw := targetDraw, answer := some true, elapsedMs := 900, clock := sampleClock }

/-- An idle engine in a running session at the last level of stage 4 (index 95), 40 levels
after the last special exercise. -/
def lastOfStageFour : PitchTraining :=
  { m_state := { m_currentLevelIndex := 95, m_levelsSinceSpecial := 40 },
    m_sessionActive := true }

/-- A level with a trial in flight: tone F presented and answered F, a double bonus armed,
five tokens left. -/
def armedTrial : PitchTraining :=
  { m_state := { m_tokens := 5, m_currentLevelIndex := 4 }, m_currentSpec := specForIndex 4,
    m_trainingPitches := stagePitchSet 1, m_outOfBoundsPitches := outOfBoundsForStage 1,
    m_levelActive := true, m_mode := .Level, m_requiredTrials := 20, m_trialsCompleted := 3,
    m_correctTrials := 2, m_doubleArmed := true, m_sessionActive := true,
    m_currentTrial := { presentedPitch := "F", response := "F" },
    responseTimerActive := true }

/-- An idle engine of a new profile in a running session: the level pointer is at the
first level. -/
def freshSession : PitchTraining := { m_sessionActive := true }

/-- A draw that presents the second entry of the pool of a level. -/
def secondOfPool : TrialDraw :=
  { playTarget := 1, fallbackIndex := 0, poolIndex := 1, luckyDraw := 1, octaves := [4],
    octaveIndex := 0 }

/-- The response button of pitch F. -/
def buttonF : ResponseButton := { outOfBound := false, pitch := "F" }

/-- The response button of the out-of-set marker. -/
def buttonOther : ResponseButton := { outOfBound := true, pitch := "" }

/-- A level at stage 2 (index 24, trained pitches F and E) with a trial in flight: tone F
presented and answered E. -/
def nearMiss : PitchTraining :=
  { m_state := { m_currentLevelIndex := 24 }, m_currentSpec := specForIndex 24,
    m_trainingPitches := stagePitchSet 2, m_outOfBoundsPitches := outOfBoundsForStage 2,
    m_levelActive := true, m_mode := .Level, m_requiredTrials := 20, m_trialsCompleted := 3,
    m_correctTrials := 2, m_sessionActive := true,
    m_currentTrial := { presentedPitch := "F", response := "E" },
    responseTimerActive := true }

/-- A level without feedback (position 13 of stage 1, index 12) with a trial in flight:
tone F presented, three trials resolved so far. -/
def silentTrial : PitchTraining :=
  { m_state := { m_currentLevelIndex := 12 }, m_currentSpec := specForIndex 12,
    m_trainingPitches := stagePitchSet 1, m_outOfBoundsPitches := outOfBoundsForStage 1,
    m_levelActive := true, m_mode := .Level, m_requiredTrials := 20, m_trialsCompleted := 3,
    m_correctTrials := 2, m_sessionActive := true,
    m_currentTrial := { presentedPitch := "F" }, m_currentResponseWindowMs := 1843,
    m_playbackContext := .Trial, responseTimerActive := true, responseEnabled := true }

/-- The second phase of a special exercise on F with a trial in flight: the target
presented, three trials of the phase resolved so far. -/
def secondPhaseTrial : PitchTraining :=
  { m_state := { m_currentLevelIndex := 101 }, m_currentSpec := specForIndex 101,
    m_trainingPitches := stagePitchSet 5, m_outOfBoundsPitches := outOfBoundsForStage 5,
    m_mode := .SpecialExercise, m_trialsCompleted := 3, m_sessionActive := true,
    m_specialContext :=
      { active := true, targetPitch := "F", feedbackPhase := false, totalTrials := 22,
        secondPhasePending := false },
    m_currentTrial := { presentedPitch := "F" }, m_playbackContext := .Trial,
    responseTimerActive := true, specialEnabled := true }

/-- The last level of stage 1 (position 24, index 23) at its end: 18 of the 20 trials
correct, ten tokens in the balance. -/
def lastPositionDone : PitchTraining :=
  { m_state := { m_tokens := 10, m_currentLevelIndex := 23 }, m_currentSpec := specForIndex 23,
    m_levelActive := true, m_mode := .Level, m_requiredTrials := 20, m_correctTrials := 18,
    m_trialsCompleted := 20 }

/-! ## Sessions and profiles (`PitchTraining`)

The session timer reading, the directory of the profile that becomes active, its state
file and the outcome of `ProfileManager::setActiveProfile` are arguments of the handlers.
The session button text, the profile widgets and the message boxes are left out. -/

/-- The function `TrainingState::addCountedSeconds`. -/
def TrainingState.addCountedSeconds (st : TrainingState) (seconds : ℚ) : TrainingState :=
  { st with m_countedSeconds := max 0 (st.m_countedSeconds + seconds) }

/-- The function `TrainingState::setProfileDirectory`. -/
def TrainingState.setProfileDirectory (st : TrainingState) (path : String) : TrainingState :=
  { st with m_profileDirectory := path }

/-- The constant `kSessionMinimumSeconds`. -/
def kSessionMinimumSeconds : Int := 15 * 60

namespace PitchTraining

/-- The function `PitchTraining::concludeSessionIfNeeded`, `elapsedMs` being what the
session timer shows. -/
def concludeSessionIfNeeded (w : PitchTraining) (elapsedMs : Int) : PitchTraining :=
  if !w.m_sessionActive then w
  else
    let w : PitchTraining := { w with m_sessionActive := false }
    let elapsedSeconds : Int := elapsedMs.tdiv 1000
    let w : PitchTraining :=
      if elapsedSeconds ≥ kSessionMinimumSeconds then
        let w : PitchTraining :=
          { w with m_state := w.m_state.addCountedSeconds (elapsedSeconds : ℚ) }
        w.updateFeedback
          ("Session logged: " ++ toString (elapsedSeconds.tdiv 60) ++ " minutes counted.") true
      else w
    w.refreshStartLevelButton

/-- The function `PitchTraining::handleSessionToggle`. -/
def handleSessionToggle (w : PitchTraining) (elapsedMs : Int) : PitchTraining :=
  let w : PitchTraining :=
    if w.m_sessionActive then w.concludeSessionIfNeeded elapsedMs
    else { w with m_sessionActive := true }
  w.refreshStartLevelButton

/-- The function `PitchTraining::applyActiveProfile`, `directory` and `file` being the
directory of the active profile and the state file in it. -/
def applyActiveProfile (w : PitchTraining) (directory : String) (file : StateFile) :
    PitchTraining :=
  let w : PitchTraining := { w with m_state := w.m_state.setProfileDirectory directory }
  let w : PitchTraining := { w with m_state := (w.m_state.load file).2 }
  let w : PitchTraining := { w with responseTimerActive := false }
  let w : PitchTraining := w.resetLevelState
  let w : PitchTraining := { w with m_levelActive := false }
  let w : PitchTraining := { w with m_waitingForShepard := false }
  let w : PitchTraining := { w with m_specialContext := {} }
  let w : PitchTraining := { w with m_mode := .Idle }
  let w : PitchTraining := { w with startTrialEnabled := false }
  let w : PitchTraining := { w with sampleEnabled := false }
  let w : PitchTraining := { w with doubleEnabled := false }
  let w : PitchTraining := { w with feedbackText := "" }
  let w : PitchTraining := w.setResponseEnabled false false
  w.refreshStartLevelButton

/-- The function `PitchTraining::switchProfile`: the returned flag and the engine;
`activeId` is the id of the active profile and `canActivate` the outcome of
`ProfileManager::setActiveProfile`. -/
def switchProfile (w : PitchTraining) (profileId activeId : String) (canActivate : Bool)
    (directory : String) (file : StateFile) : Bool × PitchTraining :=
  if profileId.isEmpty || profileId = activeId then (false, w)
  else if !canActivate then (false, w)
  else (true, w.applyActiveProfile directory file)

/-- The function `PitchTraining::handleProfileSelection` for a valid index of the profile
box, `id` and `name` being the id and the text of the entry chosen. -/
def handleProfileSelection (w : PitchTraining) (id name activeId : String)
    (canActivate : Bool) (elapsedMs : Int) (directory : String) (file : StateFile) :
    PitchTraining :=
  if id.isEmpty || id = activeId then w
  else
    let w : PitchTraining := w.concludeSessionIfNeeded elapsedMs
    let r := w.switchProfile id activeId canActivate directory file
    if !r.1 then r.2.updateFeedback "Unable to switch profile." false
    else r.2.updateFeedback ("Switched to profile " ++ name) true

end PitchTraining

/-! ## Runs of completions

A progress state reached from another one by levels and special exercises that come to
their end. What the engine holds at a completion besides the progress state (the level, the
counters, the trial log, the special context) is left open: it is taken from `engine`. -/

/-- A completion: the engine at the call of `resolveLevelCompletion` (or of
`resolveSpecialExercise` when `special` is set), and the clock at the call. -/
structure Completion where
  engine : PitchTraining
  clock : Clock
  special : Bool

/-- The progress state after a completion that starts from the progress state `st`. -/
def applyCompletion (st : TrainingState) (c : Completion) : TrainingState :=
  let w : PitchTraining := { c.engine with m_state := st }
  if c.special then (w.resolveSpecialExercise c.clock).m_state
  else (w.resolveLevelCompletion c.clock).m_state

/-- The progress state after a run of completions. -/
def runCompletions (st : TrainingState) (completions : List Completion) : TrainingState :=
  completions.foldl applyCompletion st

/-- Three passes of the final level in a row. -/
def threeFinalPasses : List Completion :=
  List.replicate 3 { engine := finalLevelTwice, clock := sampleClock, special := false }

/-! ## Runs of a level

What the learner can do while a level is in progress, as a list of events, each the call
of one handler. -/

/-- An event of a level in progress: a trial is started, the double-bonus button is
pressed, a response button is pressed (or a button id without a button is received), or
the response timer fires. -/
inductive LevelEvent
  | startTrial (draw : TrialDraw)
  | armBonus
  | response (button : Option ResponseButton) (elapsedMs : Int) (clock : Clock)
  | timeout (elapsedMs : Int) (clock : Clock)

/-- The handler that an event calls. -/
def applyLevelEvent (w : PitchTraining) : LevelEvent → PitchTraining
  | .startTrial draw => w.handleStartTrial draw
  | .armBonus => w.handleDoubleButton
  | .response button elapsedMs clock => w.handleResponse button elapsedMs clock
  | .timeout elapsedMs clock => w.handleResponseTimeout elapsedMs clock

/-- The engine after a run of events. -/
def runLevelEvents (w : PitchTraining) (events : List LevelEvent) : PitchTraining :=
  events.foldl applyLevelEvent w

/-- The bounds on the counters of a level: `0 ≤ effectiveBonus ≤ correctTrials ≤
trialsCompleted ≤ requiredTrials = 20`. -/
def LevelCounters (s : PitchTraining) : Prop :=
  s.m_requiredTrials = 20 ∧ 0 ≤ s.m_effectiveBonus ∧
    s.m_effectiveBonus ≤ (s.m_correctTrials : ℚ) ∧ s.m_correctTrials ≤ s.m_trialsCompleted ∧
    s.m_trialsCompleted ≤ s.m_requiredTrials

/-- What holds of the engine from the start of the level `spec` on: no special exercise is
active, the level is `spec`, the counters are within their bounds, while the level is
active the mode is Level and a trial is still to come, and once it is not, the newest
summary of the history is the one of the level, with the pass flag and the accuracy that
the counters give. -/
def LevelRun (spec : LevelSpec) (s : PitchTraining) : Prop :=
  s.m_specialContext.active = false ∧ s.m_currentSpec = spec ∧ LevelCounters s ∧
    (s.m_levelActive = true → s.m_mode = .Level ∧ s.m_trialsCompleted < 20) ∧
    (s.m_levelActive = false →
      ∃ summary : LevelSummary, s.m_state.m_history.getLast? = some summary ∧
        summary.passed = s.levelPassed ∧ summary.accuracy = s.actualAccuracy ∧
        summary.specialExercise = false)

/-- What `recordSummary` reads of a trial of the log: whether the pitch was a distractor,
the pitch, and the judgement. -/
def TrialData.tallied (t : TrialData) : Bool × String × Bool :=
  (t.outOfBounds, t.presentedPitch, t.correct)

/-- What holds of the engine between two trials of a level in progress: the level is
active with no tone awaited, the session is on, no special exercise is active, the progress
state, the pitch sets and the specification are those given, 20 trials are required, and the
trials done so far have left `tallies` in the trial log. -/
def TrialsRunning (st : TrainingState) (trained distractors : List String) (spec : LevelSpec)
    (tallies : List (Bool × String × Bool)) (s : PitchTraining) : Prop :=
  s.m_levelActive = true ∧ s.m_mode = .Level ∧ s.m_waitingForShepard = false ∧
    s.m_specialContext.active = false ∧ s.m_sessionActive = true ∧ s.m_requiredTrials = 20 ∧
    s.m_state = st ∧ s.m_trainingPitches = trained ∧ s.m_outOfBoundsPitches = distractors ∧
    s.m_currentSpec = spec ∧ s.m_trialsCompleted = tallies.length ∧
    s.m_trialLog.map TrialData.tallied = tallies

/-- A draw that presents the first entry of the pool of a level. -/
def firstOfPool : TrialDraw :=
  { playTarget := 1, fallbackIndex := 0, poolIndex := 0, luckyDraw := 1, octaves := [4],
    octaveIndex := 0 }

/-- A draw that presents the sixth entry of the pool of a level. -/
def sixthOfPool : TrialDraw :=
  { playTarget := 1, fallbackIndex := 0, poolIndex := 5, luckyDraw := 1, octaves := [4],
    octaveIndex := 0 }

/-- The two events of a trial that is started with `draw` and answered in time with
`button`. -/
def answeredTrial (draw : TrialDraw) (button : ResponseButton) : List LevelEvent :=
  [.startTrial draw, .response (some button) 900 sampleClock]

/-- The events of a level of 20 trials: ten trials present the first entry of the pool and
ten the sixth, and all are answered with button F. -/
def distractorsMissed : List LevelEvent :=
  (List.replicate 10 (answeredTrial firstOfPool buttonF)).flatten
    ++ (List.replicate 10 (answeredTrial sixthOfPool buttonF)).flatten

/-- An idle engine in a running session at level 1 of stage 5 (index 96), 14 levels after
the last special exercise, with an empty history. -/
def beforeFifteenth : PitchTraining :=
  { m_state := { m_currentLevelIndex := 96, m_levelsSinceSpecial := 14,
                 m_totalLevelAttempts := 14 },
    m_sessionActive := true }

/-! # Theorems -/

/-! ## The level table -/

set_option maxRecDepth 1000000 in
theorem levelSpecs_eq_map : levelSpecs = (List.range 288).map levelSpecEntry := by
  rfl

theorem levelSpecs_length : levelSpecs.length = 288 := by
  rw [levelSpecs_eq_map]; simp

theorem levelSpecs_getD (k : Nat) (hk : k < 288) :
    levelSpecs.getD k default = levelSpecEntry k := by
  rw [levelSpecs_eq_map, List.getD_eq_getElem?_getD]
  simp [List.getElem?_map, List.getElem?_range hk]

theorem levelSpecs_get? (k : Nat) (hk : k < 288) :
    levelSpecs.get? k = some (levelSpecEntry k) := by
  rw [levelSpecs_eq_map]
  simp [List.getElem?_map, List.getElem?_range hk]

theorem levelSpecs_head : levelSpecs.head?.getD default = levelSpecEntry 0 := by
  rw [levelSpecs_eq_map]; rfl

theorem levelSpecs_getLast : levelSpecs.getLast?.getD default = levelSpecEntry 287 := by
  rw [levelSpecs_eq_map, show (288 : Nat) = 287 + 1 from rfl, List.range_succ]
  simp

theorem specForIndex_eq (i : Int) :
    specForIndex i = levelSpecEntry (max 0 (min i 287)).toNat := by
  unfold specForIndex
  simp only [levelSpecs_length]
  by_cases h0 : i < 0
  · have : (max 0 (min i 287)).toNat = 0 := by omega
    rw [if_pos h0, this, levelSpecs_head]
  · rw [if_neg h0]
    by_cases h1 : i ≥ ((288 : Nat) : Int)
    · have : (max 0 (min i 287)).toNat = 287 := by omega
      rw [if_pos h1, this, levelSpecs_getLast]
    · have : (max 0 (min i 287)).toNat = i.toNat := by omega
      rw [if_neg h1, this]
      exact levelSpecs_getD _ (by omega)

theorem passAccuracyAt_rising (p : Int) (h1 : 1 ≤ p) (h2 : p < 12) :
    passAccuracyAt p < passAccuracyAt (p + 1) := by
  interval_cases p <;> simp [passAccuracyAt, accuracyTargets] <;> norm_num

theorem passAccuracyAt_second_half (p : Int) (h1 : 13 ≤ p) (h2 : p < 24) :
    passAccuracyAt p ≤ passAccuracyAt (p + 1) := by
  interval_cases p <;> simp [passAccuracyAt, accuracyTargets] <;> norm_num

theorem passAccuracyAt_flat (p : Int) (h1 : 21 ≤ p) (h2 : p ≤ 24) :
    passAccuracyAt p = 0.90 := by
  interval_cases p <;> simp [passAccuracyAt, accuracyTargets]

/-- Claim C1: for every integer index `i`, `specForIndex i` is the entry of the level table
at `k = clamp(i, 0, 287)` and `totalLevelCount` is 288 (the length of the table). The entry
has `globalIndex = k`, `stageIndex = k / 24 + 1` (within 1..12), `levelInStage = k % 24 + 1`
(within 1..24), `trialCount = 20`, feedback exactly on positions up to 12, token rewards
exactly off position 24, and a pass accuracy that is a function of the position alone. That
function rises strictly over positions 1..12 from 0.20 to 0.90, restarts at 0.60 on position
13, never falls over positions 13..24 and is 0.90 on positions 21..24. In particular
`specForIndex 288 = specForIndex 287`. -/
theorem specForIndex_is_table_entry (i : Int) :
    totalLevelCount = 288 ∧ (levelSpecs.length : Int) = totalLevelCount ∧
    levelSpecs.get? (max 0 (min i 287)).toNat = some (specForIndex i) ∧
    (specForIndex i).globalIndex = max 0 (min i 287) ∧
    (specForIndex i).stageIndex = max 0 (min i 287) / 24 + 1 ∧
    1 ≤ (specForIndex i).stageIndex ∧ (specForIndex i).stageIndex ≤ 12 ∧
    (specForIndex i).levelInStage = max 0 (min i 287) % 24 + 1 ∧
    1 ≤ (specForIndex i).levelInStage ∧ (specForIndex i).levelInStage ≤ 24 ∧
    (specForIndex i).trialCount = 20 ∧
    ((specForIndex i).feedback = true ↔ (specForIndex i).levelInStage ≤ 12) ∧
    ((specForIndex i).tokensAllowed = true ↔ (specForIndex i).levelInStage ≠ 24) ∧
    (specForIndex i).passAccuracy = passAccuracyAt (specForIndex i).levelInStage ∧
    (∀ p : Int, 1 ≤ p → p < 12 → passAccuracyAt p < passAccuracyAt (p + 1)) ∧
    passAccuracyAt 1 = 0.20 ∧ passAccuracyAt 12 = 0.90 ∧ passAccuracyAt 13 = 0.60 ∧
    (∀ p : Int, 13 ≤ p → p < 24 → passAccuracyAt p ≤ passAccuracyAt (p + 1)) ∧
    (∀ p : Int, 21 ≤ p → p ≤ 24 → passAccuracyAt p = 0.90) ∧
    specForIndex 288 = specForIndex 287 := by
  have hk : (max 0 (min i 287)).toNat < 288 := by omega
  have hcast : (((max 0 (min i 287)).toNat : Nat) : Int) = max 0 (min i 287) := by omega
  refine ⟨by decide, ?_, ?_, ?_, ?_, ?_, ?_, ?_, ?_, ?_, ?_, ?_, ?_, ?_,
    passAccuracyAt_rising, ?_, ?_, ?_, passAccuracyAt_second_half, passAccuracyAt_flat, ?_⟩
  · rw [levelSpecs_length]; decide
  · rw [specForIndex_eq]; exact levelSpecs_get? _ hk
  · rw [specForIndex_eq]; simp only [levelSpecEntry, buildLevelSpec]; exact hcast
  · rw [specForIndex_eq]; simp only [levelSpecEntry, buildLevelSpec]; omega
  · rw [specForIndex_eq]; simp only [levelSpecEntry, buildLevelSpec]; omega
  · rw [specForIndex_eq]; simp only [levelSpecEntry, buildLevelSpec]; omega
  · rw [specForIndex_eq]; simp only [levelSpecEntry, buildLevelSpec]; omega
  · rw [specForIndex_eq]; simp only [levelSpecEntry, buildLevelSpec]; omega
  · rw [specForIndex_eq]; simp only [levelSpecEntry, buildLevelSpec]; omega
  · rw [specForIndex_eq]; simp only [levelSpecEntry, buildLevelSpec]
  · rw [specForIndex_eq]; simp only [levelSpecEntry, buildLevelSpec, decide_eq_true_eq]
  · rw [specForIndex_eq]
    simp only [levelSpecEntry, buildLevelSpec, decide_eq_true_eq, kLevelsPerStage]
  · rw [specForIndex_eq]; simp only [levelSpecEntry, buildLevelSpec, passAccuracyAt]
  · simp [passAccuracyAt, accuracyTargets]
  · simp [passAccuracyAt, accuracyTargets]
  · simp [passAccuracyAt, accuracyTargets]
  · rw [specForIndex_eq, specForIndex_eq]; rfl

theorem mem_levelSpecs {e : LevelSpec} (he : e ∈ levelSpecs) :
    ∃ k : Nat, k < 288 ∧ e = levelSpecEntry k := by
  rw [levelSpecs_eq_map, List.mem_map] at he
  obtain ⟨k, hk, rfl⟩ := he
  exact ⟨k, List.mem_range.mp hk, rfl⟩

theorem specForIndex_mem (i : Int) : specForIndex i ∈ levelSpecs := by
  rw [specForIndex_eq, levelSpecs_eq_map, List.mem_map]
  exact ⟨_, List.mem_range.mpr (by omega), rfl⟩

/-- Claim C2: for every stage `s` in 1..12 and position `p` in 1..24 the table has a level
with that stage and position (the one at index `(s - 1) * 24 + (p - 1)`), and every level of
the table with that stage and position has the response window
`max(1183, 2028 - (s - 1) * 80 - rtAdjustment)` ms, where `rtAdjustment` is `(p - 1) * 15`
plus 70 once `p > 12`. Every level of the table has a response window within
[1183, 2028] ms. -/
theorem responseWindow_formula (s p : Int) (hs1 : 1 ≤ s) (hs2 : s ≤ 12)
    (hp1 : 1 ≤ p) (hp2 : p ≤ 24) :
    (specForIndex ((s - 1) * 24 + (p - 1)) ∈ levelSpecs ∧
      (specForIndex ((s - 1) * 24 + (p - 1))).stageIndex = s ∧
      (specForIndex ((s - 1) * 24 + (p - 1))).levelInStage = p) ∧
    (∀ e ∈ levelSpecs, e.stageIndex = s → e.levelInStage = p →
      e.responseWindowMs
        = max 1183 (2028 - (s - 1) * 80 - ((p - 1) * 15 + if p > 12 then 70 else 0))) ∧
    (∀ e ∈ levelSpecs, 1183 ≤ e.responseWindowMs ∧ e.responseWindowMs ≤ 2028) := by
  refine ⟨⟨specForIndex_mem _, ?_, ?_⟩, ?_, ?_⟩
  · rw [specForIndex_eq]; simp only [levelSpecEntry, buildLevelSpec]; omega
  · rw [specForIndex_eq]; simp only [levelSpecEntry, buildLevelSpec]; omega
  · intro e he hst hlv
    obtain ⟨k, hk, rfl⟩ := mem_levelSpecs he
    simp only [levelSpecEntry, buildLevelSpec] at hst hlv ⊢
    subst hst hlv
    split_ifs <;> omega
  · intro e he
    obtain ⟨k, hk, rfl⟩ := mem_levelSpecs he
    simp only [levelSpecEntry, buildLevelSpec]
    split_ifs <;> omega

theorem responseWindow_formula_witness :
    (specForIndex ((12 - 1) * 24 + (24 - 1)) ∈ levelSpecs ∧
      (specForIndex ((12 - 1) * 24 + (24 - 1))).stageIndex = 12 ∧
      (specForIndex ((12 - 1) * 24 + (24 - 1))).levelInStage = 24) ∧
    (∀ e ∈ levelSpecs, e.stageIndex = 12 → e.levelInStage = 24 →
      e.responseWindowMs
        = max 1183 (2028 - (12 - 1) * 80 - ((24 - 1) * 15 + if (24 : Int) > 12 then 70 else 0))) ∧
    (∀ e ∈ levelSpecs, 1183 ≤ e.responseWindowMs ∧ e.responseWindowMs ≤ 2028) :=
  responseWindow_formula 12 24 (by decide) (by decide) (by decide) (by decide)

/-! ## Pitch sets -/

theorem stagePitchSet_eq_take (s : Int) (h1 : 1 ≤ s) (h2 : s ≤ 12) :
    stagePitchSet s = pitchIntroductionOrder.take s.toNat := by
  interval_cases s <;>
    simp [stagePitchSet, stagePitchLoop, chromaticOrder, buildChromaticOrder, indexOf,
      pitchIntroductionOrder]

theorem stagePitchSet_thirteen : stagePitchSet 13 = pitchIntroductionOrder := by
  simp [stagePitchSet, stagePitchLoop, chromaticOrder, buildChromaticOrder, indexOf,
    pitchIntroductionOrder]

theorem chromaticIndices_take (s : Int) (h1 : 1 ≤ s) (h2 : s ≤ 12) :
    chromaticIndices (pitchIntroductionOrder.take s.toNat)
      = ([5, 4, 6, 3, 7, 2, 8, 1, 9, 0, 10, 11] : List Int).take s.toNat := by
  interval_cases s <;>
    simp [chromaticIndices, chromaticOrder, buildChromaticOrder, indexOf,
      pitchIntroductionOrder]

/-- Claim C3, amended: for every stage `s` in 1..12, `stagePitchSet s` is the first `s`
entries of F, E, F#, D#, G, D, G#, C#, A, C, A#, B. It has exactly `s` pitches, all distinct,
contains F, and its chromatic indices are exactly those of a range `lo..hi` within 0..11. For
`s` up to 11, `stagePitchSet (s + 1)` is `stagePitchSet s` followed by one pitch that
`stagePitchSet s` does not hold; `stagePitchSet 13` equals `stagePitchSet 12`, all twelve
pitches being in use by then. -/
theorem stagePitchSet_initial_segment (s : Int) (h1 : 1 ≤ s) (h2 : s ≤ 12) :
    stagePitchSet s = pitchIntroductionOrder.take s.toNat ∧
    ((stagePitchSet s).length : Int) = s ∧
    (stagePitchSet s).Nodup ∧
    "F" ∈ stagePitchSet s ∧
    (∃ lo hi : Int, 0 ≤ lo ∧ lo ≤ hi ∧ hi ≤ 11 ∧
      ∀ i : Int, i ∈ chromaticIndices (stagePitchSet s) ↔ lo ≤ i ∧ i ≤ hi) ∧
    (s ≤ 11 → ∃ x, x ∉ stagePitchSet s ∧ stagePitchSet (s + 1) = stagePitchSet s ++ [x]) ∧
    stagePitchSet 13 = stagePitchSet 12 := by
  have hs := stagePitchSet_eq_take s h1 h2
  refine ⟨hs, ?_, ?_, ?_, ?_, ?_, ?_⟩
  · rw [hs]; interval_cases s <;> simp [pitchIntroductionOrder]
  · rw [hs]; interval_cases s <;> simp [pitchIntroductionOrder]
  · rw [hs]; interval_cases s <;> simp [pitchIntroductionOrder]
  · refine ⟨max 0 (5 - s / 2), s - 1 + max 0 (5 - s / 2), by omega, by omega, by omega, ?_⟩
    rw [hs, chromaticIndices_take s h1 h2]
    interval_cases s <;> simp <;> omega
  · intro h11
    rw [hs, stagePitchSet_eq_take (s + 1) (by omega) (by omega)]
    refine ⟨pitchIntroductionOrder.getD s.toNat "", ?_, ?_⟩ <;>
      interval_cases s <;> simp [pitchIntroductionOrder]
  · rw [stagePitchSet_thirteen, stagePitchSet_eq_take 12 (by decide) (by decide)]
    simp [pitchIntroductionOrder]

theorem stagePitchSet_initial_segment_witness :
    stagePitchSet 3 = pitchIntroductionOrder.take (3 : Int).toNat ∧
    ((stagePitchSet 3).length : Int) = 3 ∧
    (stagePitchSet 3).Nodup ∧
    "F" ∈ stagePitchSet 3 ∧
    (∃ lo hi : Int, 0 ≤ lo ∧ lo ≤ hi ∧ hi ≤ 11 ∧
      ∀ i : Int, i ∈ chromaticIndices (stagePitchSet 3) ↔ lo ≤ i ∧ i ≤ hi) ∧
    ((3 : Int) ≤ 11 → ∃ x, x ∉ stagePitchSet 3 ∧ stagePitchSet (3 + 1) = stagePitchSet 3 ++ [x]) ∧
    stagePitchSet 13 = stagePitchSet 12 :=
  stagePitchSet_initial_segment 3 (by decide) (by decide)

/-- Claim C3 as stated fails at the last stage `s = 12`: `stagePitchSet (12 + 1)` is not
`stagePitchSet 12` followed by a new pitch (the loop has no thirteenth pitch to add, and
returns the twelve of stage 12). -/
theorem stagePitchSet_no_thirteenth_pitch :
    ¬ ∃ x, x ∉ stagePitchSet 12 ∧ stagePitchSet (12 + 1) = stagePitchSet 12 ++ [x] := by
  rintro ⟨x, -, h⟩
  have hlen := congrArg List.length h
  rw [show ((12 : Int) + 1) = 13 by norm_num, stagePitchSet_thirteen,
    stagePitchSet_eq_take 12 (by decide) (by decide)] at hlen
  simp [pitchIntroductionOrder] at hlen

theorem outOfBoundsForStage_eq (s : Int) (h1 : 1 ≤ s) (h2 : s ≤ 12) :
    outOfBoundsForStage s
      = (([max 0 (5 - s / 2) - 1, max 0 (5 - s / 2) - 2,
            s - 1 + max 0 (5 - s / 2) + 1, s - 1 + max 0 (5 - s / 2) + 2] : List Int).filter
          (fun i => 0 ≤ i ∧ i ≤ 11)).map (fun i => chromaticOrder.getD i.toNat "") := by
  unfold outOfBoundsForStage
  simp only [stagePitchSet_eq_take s h1 h2]
  have := chromaticIndices_take s h1 h2
  unfold chromaticIndices at this
  simp only [this]
  interval_cases s <;>
    simp [sortInts, removeDuplicates, chromaticOrder, buildChromaticOrder,
      pitchIntroductionOrder, List.filter]

/-- Claim C4: for every stage `s` in 1..12, with `lo` the lowest and `hi` the highest
chromatic index of `stagePitchSet s`, `outOfBoundsForStage s` is the list of the pitches at
the chromatic indices `lo - 1`, `lo - 2`, `hi + 1`, `hi + 2` that lie within 0..11, in that
order. It has no duplicates, at most 4 entries, and no pitch in common with
`stagePitchSet s`. -/
theorem outOfBoundsForStage_neighbours (s : Int) (h1 : 1 ≤ s) (h2 : s ≤ 12) :
    ∃ lo hi : Int,
      (lo ∈ chromaticIndices (stagePitchSet s) ∧
        ∀ j ∈ chromaticIndices (stagePitchSet s), lo ≤ j) ∧
      (hi ∈ chromaticIndices (stagePitchSet s) ∧
        ∀ j ∈ chromaticIndices (stagePitchSet s), j ≤ hi) ∧
      outOfBoundsForStage s
        = (([lo - 1, lo - 2, hi + 1, hi + 2] : List Int).filter
            (fun i => 0 ≤ i ∧ i ≤ 11)).map (fun i => chromaticOrder.getD i.toNat "") ∧
      (outOfBoundsForStage s).Nodup ∧
      (outOfBoundsForStage s).length ≤ 4 ∧
      ∀ x ∈ outOfBoundsForStage s, x ∉ stagePitchSet s := by
  refine ⟨max 0 (5 - s / 2), s - 1 + max 0 (5 - s / 2), ?_, ?_,
    outOfBoundsForStage_eq s h1 h2, ?_, ?_, ?_⟩
  · rw [stagePitchSet_eq_take s h1 h2, chromaticIndices_take s h1 h2]
    interval_cases s <;> simp
  · rw [stagePitchSet_eq_take s h1 h2, chromaticIndices_take s h1 h2]
    interval_cases s <;> simp
  · rw [outOfBoundsForStage_eq s h1 h2]
    interval_cases s <;> simp [chromaticOrder, buildChromaticOrder, List.filter]
  · rw [outOfBoundsForStage_eq s h1 h2]
    interval_cases s <;> simp [List.filter]
  · rw [outOfBoundsForStage_eq s h1 h2, stagePitchSet_eq_take s h1 h2]
    interval_cases s <;>
      simp [chromaticOrder, buildChromaticOrder, pitchIntroductionOrder, List.filter]

theorem outOfBoundsForStage_neighbours_witness :
    ∃ lo hi : Int,
      (lo ∈ chromaticIndices (stagePitchSet 10) ∧
        ∀ j ∈ chromaticIndices (stagePitchSet 10), lo ≤ j) ∧
      (hi ∈ chromaticIndices (stagePitchSet 10) ∧
        ∀ j ∈ chromaticIndices (stagePitchSet 10), j ≤ hi) ∧
      outOfBoundsForStage 10
        = (([lo - 1, lo - 2, hi + 1, hi + 2] : List Int).filter
            (fun i => 0 ≤ i ∧ i ≤ 11)).map (fun i => chromaticOrder.getD i.toNat "") ∧
      (outOfBoundsForStage 10).Nodup ∧
      (outOfBoundsForStage 10).length ≤ 4 ∧
      ∀ x ∈ outOfBoundsForStage 10, x ∉ stagePitchSet 10 :=
  outOfBoundsForStage_neighbours 10 (by decide) (by decide)

/-! ## Tokens -/

/-- Claim C7, amended: for every state with balance `b` and every amount `n`,
`consumeTokens n` returns `true` and leaves the whole state unchanged when `n ≤ 0`; returns
`false` and leaves the whole state unchanged when `0 < n` and `b < n`; and when `0 < n ≤ b`
returns `true`, the balance becomes `b - n`, the tokens-spent counter becomes
`max(0, spent + n)` and nothing else changes. The counter thus grows by `n` whenever it was
not negative. -/
theorem consumeTokens_cases (st : TrainingState) (n : Int) :
    (n ≤ 0 → st.consumeTokens n = (true, st)) ∧
    (0 < n → st.m_tokens < n → st.consumeTokens n = (false, st)) ∧
    (0 < n → n ≤ st.m_tokens →
      st.consumeTokens n
        = (true, { st with m_tokens := st.m_tokens - n,
                           m_tokensSpent := max 0 (st.m_tokensSpent + n) }) ∧
      (0 ≤ st.m_tokensSpent →
        (st.consumeTokens n).2.m_tokensSpent = st.m_tokensSpent + n)) := by
  refine ⟨?_, ?_, ?_⟩
  · intro h
    simp [TrainingState.consumeTokens, h]
  · intro h0 h1
    simp [TrainingState.consumeTokens, Int.not_le.mpr h0, h1]
  · intro h0 h1
    have h2 : ¬ st.m_tokens < n := Int.not_lt.mpr h1
    refine ⟨by simp [TrainingState.consumeTokens, TrainingState.incrementTokensSpent,
      Int.not_le.mpr h0, h2], ?_⟩
    intro h3
    simp only [TrainingState.consumeTokens, TrainingState.incrementTokensSpent,
      Int.not_le.mpr h0, h2, if_false]
    omega

theorem consumeTokens_cases_witness :
    tenTokens.consumeTokens 4
        = (true, { tenTokens with m_tokens := tenTokens.m_tokens - 4,
                                  m_tokensSpent := max 0 (tenTokens.m_tokensSpent + 4) }) ∧
    (tenTokens.consumeTokens 4).2.m_tokensSpent = tenTokens.m_tokensSpent + 4 ∧
    tenTokens.consumeTokens 11 = (false, tenTokens) ∧
    tenTokens.consumeTokens 0 = (true, tenTokens) :=
  have h4 := (consumeTokens_cases tenTokens 4).2.2 (by decide) (by decide)
  ⟨h4.1, h4.2 (by decide), (consumeTokens_cases tenTokens 11).2.1 (by decide) (by decide),
    (consumeTokens_cases tenTokens 0).1 (by decide)⟩

/-- Claim C7 as stated fails for a negative amount: the call succeeds and changes
nothing, where the claim has the balance become `10 - (-1)`. -/
theorem consumeTokens_negative_amount :
    ¬ (tenTokens.m_tokens < -1) ∧
    tenTokens.consumeTokens (-1) = (true, tenTokens) ∧
    (tenTokens.consumeTokens (-1)).2.m_tokens ≠ tenTokens.m_tokens - (-1) := by
  decide

/-! ## History and the state invariant -/

theorem trimHistoryLoop_eq_drop (h : List LevelSummary) :
    TrainingState.trimHistoryLoop h = h.drop (h.length - 80) := by
  generalize hn : h.length = n
  induction n using Nat.strong_induction_on generalizing h with
  | _ n ih =>
    subst hn
    rw [TrainingState.trimHistoryLoop]
    by_cases hgt : (h.length : Int) > TrainingState.kMaxHistory
    · rw [dif_pos hgt]
      simp only [TrainingState.kMaxHistory] at hgt
      cases h with
      | nil => simp at hgt
      | cons a t =>
        have hlen : (a :: t).length = t.length + 1 := rfl
        rw [List.tail_cons, ih t.length (by omega) t rfl]
        have : (a :: t).length - 80 = (t.length - 80) + 1 := by omega
        rw [this, List.drop_succ_cons]
    · rw [dif_neg hgt]
      simp only [TrainingState.kMaxHistory] at hgt
      have : h.length - 80 = 0 := by omega
      rw [this, List.drop_zero]

theorem recordLevelSummary_history (st : TrainingState) (s : LevelSummary) :
    (st.recordLevelSummary s).m_history
      = (st.m_history ++ [s]).drop (st.m_history.length + 1 - 80) := by
  simp [TrainingState.recordLevelSummary, TrainingState.trimHistory, trimHistoryLoop_eq_drop]

/-- Claim C9: for every history `h` of at most 80 summaries and every summary `s`,
`recordLevelSummary s` yields `h` followed by `s` when `h` has fewer than 80 entries, and
`h` without its first (oldest) entry followed by `s` when it has 80. In both cases `s` is the
last (newest) entry, the entries kept are a final segment of `h` in their old order, and the
size is `min(80, size + 1)`, at most 80. -/
theorem recordLevelSummary_appends_and_evicts (st : TrainingState) (s : LevelSummary)
    (hcap : st.m_history.length ≤ 80) :
    (st.m_history.length < 80 → (st.recordLevelSummary s).m_history = st.m_history ++ [s]) ∧
    (st.m_history.length = 80 →
      (st.recordLevelSummary s).m_history = st.m_history.tail ++ [s]) ∧
    (st.recordLevelSummary s).m_history.getLast? = some s ∧
    (∃ kept, (st.recordLevelSummary s).m_history = kept ++ [s] ∧ kept <:+ st.m_history) ∧
    (st.recordLevelSummary s).m_history.length ≤ 80 ∧
    (st.recordLevelSummary s).m_history.length = min 80 (st.m_history.length + 1) := by
  have hrec := recordLevelSummary_history st s
  have hlt : st.m_history.length < 80 →
      (st.recordLevelSummary s).m_history = st.m_history ++ [s] := by
    intro h
    have : st.m_history.length + 1 - 80 = 0 := by omega
    rw [hrec, this, List.drop_zero]
  have heq : st.m_history.length = 80 →
      (st.recordLevelSummary s).m_history = st.m_history.tail ++ [s] := by
    intro h
    have : st.m_history.length + 1 - 80 = 1 := by omega
    rw [hrec, this]
    cases hh : st.m_history with
    | nil => rw [hh] at h; simp at h
    | cons a t => simp
  have hkept : ∃ kept, (st.recordLevelSummary s).m_history = kept ++ [s] ∧
      kept <:+ st.m_history := by
    rcases Nat.lt_or_ge st.m_history.length 80 with h | h
    · exact ⟨st.m_history, hlt h, List.suffix_refl _⟩
    · exact ⟨st.m_history.tail, heq (by omega), List.tail_suffix _⟩
  refine ⟨hlt, heq, ?_, hkept, ?_, ?_⟩
  · obtain ⟨kept, hk, -⟩ := hkept
    rw [hk]; simp
  · rw [hrec]; simp; omega
  · rw [hrec]; simp; omega

theorem recordLevelSummary_appends_and_evicts_witness :
    fullHistory.m_history.length ≤ 80 ∧
    (fullHistory.recordLevelSummary sampleSummary).m_history
      = fullHistory.m_history.tail ++ [sampleSummary] ∧
    (fullHistory.recordLevelSummary sampleSummary).m_history.length ≤ 80 :=
  have h := recordLevelSummary_appends_and_evicts fullHistory sampleSummary (by decide)
  ⟨by decide, h.2.1 (by decide), h.2.2.2.2.1⟩

/-- Claim C8: from any state with `0 ≤ currentLevelIndex < 288`, `tokens ≥ 0` and at most
80 summaries in the history, `setCurrentLevelIndex i` sets the index to `clamp(i, 0, 287)`,
`addTokens n` sets the balance to `max(0, balance + n)`, and each of these two,
`consumeTokens m` and `recordLevelSummary s` yields, for every argument, a state that again
satisfies the three conditions. -/
theorem invariant_preserved (st : TrainingState) (hinv : st.Invariant)
    (i n m : Int) (s : LevelSummary) :
    ((st.setCurrentLevelIndex i).m_currentLevelIndex = max 0 (min i 287) ∧
      (st.setCurrentLevelIndex i).Invariant) ∧
    ((st.addTokens n).m_tokens = max 0 (st.m_tokens + n) ∧ (st.addTokens n).Invariant) ∧
    (st.consumeTokens m).2.Invariant ∧
    (st.recordLevelSummary s).Invariant := by
  obtain ⟨h0, h1, h2, h3⟩ := hinv
  refine ⟨⟨?_, ?_⟩, ⟨rfl, ?_⟩, ?_, ?_⟩
  · simp [TrainingState.setCurrentLevelIndex, totalLevelCount, kLevelsPerStage, kTotalPitches]
  · simp only [TrainingState.Invariant, TrainingState.setCurrentLevelIndex, totalLevelCount,
      kLevelsPerStage, kTotalPitches]
    omega
  · simp only [TrainingState.Invariant, TrainingState.addTokens]
    omega
  · simp only [TrainingState.Invariant, TrainingState.consumeTokens,
      TrainingState.incrementTokensSpent]
    split_ifs <;> simp only [] <;> omega
  · have hrec := recordLevelSummary_history st s
    have hlen : (st.recordLevelSummary s).m_history.length ≤ 80 := by
      rw [hrec]; simp; omega
    refine ⟨?_, ?_, ?_, hlen⟩ <;>
      simpa [TrainingState.recordLevelSummary, TrainingState.trimHistory]

theorem invariant_preserved_witness :
    sampleState.Invariant ∧
    ((sampleState.setCurrentLevelIndex 300).m_currentLevelIndex = max 0 (min 300 287) ∧
      (sampleState.setCurrentLevelIndex 300).Invariant) ∧
    ((sampleState.addTokens (-25)).m_tokens = max 0 (sampleState.m_tokens + -25) ∧
      (sampleState.addTokens (-25)).Invariant) ∧
    (sampleState.consumeTokens 4).2.Invariant ∧
    (sampleState.recordLevelSummary sampleSummary).Invariant :=
  have hinv : sampleState.Invariant := by
    simp [TrainingState.Invariant, sampleState]
  ⟨hinv, invariant_preserved sampleState hinv 300 (-25) 4 sampleSummary⟩

/-! ## Daily streak -/

/-- Claim C10: `markActivity` run on the calendar day `today`. With no previous activity
date the streak becomes 1; with a previous date equal to `today` the streak is unchanged;
with a previous date one day before `today` the streak grows by 1; for every other gap
(exactly 2 days, more than 2 days, or a previous date after `today`) the streak becomes 1.
In every case the last-activity date becomes `today`. So from a streak of 1 with the
previous activity the day before, calls on consecutive days give 2, then 3, and a call
after a gap of 2 days gives 1. -/
theorem markActivity_streak (st : TrainingState) (today : Int) :
    (st.m_lastActivityDate = .invalid →
      (st.markActivity (.valid today)).m_streakCount = 1) ∧
    (st.m_lastActivityDate = .valid today →
      (st.markActivity (.valid today)).m_streakCount = st.m_streakCount) ∧
    (st.m_lastActivityDate = .valid (today - 1) →
      (st.markActivity (.valid today)).m_streakCount = st.m_streakCount + 1) ∧
    (∀ last : Int, st.m_lastActivityDate = .valid last →
      (today - last = 2 ∨ today - last > 2 ∨ today - last < 0) →
      (st.markActivity (.valid today)).m_streakCount = 1) ∧
    (st.markActivity (.valid today)).m_lastActivityDate = .valid today ∧
    (st.m_lastActivityDate = .valid (today - 1) → st.m_streakCount = 1 →
      (st.markActivity (.valid today)).m_streakCount = 2 ∧
      ((st.markActivity (.valid today)).markActivity (.valid (today + 1))).m_streakCount = 3 ∧
      (((st.markActivity (.valid today)).markActivity (.valid (today + 1))).markActivity
        (.valid (today + 3))).m_streakCount = 1) := by
  have hlast : ∀ (t : TrainingState) (d : Int),
      (t.markActivity (.valid d)).m_lastActivityDate = .valid d := by
    intro t d
    simp [TrainingState.markActivity, QDate.isValid]
  have hnext : ∀ (t : TrainingState) (d : Int), t.m_lastActivityDate = .valid (d - 1) →
      (t.markActivity (.valid d)).m_streakCount = t.m_streakCount + 1 := by
    intro t d h
    simp [TrainingState.markActivity, h, QDate.isValid, QDate.daysTo]
  have hgap : ∀ (t : TrainingState) (d last : Int), t.m_lastActivityDate = .valid last →
      (d - last = 2 ∨ d - last > 2 ∨ d - last < 0) →
      (t.markActivity (.valid d)).m_streakCount = 1 := by
    intro t d last h hg
    have h0 : ¬ d - last = 0 := by omega
    have h1 : ¬ d - last = 1 := by omega
    simp [TrainingState.markActivity, h, QDate.isValid, QDate.daysTo, h0, h1]
  refine ⟨?_, ?_, hnext st today, hgap st today, hlast st today, ?_⟩
  · intro h
    simp [TrainingState.markActivity, h, QDate.isValid]
  · intro h
    simp [TrainingState.markActivity, h, QDate.isValid, QDate.daysTo]
  · intro h hs
    have h2 : (st.markActivity (.valid today)).m_streakCount = 2 := by
      rw [hnext st today h, hs]; rfl
    have h3 : ((st.markActivity (.valid today)).markActivity
        (.valid (today + 1))).m_streakCount = 3 := by
      rw [hnext _ (today + 1) (by rw [hlast]; simp), h2]; rfl
    refine ⟨h2, h3, ?_⟩
    exact hgap _ (today + 3) (today + 1) (hlast _ _) (by omega)

theorem markActivity_streak_witness :
    sampleState.m_lastActivityDate = .valid (101 - 1) ∧ sampleState.m_streakCount = 1 ∧
    (sampleState.markActivity (.valid 101)).m_streakCount = 2 ∧
    ((sampleState.markActivity (.valid 101)).markActivity (.valid (101 + 1))).m_streakCount
      = 3 ∧
    (((sampleState.markActivity (.valid 101)).markActivity (.valid (101 + 1))).markActivity
      (.valid (101 + 3))).m_streakCount = 1 :=
  ⟨by decide, by decide, (markActivity_streak sampleState 101).2.2.2.2.2 (by decide) (by decide)⟩

/-! ## Persistence -/

theorem toInt_ofInt (n : Int) (h : IsInt32 n) : (QJsonValue.ofInt n).toInt = n := by
  obtain ⟨h1, h2⟩ := h
  simp [QJsonValue.toInt, QJsonValue.ofInt, h1, h2]

theorem insertEntry_of_not_mem {α : Type} (entries : List (String × α)) (key : String)
    (v : α) (h : key ∉ entries.map Prod.fst) :
    insertEntry entries key v = entries ++ [(key, v)] := by
  unfold insertEntry
  have : entries.any (fun kv => kv.1 == key) = false := by
    rw [List.any_eq_false]
    intro kv hkv hk
    exact h (List.mem_map.mpr ⟨kv, hkv, by simpa using hk⟩)
  rw [this]; simp

theorem foldl_insertEntry {α β : Type} (g : String × α → β) (l : List (String × α)) :
    ∀ acc : List (String × β), (l.map Prod.fst).Nodup →
      (∀ k ∈ l.map Prod.fst, k ∉ acc.map Prod.fst) →
      l.foldl (fun o it => insertEntry o it.1 (g it)) acc
        = acc ++ l.map (fun it => (it.1, g it)) := by
  induction l with
  | nil => intro acc _ _; simp
  | cons a t ih =>
    intro acc hnd hdis
    rw [List.map_cons, List.nodup_cons] at hnd
    rw [List.foldl_cons, insertEntry_of_not_mem acc a.1 (g a)
      (hdis a.1 (by simp)), ih _ hnd.2]
    · simp
    · intro k hk
      simp only [List.map_append, List.map_cons, List.map_nil, List.mem_append,
        List.mem_singleton, not_or]
      refine ⟨hdis k (by simp [List.mem_map] at hk ⊢; right; exact hk), ?_⟩
      rintro rfl
      exact hnd.1 hk

theorem foldl_append_singleton {α β : Type} (f : α → β) (l : List α) (acc : List β) :
    l.foldl (fun acc x => acc ++ [f x]) acc = acc ++ l.map f := by
  induction l generalizing acc with
  | nil => simp
  | cons a t ih => simp [ih]

theorem statsFromJson_statsToJson (stats : PitchSummary)
    (h : IsInt32 stats.totalTrials ∧ IsInt32 stats.correctTrials) :
    statsFromJson (statsToJson stats) = stats := by
  simp [statsFromJson, statsToJson, QJsonValue.toObject, QJsonObject.value,
    toInt_ofInt _ h.1, toInt_ofInt _ h.2]

theorem toJson_eq (s : LevelSummary) (h : (s.perPitch.map Prod.fst).Nodup) :
    s.toJson =
      [("levelIndex", .ofInt s.levelIndex), ("accuracy", .double s.accuracy),
       ("passed", .bool s.passed), ("special", .bool s.specialExercise),
       ("completedAt", .string s.completedAt.toString),
       ("perPitch", .object (s.perPitch.map (fun it => (it.1, statsToJson it.2))))] := by
  have hfold := foldl_insertEntry (fun it : String × PitchSummary => statsToJson it.2)
    s.perPitch [] h (by simp)
  simp only [List.nil_append] at hfold
  have hshape : s.toJson =
      [("levelIndex", .ofInt s.levelIndex), ("accuracy", .double s.accuracy),
       ("passed", .bool s.passed), ("special", .bool s.specialExercise),
       ("completedAt", .string s.completedAt.toString),
       ("perPitch", .object
          (s.perPitch.foldl (fun o it => insertEntry o it.1 (statsToJson it.2)) []))] := by
    simp [LevelSummary.toJson, QJsonObject.insert, insertEntry, statsToJson]
  rw [hshape, hfold]

theorem foldl_perPitch (l : List (String × QJsonValue)) (s0 : LevelSummary) :
    l.foldl (fun (summary : LevelSummary) it =>
        { summary with perPitch := summary.perPitch.insert it.1 (statsFromJson it.2) }) s0
      = { s0 with perPitch :=
            l.foldl (fun h it => insertEntry h it.1 (statsFromJson it.2)) s0.perPitch } := by
  induction l generalizing s0 with
  | nil => rfl
  | cons a t ih =>
    simp only [List.foldl_cons]
    rw [ih]
    rfl

theorem fromJson_eq (obj : QJsonObject) :
    LevelSummary.fromJson obj =
      { levelIndex := (obj.value "levelIndex").toInt
        accuracy := (obj.value "accuracy").toDouble
        passed := (obj.value "passed").toBool
        specialExercise := (obj.value "special").toBool
        completedAt := QDateTime.fromString (obj.value "completedAt").toString
        perPitch := (obj.value "perPitch").toObject.foldl
          (fun h it => insertEntry h it.1 (statsFromJson it.2)) [] } := by
  unfold LevelSummary.fromJson
  exact foldl_perPitch _ _

theorem wholeSeconds_fromString_toString (dt : QDateTime) :
    QDateTime.fromString dt.toString = dt.wholeSeconds := by
  cases dt <;> rfl

theorem fromJson_toJson (s : LevelSummary) (h : s.WellFormed) :
    LevelSummary.fromJson s.toJson = s.wholeSeconds := by
  obtain ⟨hidx, hnd, hstats⟩ := h
  have hfold := foldl_insertEntry (fun it : String × QJsonValue => statsFromJson it.2)
    (s.perPitch.map (fun it => (it.1, statsToJson it.2))) [] (by simpa [List.map_map] using hnd)
    (by simp)
  have hmap : (s.perPitch.map (fun it => (it.1, statsToJson it.2))).map
      (fun it => (it.1, statsFromJson it.2)) = s.perPitch := by
    rw [List.map_map]
    conv_rhs => rw [← List.map_id s.perPitch]
    apply List.map_congr_left
    intro it hit
    simp [statsFromJson_statsToJson it.2 (hstats it hit)]
  rw [hmap, List.nil_append] at hfold
  rw [fromJson_eq, toJson_eq s hnd]
  simp only [QJsonObject.value, List.find?]
  simp [QJsonValue.toObject, QJsonValue.toDouble, QJsonValue.toBool, QJsonValue.toString,
    toInt_ofInt _ hidx, wholeSeconds_fromString_toString, hfold, LevelSummary.wholeSeconds]

theorem foldl_history (arr : List QJsonValue) (st0 : TrainingState) :
    arr.foldl (fun (st : TrainingState) value =>
        { st with m_history := st.m_history ++ [LevelSummary.fromJson value.toObject] }) st0
      = { st0 with m_history :=
            st0.m_history ++ arr.map (fun value => LevelSummary.fromJson value.toObject) } := by
  induction arr generalizing st0 with
  | nil => simp
  | cons a t ih =>
    simp only [List.foldl_cons]
    rw [ih]
    simp

theorem load_history (other : TrainingState) (root : QJsonValue) :
    (other.load (.document root)).1 = true ∧
    (other.load (.document root)).2.m_currentLevelIndex
      = (root.toObject.value "currentLevel").toInt ∧
    (other.load (.document root)).2.m_tokens = (root.toObject.value "tokens").toInt ∧
    (other.load (.document root)).2.m_streakCount = (root.toObject.value "streak").toInt ∧
    (other.load (.document root)).2.m_history
      = (root.toObject.value "history").toArray.map
          (fun value => LevelSummary.fromJson value.toObject) := by
  simp only [TrainingState.load, foldl_history]
  refine ⟨trivial, ?_, ?_, ?_, ?_⟩ <;> split_ifs <;> simp [TrainingState.resetState]

theorem saveObject_value (st : TrainingState) :
    (st.saveObject.value "currentLevel") = .ofInt st.m_currentLevelIndex ∧
    (st.saveObject.value "tokens") = .ofInt st.m_tokens ∧
    (st.saveObject.value "streak") = .ofInt st.m_streakCount ∧
    (st.saveObject.value "history")
      = .array (st.m_history.map (fun summary => .object summary.toJson)) := by
  simp [TrainingState.saveObject, QJsonObject.insert, insertEntry, QJsonObject.value,
    foldl_append_singleton]

/-- Claim C5, amended: for every progress state (its `int` members being `int`s and each
per-pitch hash holding a key once), `save` followed by `load` on the same state file
succeeds and reproduces the token balance, the current level index, the streak counter and
the history entries in the same order, each with its level index, accuracy, pass flag,
special-exercise flag and per-pitch total and correct counts, and with its completion time
cut to whole seconds, the text written by `Qt::ISODate` having no milliseconds. When every
completion time is on a whole second (or null) the history is reproduced exactly. -/
theorem save_load_roundtrip (st other : TrainingState) (file : StateFile)
    (hwf : st.WellFormed) :
    (st.save true file).1 = true ∧
    (other.load (st.save true file).2).1 = true ∧
    (other.load (st.save true file).2).2.m_tokens = st.m_tokens ∧
    (other.load (st.save true file).2).2.m_currentLevelIndex = st.m_currentLevelIndex ∧
    (other.load (st.save true file).2).2.m_streakCount = st.m_streakCount ∧
    (other.load (st.save true file).2).2.m_history
      = st.m_history.map LevelSummary.wholeSeconds ∧
    ((∀ s ∈ st.m_history, s.completedAt.wholeSeconds = s.completedAt) →
      (other.load (st.save true file).2).2.m_history = st.m_history) := by
  obtain ⟨hidx, htok, hstreak, hhist⟩ := hwf
  obtain ⟨v1, v2, v3, v4⟩ := saveObject_value st
  have hsave : st.save true file = (true, .document (.object st.saveObject)) := by
    simp [TrainingState.save]
  obtain ⟨l0, l1, l2, l3, l4⟩ := load_history other (.object st.saveObject)
  have hmap : (other.load (st.save true file).2).2.m_history
      = st.m_history.map LevelSummary.wholeSeconds := by
    rw [hsave, l4]
    simp only [QJsonValue.toObject, v4, QJsonValue.toArray, List.map_map]
    apply List.map_congr_left
    intro s hs
    simp [QJsonValue.toObject, fromJson_toJson s (hhist s hs)]
  refine ⟨by rw [hsave], by rw [hsave]; exact l0, ?_, ?_, ?_, hmap, ?_⟩
  · rw [hsave, l2]; simp only [QJsonValue.toObject, v2]; exact toInt_ofInt _ htok
  · rw [hsave, l1]; simp only [QJsonValue.toObject, v1]; exact toInt_ofInt _ hidx
  · rw [hsave, l3]; simp only [QJsonValue.toObject, v3]; exact toInt_ofInt _ hstreak
  · intro hwhole
    rw [hmap]
    conv_rhs => rw [← List.map_id st.m_history]
    apply List.map_congr_left
    intro s hs
    cases s with
    | mk a b c d e f =>
      have := hwhole _ hs
      simp only [LevelSummary.wholeSeconds, id] at this ⊢
      rw [this]

theorem sampleSummary_wellFormed : sampleSummary.WellFormed := by
  simp [LevelSummary.WellFormed, sampleSummary, IsInt32]

theorem sampleState_wellFormed : sampleState.WellFormed := by
  refine ⟨?_, ?_, ?_, ?_⟩
  · simp [sampleState, IsInt32]
  · simp [sampleState, IsInt32]
  · simp [sampleState, IsInt32]
  · intro s hs
    have : s = sampleSummary := by simpa [sampleState] using hs
    rw [this]
    exact sampleSummary_wellFormed

theorem save_load_roundtrip_witness :
    sampleState.WellFormed ∧
    (({} : TrainingState).load (sampleState.save true .absent).2).2.m_tokens = 10 ∧
    (({} : TrainingState).load (sampleState.save true .absent).2).2.m_currentLevelIndex = 5 ∧
    (({} : TrainingState).load (sampleState.save true .absent).2).2.m_streakCount = 1 ∧
    (({} : TrainingState).load (sampleState.save true .absent).2).2.m_history
      = [{ sampleSummary with completedAt := .valid 1000 }] :=
  have h := save_load_roundtrip sampleState {} .absent sampleState_wellFormed
  ⟨sampleState_wellFormed, h.2.2.1, h.2.2.2.1, h.2.2.2.2.1, h.2.2.2.2.2.1⟩

/-- Claim C5 as stated fails on a completion time that is not on a whole second: saved at
1500 ms, it is loaded as 1000 ms. -/
theorem save_load_drops_milliseconds :
    (sampleState.m_history.map (fun s => s.completedAt)) = [.valid 1500] ∧
    ((({} : TrainingState).load (sampleState.save true .absent).2).2.m_history.map
      (fun s => s.completedAt)) = [.valid 1000] ∧
    (({} : TrainingState).load (sampleState.save true .absent).2).2.m_history
      ≠ sampleState.m_history := by
  have hload : (({} : TrainingState).load (sampleState.save true .absent).2).2.m_history
      = [{ sampleSummary with completedAt := .valid 1000 }] := by
    have hsave : sampleState.save true .absent
        = (true, .document (.object sampleState.saveObject)) := by
      simp [TrainingState.save]
    rw [hsave, (load_history {} (.object sampleState.saveObject)).2.2.2.2]
    simp only [QJsonValue.toObject]
    rw [(saveObject_value sampleState).2.2.2]
    simp only [QJsonValue.toObject, QJsonValue.toArray, sampleState, List.map_map, List.map_cons,
      List.map_nil, Function.comp, fromJson_toJson sampleSummary sampleSummary_wellFormed]
    rfl
  have hc0 : sampleState.m_history.map (fun s => s.completedAt) = [.valid 1500] := rfl
  have hc1 : ((({} : TrainingState).load (sampleState.save true .absent).2).2.m_history.map
      (fun s => s.completedAt)) = [.valid 1000] := by
    rw [hload]; rfl
  refine ⟨hc0, hc1, ?_⟩
  intro h
  rw [h, hc0] at hc1
  exact absurd hc1 (by decide)

/-- Claim C6 fails on the code: `load` assigns the stored values as they are. For a stored
record with `currentLevel = -5`, `tokens = -3` and 81 history entries the loaded state has
level index -5, balance -3 and 81 summaries, outside the invariant that
`setCurrentLevelIndex`, `addTokens` and `trimHistory` keep. -/
theorem load_keeps_out_of_range :
    (({} : TrainingState).load (.document corruptRecord)).1 = true ∧
    (({} : TrainingState).load (.document corruptRecord)).2.m_currentLevelIndex = -5 ∧
    (({} : TrainingState).load (.document corruptRecord)).2.m_tokens = -3 ∧
    (({} : TrainingState).load (.document corruptRecord)).2.m_history.length = 81 ∧
    ¬ (({} : TrainingState).load (.document corruptRecord)).2.Invariant := by
  obtain ⟨l0, l1, l2, -, l4⟩ := load_history {} corruptRecord
  have h1 : (({} : TrainingState).load (.document corruptRecord)).2.m_currentLevelIndex
      = -5 := by
    rw [l1]; simp [corruptRecord, QJsonValue.toObject, QJsonObject.value, QJsonValue.toInt,
      QJsonValue.ofInt]
  have h2 : (({} : TrainingState).load (.document corruptRecord)).2.m_tokens = -3 := by
    rw [l2]; simp [corruptRecord, QJsonValue.toObject, QJsonObject.value, QJsonValue.toInt,
      QJsonValue.ofInt]
  have h4 : (({} : TrainingState).load (.document corruptRecord)).2.m_history.length
      = 81 := by
    rw [l4]; simp [corruptRecord, QJsonValue.toObject, QJsonObject.value, QJsonValue.toArray]
  refine ⟨l0, h1, h2, h4, ?_⟩
  rintro ⟨h, -⟩
  rw [h1] at h
  exact absurd h (by decide)

/-! ## The least accurate pitch -/

theorem value_map_other (h : PitchHash) (k : String) (v : PitchSummary) (k2 : String)
    (hk2 : ¬ k2 = k) :
    PitchHash.value (h.map (fun kv => if kv.1 == k then (k, v) else kv)) k2
      = PitchHash.value h k2 := by
  have hne : (k == k2) = false := by simpa using fun h : k = k2 => hk2 h.symm
  induction h with
  | nil => rfl
  | cons a t ih =>
    unfold PitchHash.value at ih ⊢
    rw [List.map_cons]
    by_cases hk : a.1 = k
    · have hak2 : (a.1 == k2) = false := by simpa using fun h : a.1 = k2 => hk2 (h ▸ hk)
      have hfa : (if a.1 == k then (k, v) else a) = (k, v) := by simp [hk]
      rw [hfa]
      simp only [List.find?_cons, hne, hak2]
      exact ih
    · have hfa : (if a.1 == k then (k, v) else a) = a := by simp [hk]
      rw [hfa]
      cases hak2 : (a.1 == k2)
      · simp only [List.find?_cons, hak2]
        exact ih
      · simp only [List.find?_cons, hak2]

theorem value_map_same (h : PitchHash) (k : String) (v : PitchSummary)
    (hany : h.any (fun kv => kv.1 == k) = true) :
    PitchHash.value (h.map (fun kv => if kv.1 == k then (k, v) else kv)) k = v := by
  induction h with
  | nil => simp at hany
  | cons a t ih =>
    unfold PitchHash.value at ih ⊢
    rw [List.map_cons]
    by_cases hk : a.1 = k
    · have hfa : (if a.1 == k then (k, v) else a) = (k, v) := by simp [hk]
      have hkk : (k == k) = true := by simp
      rw [hfa]
      simp only [List.find?_cons, hkk]
    · have hfa : (if a.1 == k then (k, v) else a) = a := by simp [hk]
      have hak : (a.1 == k) = false := by simpa using hk
      have hany2 : t.any (fun kv => kv.1 == k) = true := by
        simpa [hk] using hany
      rw [hfa]
      simp only [List.find?_cons, hak]
      exact ih hany2

theorem value_insertEntry (h : PitchHash) (k : String) (v : PitchSummary) (k2 : String) :
    PitchHash.value (insertEntry h k v) k2 = if k2 = k then v else PitchHash.value h k2 := by
  unfold insertEntry
  by_cases hany : h.any (fun kv => kv.1 == k) = true
  · rw [if_pos hany]
    by_cases hk2 : k2 = k
    · rw [if_pos hk2, hk2]; exact value_map_same h k v hany
    · rw [if_neg hk2]; exact value_map_other h k v k2 hk2
  · rw [if_neg hany]
    have hnone : ∀ kv ∈ h, ¬ kv.1 = k := by
      intro kv hkv hk
      apply hany
      rw [List.any_eq_true]
      exact ⟨kv, hkv, by simp [hk]⟩
    unfold PitchHash.value
    by_cases hk2 : k2 = k
    · subst hk2
      have : h.find? (fun kv => kv.1 == k2) = none := by
        rw [List.find?_eq_none]
        intro kv hkv
        simpa using hnone kv hkv
      simp [List.find?_append, this]
    · have hne : (k == k2) = false := by simpa using fun h : k = k2 => hk2 h.symm
      simp only [List.find?_append, if_neg hk2]
      cases h.find? (fun kv => kv.1 == k2) <;> simp [List.find?_cons, hne]

theorem keys_insertEntry {α : Type} (h : List (String × α)) (k : String) (v : α) :
    (insertEntry h k v).map Prod.fst
      = if k ∈ h.map Prod.fst then h.map Prod.fst else h.map Prod.fst ++ [k] := by
  unfold insertEntry
  by_cases hany : h.any (fun kv => kv.1 == k) = true
  · have hmem : k ∈ h.map Prod.fst := by
      rw [List.any_eq_true] at hany
      obtain ⟨kv, hkv, hk⟩ := hany
      exact List.mem_map.mpr ⟨kv, hkv, by simpa using hk⟩
    rw [if_pos hany, if_pos hmem, List.map_map]
    apply List.map_congr_left
    intro kv _
    by_cases hk : kv.1 = k <;> simp [hk]
  · have hmem : k ∉ h.map Prod.fst := by
      intro hm
      apply hany
      obtain ⟨kv, hkv, hk⟩ := List.mem_map.mp hm
      rw [List.any_eq_true]
      exact ⟨kv, hkv, by simp [hk]⟩
    rw [if_neg hany, if_neg hmem]
    simp

theorem nodup_keys_insertEntry {α : Type} (h : List (String × α)) (k : String) (v : α)
    (hnd : (h.map Prod.fst).Nodup) : ((insertEntry h k v).map Prod.fst).Nodup := by
  rw [keys_insertEntry]
  split_ifs with hk
  · exact hnd
  · exact List.Nodup.append hnd (List.nodup_singleton k) (by simpa using hk)

theorem value_of_not_mem (h : PitchHash) (k : String) (hk : k ∉ h.map Prod.fst) :
    PitchHash.value h k = {} := by
  unfold PitchHash.value
  have : h.find? (fun kv => kv.1 == k) = none := by
    rw [List.find?_eq_none]
    intro kv hkv hbeq
    exact hk (List.mem_map.mpr ⟨kv, hkv, by simpa using hbeq⟩)
  rw [this]

theorem value_of_mem (h : PitchHash) (hnd : (h.map Prod.fst).Nodup) (it : String × PitchSummary)
    (hit : it ∈ h) : PitchHash.value h it.1 = it.2 := by
  induction h with
  | nil => simp at hit
  | cons a t ih =>
    rw [List.map_cons, List.nodup_cons] at hnd
    rcases List.mem_cons.mp hit with rfl | hmem
    · simp [PitchHash.value]
    · have hne : (a.1 == it.1) = false := by
        simpa using fun h : a.1 = it.1 => hnd.1 (h ▸ List.mem_map.mpr ⟨it, hmem, rfl⟩)
      have := ih hnd.2 hmem
      simp only [PitchHash.value] at this ⊢
      simp only [List.find?_cons, hne]
      exact this

theorem addPerPitch_cons (agg : PitchHash) (a : String × PitchSummary) (t : PitchHash) :
    TrainingState.addPerPitch agg (a :: t)
      = TrainingState.addPerPitch
          (insertEntry agg a.1
            { totalTrials := (agg.value a.1).totalTrials + a.2.totalTrials,
              correctTrials := (agg.value a.1).correctTrials + a.2.correctTrials }) t := rfl

theorem value_cons (a : String × PitchSummary) (t : PitchHash) (key : String) :
    PitchHash.value (a :: t) key = if a.1 = key then a.2 else PitchHash.value t key := by
  unfold PitchHash.value
  by_cases h : a.1 = key
  · have hb : (a.1 == key) = true := by simpa using h
    simp only [List.find?_cons, hb, if_pos h]
  · have hb : (a.1 == key) = false := by simpa using h
    simp only [List.find?_cons, hb, if_neg h]

theorem addPerPitch_value (pp : PitchHash) (hnd : (pp.map Prod.fst).Nodup) (key : String) :
    ∀ agg : PitchHash,
      ((TrainingState.addPerPitch agg pp).value key).totalTrials
        = (agg.value key).totalTrials + (pp.value key).totalTrials ∧
      ((TrainingState.addPerPitch agg pp).value key).correctTrials
        = (agg.value key).correctTrials + (pp.value key).correctTrials := by
  induction pp with
  | nil =>
    intro agg
    simp [TrainingState.addPerPitch, PitchHash.value]
  | cons a t ih =>
    intro agg
    rw [List.map_cons, List.nodup_cons] at hnd
    rw [addPerPitch_cons, value_cons]
    obtain ⟨h1, h2⟩ := ih hnd.2 (insertEntry agg a.1
      { totalTrials := (agg.value a.1).totalTrials + a.2.totalTrials,
        correctTrials := (agg.value a.1).correctTrials + a.2.correctTrials })
    rw [h1, h2, value_insertEntry]
    by_cases hk : key = a.1
    · subst hk
      rw [value_of_not_mem t a.1 hnd.1]
      simp
    · have hk2 : ¬ a.1 = key := fun h => hk h.symm
      simp [hk, hk2]

theorem addPerPitch_keys (pp : PitchHash) (key : String) :
    ∀ agg : PitchHash, (agg.map Prod.fst).Nodup →
      ((TrainingState.addPerPitch agg pp).map Prod.fst).Nodup ∧
      (key ∈ (TrainingState.addPerPitch agg pp).map Prod.fst ↔
        key ∈ agg.map Prod.fst ∨ key ∈ pp.map Prod.fst) := by
  induction pp with
  | nil =>
    intro agg hagg
    simp [TrainingState.addPerPitch, hagg]
  | cons a t ih =>
    intro agg hagg
    rw [addPerPitch_cons]
    obtain ⟨h1, h2⟩ := ih _ (nodup_keys_insertEntry agg a.1 _ hagg)
    refine ⟨h1, ?_⟩
    rw [h2, keys_insertEntry]
    by_cases hmem : a.1 ∈ agg.map Prod.fst
    · rw [if_pos hmem]
      simp only [List.map_cons, List.mem_cons]
      constructor
      · rintro (h | h)
        · exact Or.inl h
        · exact Or.inr (Or.inr h)
      · rintro (h | h | h)
        · exact Or.inl h
        · exact Or.inl (h ▸ hmem)
        · exact Or.inr h
    · rw [if_neg hmem]
      simp only [List.map_cons, List.mem_cons, List.mem_append, List.mem_singleton]
      tauto

theorem aggregate_foldl (entries : List LevelSummary)
    (hnd : ∀ s ∈ entries, s.specialExercise = false → (s.perPitch.map Prod.fst).Nodup)
    (key : String) :
    ∀ init : PitchHash, (init.map Prod.fst).Nodup →
      let result := entries.foldl
        (fun aggregates summary =>
          if summary.specialExercise then aggregates
          else TrainingState.addPerPitch aggregates summary.perPitch) init
      (result.map Prod.fst).Nodup ∧
      (key ∈ result.map Prod.fst ↔
        key ∈ init.map Prod.fst ∨
          ∃ s ∈ entries, s.specialExercise = false ∧ key ∈ s.perPitch.map Prod.fst) ∧
      (result.value key).totalTrials
        = (init.value key).totalTrials
          + summedTotal (entries.filter (fun s => !s.specialExercise)) key ∧
      (result.value key).correctTrials
        = (init.value key).correctTrials
          + summedCorrect (entries.filter (fun s => !s.specialExercise)) key := by
  induction entries with
  | nil =>
    intro init hinit
    simp [summedTotal, summedCorrect, hinit]
  | cons s t ih =>
    intro init hinit
    have hnd2 : ∀ s2 ∈ t, s2.specialExercise = false → (s2.perPitch.map Prod.fst).Nodup :=
      fun s2 hs2 => hnd s2 (List.mem_cons_of_mem _ hs2)
    simp only [List.foldl_cons]
    cases hsp : s.specialExercise
    · obtain ⟨k1, k2⟩ := addPerPitch_keys s.perPitch key init hinit
      obtain ⟨v1, v2⟩ := addPerPitch_value s.perPitch (hnd s (List.mem_cons_self _ _) hsp)
        key init
      obtain ⟨r1, r2, r3, r4⟩ := ih hnd2 _ k1
      simp only [Bool.false_eq_true, if_false]
      refine ⟨r1, ?_, ?_, ?_⟩
      · rw [r2, k2]
        constructor
        · rintro ((h | h) | ⟨s2, hs2, h⟩)
          · exact Or.inl h
          · exact Or.inr ⟨s, List.mem_cons_self _ _, hsp, h⟩
          · exact Or.inr ⟨s2, List.mem_cons_of_mem _ hs2, h⟩
        · rintro (h | ⟨s2, hs2, h⟩)
          · exact Or.inl (Or.inl h)
          · rcases List.mem_cons.mp hs2 with rfl | hs2
            · exact Or.inl (Or.inr h.2)
            · exact Or.inr ⟨s2, hs2, h⟩
      · rw [r3, v1]
        simp [List.filter_cons, hsp, summedTotal]
        omega
      · rw [r4, v2]
        simp [List.filter_cons, hsp, summedCorrect]
        omega
    · obtain ⟨r1, r2, r3, r4⟩ := ih hnd2 init hinit
      simp only [if_true]
      refine ⟨r1, ?_, ?_, ?_⟩
      · rw [r2]
        constructor
        · rintro (h | ⟨s2, hs2, h⟩)
          · exact Or.inl h
          · exact Or.inr ⟨s2, List.mem_cons_of_mem _ hs2, h⟩
        · rintro (h | ⟨s2, hs2, h⟩)
          · exact Or.inl h
          · rcases List.mem_cons.mp hs2 with rfl | hs2
            · rw [hsp] at h; exact absurd h.1 (by simp)
            · exact Or.inr ⟨s2, hs2, h⟩
      · rw [r3]; simp [List.filter_cons, hsp]
      · rw [r4]; simp [List.filter_cons, hsp]

theorem selectLeast_foldl (l : PitchHash) :
    ∀ best0 : String × ℚ,
      let r := l.foldl
        (fun (best : String × ℚ) it =>
          if it.2.totalTrials = 0 then best
          else
            let acc : ℚ := (it.2.correctTrials : ℚ) / (it.2.totalTrials : ℚ)
            if acc < best.2 then (it.1, acc) else best)
        best0
      r.2 ≤ best0.2 ∧
      (∀ it ∈ l, it.2.totalTrials ≠ 0 →
        r.2 ≤ (it.2.correctTrials : ℚ) / (it.2.totalTrials : ℚ)) ∧
      (r = best0 ∨ ∃ it ∈ l, it.2.totalTrials ≠ 0 ∧
        r = (it.1, (it.2.correctTrials : ℚ) / (it.2.totalTrials : ℚ))) := by
  induction l with
  | nil => intro best0; simp
  | cons a t ih =>
    intro best0
    simp only [List.foldl_cons]
    by_cases h0 : a.2.totalTrials = 0
    · obtain ⟨r1, r2, r3⟩ := ih best0
      simp only [if_pos h0]
      refine ⟨r1, ?_, ?_⟩
      · intro it hit hne
        rcases List.mem_cons.mp hit with rfl | hit
        · exact absurd h0 hne
        · exact r2 it hit hne
      · rcases r3 with h | ⟨it, hit, hne, h⟩
        · exact Or.inl h
        · exact Or.inr ⟨it, List.mem_cons_of_mem _ hit, hne, h⟩
    · simp only [if_neg h0]
      by_cases hlt : (a.2.correctTrials : ℚ) / (a.2.totalTrials : ℚ) < best0.2
      · obtain ⟨r1, r2, r3⟩ := ih (a.1, (a.2.correctTrials : ℚ) / (a.2.totalTrials : ℚ))
        simp only [if_pos hlt]
        refine ⟨le_trans r1 (le_of_lt hlt), ?_, ?_⟩
        · intro it hit hne
          rcases List.mem_cons.mp hit with rfl | hit
          · exact r1
          · exact r2 it hit hne
        · rcases r3 with h | ⟨it, hit, hne, h⟩
          · exact Or.inr ⟨a, List.mem_cons_self _ _, h0, h⟩
          · exact Or.inr ⟨it, List.mem_cons_of_mem _ hit, hne, h⟩
      · obtain ⟨r1, r2, r3⟩ := ih best0
        simp only [if_neg hlt]
        refine ⟨r1, ?_, ?_⟩
        · intro it hit hne
          rcases List.mem_cons.mp hit with rfl | hit
          · exact le_trans r1 (not_lt.mp hlt)
          · exact r2 it hit hne
        · rcases r3 with h | ⟨it, hit, hne, h⟩
          · exact Or.inl h
          · exact Or.inr ⟨it, List.mem_cons_of_mem _ hit, hne, h⟩

theorem value_counts_valid (s : LevelSummary) (hs : s.CountsValid) (key : String) :
    0 ≤ (s.perPitch.value key).correctTrials ∧
      (s.perPitch.value key).correctTrials ≤ (s.perPitch.value key).totalTrials := by
  by_cases hk : key ∈ s.perPitch.map Prod.fst
  · obtain ⟨it, hit, rfl⟩ := List.mem_map.mp hk
    rw [value_of_mem s.perPitch hs.1 it hit]
    exact (hs.2 it hit).2
  · rw [value_of_not_mem s.perPitch key hk]
    decide

theorem summed_counts_valid (entries : List LevelSummary)
    (hvalid : ∀ s ∈ entries, s.CountsValid) (key : String) :
    0 ≤ summedCorrect entries key ∧ summedCorrect entries key ≤ summedTotal entries key := by
  induction entries with
  | nil => simp [summedCorrect, summedTotal]
  | cons s t ih =>
    obtain ⟨h1, h2⟩ := ih (fun s2 hs2 => hvalid s2 (List.mem_cons_of_mem _ hs2))
    obtain ⟨v1, v2⟩ := value_counts_valid s (hvalid s (List.mem_cons_self _ _)) key
    simp only [summedCorrect, summedTotal, List.map_cons, List.sum_cons] at h1 h2 ⊢
    omega

theorem leastAccuratePitch_eq (st : TrainingState) :
    st.leastAccuratePitch
      = (TrainingState.selectLeast (TrainingState.aggregateSummaries
          (st.m_history.drop (st.m_history.length - 15)))).1 := by
  unfold TrainingState.leastAccuratePitch
  by_cases h : min 15 st.m_history.length = 0
  · have hlen : st.m_history.length = 0 := by omega
    have hnil : st.m_history = [] := List.length_eq_zero.mp hlen
    simp only [h, if_true]
    rw [hnil]
    rfl
  · have : st.m_history.length - min 15 st.m_history.length = st.m_history.length - 15 := by
      omega
    simp only [h, if_false, this]

theorem aggregateSummaries_counts (entries : List LevelSummary)
    (hnd : ∀ s ∈ entries, s.specialExercise = false → (s.perPitch.map Prod.fst).Nodup)
    (key : String) :
    ((TrainingState.aggregateSummaries entries).map Prod.fst).Nodup ∧
    (key ∈ (TrainingState.aggregateSummaries entries).map Prod.fst ↔
      ∃ s ∈ entries, s.specialExercise = false ∧ key ∈ s.perPitch.map Prod.fst) ∧
    (PitchHash.value (TrainingState.aggregateSummaries entries) key).totalTrials
      = summedTotal (entries.filter (fun s => !s.specialExercise)) key ∧
    (PitchHash.value (TrainingState.aggregateSummaries entries) key).correctTrials
      = summedCorrect (entries.filter (fun s => !s.specialExercise)) key := by
  obtain ⟨h1, h2, h3, h4⟩ := aggregate_foldl entries hnd key [] (by simp)
  refine ⟨h1, ?_, ?_, ?_⟩
  · rw [TrainingState.aggregateSummaries, h2]; simp
  · rw [TrainingState.aggregateSummaries, h3]; simp [PitchHash.value]
  · rw [TrainingState.aggregateSummaries, h4]; simp [PitchHash.value]

theorem selectLeast_cases (aggregates : PitchHash) :
    (∀ it ∈ aggregates, it.2.totalTrials ≠ 0 →
      (TrainingState.selectLeast aggregates).2
        ≤ (it.2.correctTrials : ℚ) / (it.2.totalTrials : ℚ)) ∧
    (TrainingState.selectLeast aggregates = ("", 2) ∨
      ∃ it ∈ aggregates, it.2.totalTrials ≠ 0 ∧
        TrainingState.selectLeast aggregates
          = (it.1, (it.2.correctTrials : ℚ) / (it.2.totalTrials : ℚ))) :=
  ⟨(selectLeast_foldl aggregates ("", 2)).2.1, (selectLeast_foldl aggregates ("", 2)).2.2⟩

/-- Claim C11: `leastAccuratePitch` depends only on the 15 most recent summaries, and of
those only on the ones that are no special exercise. With the total and correct counts of
every key summed over these summaries (each holding counts: keys once, none empty, correct
at most total), the result is the empty string exactly when no key has a trial, which
covers the empty history; otherwise it is a key with at least one trial whose ratio of
correct to total is minimal among the keys with at least one trial. -/
theorem leastAccuratePitch_minimal (st : TrainingState)
    (hvalid : ∀ s ∈ countedSummaries st.m_history, s.CountsValid) :
    (st.leastAccuratePitch = "" ↔
      ¬ ∃ key, 1 ≤ summedTotal (countedSummaries st.m_history) key) ∧
    (st.leastAccuratePitch ≠ "" →
      1 ≤ summedTotal (countedSummaries st.m_history) st.leastAccuratePitch ∧
      ∀ key, 1 ≤ summedTotal (countedSummaries st.m_history) key →
        (summedCorrect (countedSummaries st.m_history) st.leastAccuratePitch : ℚ)
            / (summedTotal (countedSummaries st.m_history) st.leastAccuratePitch : ℚ)
          ≤ (summedCorrect (countedSummaries st.m_history) key : ℚ)
            / (summedTotal (countedSummaries st.m_history) key : ℚ)) ∧
    (st.m_history = [] → st.leastAccuratePitch = "") ∧
    (∀ st2 : TrainingState,
      st2.m_history.drop (st2.m_history.length - 15)
        = st.m_history.drop (st.m_history.length - 15) →
      st2.leastAccuratePitch = st.leastAccuratePitch) := by
  have hdep : ∀ st2 : TrainingState,
      st2.m_history.drop (st2.m_history.length - 15)
        = st.m_history.drop (st.m_history.length - 15) →
      st2.leastAccuratePitch = st.leastAccuratePitch := by
    intro st2 h
    rw [leastAccuratePitch_eq, leastAccuratePitch_eq, h]
  have hempty : st.m_history = [] → st.leastAccuratePitch = "" := by
    intro h
    rw [leastAccuratePitch_eq, h]
    rfl
  -- the aggregate and its relation to the summed counts
  have hnd : ∀ s ∈ st.m_history.drop (st.m_history.length - 15),
      s.specialExercise = false → (s.perPitch.map Prod.fst).Nodup := by
    intro s hs hsp
    exact (hvalid s (by simp [countedSummaries, List.mem_filter, hs, hsp])).1
  have hagg := fun key => aggregateSummaries_counts
    (st.m_history.drop (st.m_history.length - 15)) hnd key
  have hsum := fun key => summed_counts_valid (countedSummaries st.m_history) hvalid key
  obtain ⟨hmin, hcase⟩ := selectLeast_cases (TrainingState.aggregateSummaries
    (st.m_history.drop (st.m_history.length - 15)))
  -- every entry of the aggregate carries the summed counts of its key
  have hentry : ∀ it ∈ TrainingState.aggregateSummaries
      (st.m_history.drop (st.m_history.length - 15)),
      it.2.totalTrials = summedTotal (countedSummaries st.m_history) it.1 ∧
      it.2.correctTrials = summedCorrect (countedSummaries st.m_history) it.1 ∧
      it.1 ≠ "" := by
    intro it hit
    have hv := value_of_mem _ (hagg it.1).1 it hit
    have h3 := (hagg it.1).2.2.1
    have h4 := (hagg it.1).2.2.2
    have hkey := ((hagg it.1).2.1).mp (List.mem_map.mpr ⟨it, hit, rfl⟩)
    obtain ⟨s, hs, hsp, hk⟩ := hkey
    obtain ⟨it2, hit2, hk2⟩ := List.mem_map.mp hk
    have hval := (hvalid s (by simp [countedSummaries, List.mem_filter, hs, hsp])).2 it2 hit2
    refine ⟨?_, ?_, ?_⟩
    · rw [← hv]; exact h3
    · rw [← hv]; exact h4
    · rw [← hk2]; exact hval.1
  have hkeymem : ∀ key, 1 ≤ summedTotal (countedSummaries st.m_history) key →
      ∃ it ∈ TrainingState.aggregateSummaries (st.m_history.drop (st.m_history.length - 15)),
        it.1 = key := by
    intro key hkey
    by_contra hcon
    have hnot : key ∉ (TrainingState.aggregateSummaries
        (st.m_history.drop (st.m_history.length - 15))).map Prod.fst := by
      intro hm
      obtain ⟨it, hit, hk⟩ := List.mem_map.mp hm
      exact hcon ⟨it, hit, hk⟩
    have hv := value_of_not_mem _ key hnot
    have h3 := (hagg key).2.2.1
    rw [hv] at h3
    have : summedTotal (countedSummaries st.m_history) key = 0 := h3.symm
    omega
  have hratio : ∀ it ∈ TrainingState.aggregateSummaries
      (st.m_history.drop (st.m_history.length - 15)), it.2.totalTrials ≠ 0 →
      (it.2.correctTrials : ℚ) / (it.2.totalTrials : ℚ) ≤ 1 := by
    intro it hit hne
    obtain ⟨e1, e2, -⟩ := hentry it hit
    obtain ⟨s1, s2⟩ := hsum it.1
    rw [← e1, ← e2] at s2
    rw [← e2] at s1
    have hpos : (0 : ℚ) < (it.2.totalTrials : ℚ) := by
      have : 0 < it.2.totalTrials := by omega
      exact_mod_cast this
    rw [div_le_one hpos]
    exact_mod_cast s2
  rw [leastAccuratePitch_eq] at *
  rcases hcase with hnone | ⟨it, hit, hne, hsome⟩
  · -- nothing was selected
    have hr : (TrainingState.selectLeast (TrainingState.aggregateSummaries
        (st.m_history.drop (st.m_history.length - 15)))).1 = "" := by
      rw [hnone]
    have hno : ¬ ∃ key, 1 ≤ summedTotal (countedSummaries st.m_history) key := by
      rintro ⟨key, hkey⟩
      obtain ⟨it, hit, hk⟩ := hkeymem key hkey
      have hne : it.2.totalTrials ≠ 0 := by
        rw [(hentry it hit).1, hk]; omega
      have h2 := hmin it hit hne
      rw [hnone] at h2
      have h1 := hratio it hit hne
      linarith
    refine ⟨⟨fun _ => hno, fun _ => hr⟩, fun h => absurd hr h, hempty, hdep⟩
  · -- an entry was selected
    have hr : (TrainingState.selectLeast (TrainingState.aggregateSummaries
        (st.m_history.drop (st.m_history.length - 15)))).1 = it.1 := by
      rw [hsome]
    obtain ⟨e1, e2, e3⟩ := hentry it hit
    have hone : 1 ≤ summedTotal (countedSummaries st.m_history) it.1 := by
      have := (hsum it.1).1
      have := (hsum it.1).2
      rw [← e1] at *
      omega
    refine ⟨⟨fun h => absurd (hr ▸ h) e3, fun h => absurd ⟨it.1, hone⟩ h⟩, ?_, hempty, hdep⟩
    intro _
    rw [hr]
    refine ⟨hone, ?_⟩
    intro key hkey
    obtain ⟨it2, hit2, hk⟩ := hkeymem key hkey
    have hne2 : it2.2.totalTrials ≠ 0 := by
      rw [(hentry it2 hit2).1, hk]; omega
    have h2 := hmin it2 hit2 hne2
    rw [hsome] at h2
    rw [← e1, ← e2, ← hk, ← (hentry it2 hit2).1, ← (hentry it2 hit2).2.1]
    exact h2

theorem weakOnF_countsValid : ∀ s ∈ countedSummaries weakOnF.m_history, s.CountsValid := by
  intro s hs
  have : s = { levelIndex := 0, accuracy := 0.5, passed := true,
               perPitch := [("F", { totalTrials := 4, correctTrials := 1 }),
                            ("G", { totalTrials := 4, correctTrials := 3 })] } := by
    simpa [countedSummaries, weakOnF] using hs
  rw [this]
  simp [LevelSummary.CountsValid]

theorem leastAccuratePitch_minimal_witness :
    weakOnF.leastAccuratePitch = "F" ∧
    1 ≤ summedTotal (countedSummaries weakOnF.m_history) weakOnF.leastAccuratePitch ∧
    (summedCorrect (countedSummaries weakOnF.m_history) weakOnF.leastAccuratePitch : ℚ)
        / (summedTotal (countedSummaries weakOnF.m_history) weakOnF.leastAccuratePitch : ℚ)
      ≤ (summedCorrect (countedSummaries weakOnF.m_history) "G" : ℚ)
        / (summedTotal (countedSummaries weakOnF.m_history) "G" : ℚ) := by
  have hF : weakOnF.leastAccuratePitch = "F" := by
    simp [TrainingState.leastAccuratePitch, weakOnF, TrainingState.aggregateSummaries,
      TrainingState.addPerPitch, TrainingState.selectLeast, PitchHash.value, PitchHash.insert,
      insertEntry]
    norm_num
  have h := (leastAccuratePitch_minimal weakOnF weakOnF_countsValid).2.1
    (by rw [hF]; decide)
  have hG : 1 ≤ summedTotal (countedSummaries weakOnF.m_history) "G" := by
    simp [summedTotal, countedSummaries, weakOnF, PitchHash.value]
  exact ⟨hF, h.1, h.2 "G" hG⟩

/-! ## Level completion -/

theorem tallyTrials_fields (trialLog : List TrialData) (s0 : LevelSummary) :
    (PitchTraining.tallyTrials s0 trialLog).levelIndex = s0.levelIndex ∧
    (PitchTraining.tallyTrials s0 trialLog).accuracy = s0.accuracy ∧
    (PitchTraining.tallyTrials s0 trialLog).passed = s0.passed ∧
    (PitchTraining.tallyTrials s0 trialLog).specialExercise = s0.specialExercise ∧
    (PitchTraining.tallyTrials s0 trialLog).completedAt = s0.completedAt := by
  induction trialLog generalizing s0 with
  | nil => simp [PitchTraining.tallyTrials]
  | cons a t ih =>
    have h := ih (PitchTraining.tallyTrials s0 [a])
    have hcons : PitchTraining.tallyTrials s0 (a :: t)
        = PitchTraining.tallyTrials (PitchTraining.tallyTrials s0 [a]) t := rfl
    rw [hcons]
    obtain ⟨h1, h2, h3, h4, h5⟩ := h
    exact ⟨h1, h2, h3, h4, h5⟩

theorem recordSummary_frame (w : PitchTraining) (sp : Bool) (acc : ℚ) (passed : Bool)
    (clock : Clock) :
    ∃ summary : LevelSummary,
      summary.levelIndex = w.m_currentSpec.globalIndex ∧ summary.accuracy = acc ∧
      summary.passed = passed ∧ summary.specialExercise = sp ∧
      summary.completedAt = .valid clock.nowMs ∧
      w.recordSummary sp acc passed clock
        = { w with m_state := w.m_state.recordLevelSummary summary, m_trialLog := [] } := by
  obtain ⟨h1, h2, h3, h4, h5⟩ := tallyTrials_fields w.m_trialLog
    { levelIndex := w.m_currentSpec.globalIndex, accuracy := acc, passed := passed,
      specialExercise := sp, completedAt := .valid clock.nowMs }
  exact ⟨_, h1, h2, h3, h4, h5, rfl⟩

theorem recordLevelSummary_frame (st : TrainingState) (s : LevelSummary) :
    st.recordLevelSummary s = { st with m_history := (st.recordLevelSummary s).m_history } := rfl

theorem rewardLevel_frame (w : PitchTraining) (a e : ℚ) (p : Bool) :
    (w.rewardLevel a e p).m_state
      = (if PitchTraining.tokensEarned a > 0
          then w.m_state.addTokens (PitchTraining.tokensEarned a) else w.m_state) ∧
    (w.rewardLevel a e p).m_currentSpec = w.m_currentSpec ∧
    (w.rewardLevel a e p).m_trialLog = w.m_trialLog ∧
    (w.rewardLevel a e p).m_specialContext = w.m_specialContext := by
  unfold PitchTraining.rewardLevel PitchTraining.updateFeedback
  refine ⟨?_, ?_, ?_, ?_⟩ <;> dsimp only <;> split_ifs <;> rfl

theorem markActivity_frame (st : TrainingState) (today : QDate) :
    (st.markActivity today).m_tokens = st.m_tokens ∧
    (st.markActivity today).m_history = st.m_history ∧
    (st.markActivity today).m_currentLevelIndex = st.m_currentLevelIndex ∧
    (st.markActivity today).m_totalLevelAttempts = st.m_totalLevelAttempts ∧
    (st.markActivity today).m_levelsSinceSpecial = st.m_levelsSinceSpecial ∧
    (st.markActivity today).m_finalLevelConsecutivePasses = st.m_finalLevelConsecutivePasses ∧
    (st.markActivity today).m_finalLevelCooldownStart = st.m_finalLevelCooldownStart ∧
    (st.markActivity today).m_trainingCompleted = st.m_trainingCompleted := by
  unfold TrainingState.markActivity
  refine ⟨?_, ?_, ?_, ?_, ?_, ?_, ?_, ?_⟩ <;> dsimp only <;> split_ifs <;> rfl

theorem closeLevel_frame (w : PitchTraining) (a : ℚ) (p : Bool) (clock : Clock) :
    ∃ summary : LevelSummary,
      summary.levelIndex = w.m_currentSpec.globalIndex ∧ summary.accuracy = a ∧
      summary.passed = p ∧ summary.specialExercise = false ∧
      summary.completedAt = .valid clock.nowMs ∧
      (w.closeLevel a p clock).m_state.m_tokens = w.m_state.m_tokens ∧
      (w.closeLevel a p clock).m_state.m_history
        = (w.m_state.recordLevelSummary summary).m_history ∧
      (w.closeLevel a p clock).m_state.m_currentLevelIndex = w.m_state.m_currentLevelIndex ∧
      (w.closeLevel a p clock).m_state.m_totalLevelAttempts
        = w.m_state.m_totalLevelAttempts + 1 ∧
      (w.closeLevel a p clock).m_state.m_levelsSinceSpecial
        = w.m_state.m_levelsSinceSpecial + 1 ∧
      (w.closeLevel a p clock).m_state.m_finalLevelConsecutivePasses
        = w.m_state.m_finalLevelConsecutivePasses ∧
      (w.closeLevel a p clock).m_state.m_finalLevelCooldownStart
        = w.m_state.m_finalLevelCooldownStart ∧
      (w.closeLevel a p clock).m_state.m_trainingCompleted = w.m_state.m_trainingCompleted ∧
      (w.closeLevel a p clock).m_currentSpec = w.m_currentSpec ∧
      (w.closeLevel a p clock).m_mode = .Idle ∧
      (w.closeLevel a p clock).m_levelActive = false ∧
      (w.closeLevel a p clock).m_specialContext = w.m_specialContext := by
  obtain ⟨h1, h2, h3, h4, h5⟩ := tallyTrials_fields w.m_trialLog
    { levelIndex := w.m_currentSpec.globalIndex, accuracy := a, passed := p,
      specialExercise := false, completedAt := .valid clock.nowMs }
  refine ⟨_, h1, h2, h3, h4, h5, ?_, ?_, ?_, ?_, ?_, ?_, ?_, ?_, rfl, rfl, rfl, rfl⟩
  · show (TrainingState.markActivity _ _).m_tokens = _
    rw [(markActivity_frame _ _).1]; rfl
  · show (TrainingState.markActivity _ _).m_history = _
    rw [(markActivity_frame _ _).2.1]; rfl
  · show (TrainingState.markActivity _ _).m_currentLevelIndex = _
    rw [(markActivity_frame _ _).2.2.1]; rfl
  · show (TrainingState.markActivity _ _).m_totalLevelAttempts = _
    rw [(markActivity_frame _ _).2.2.2.1]; rfl
  · show (TrainingState.markActivity _ _).m_levelsSinceSpecial = _
    rw [(markActivity_frame _ _).2.2.2.2.1]; rfl
  · show (TrainingState.markActivity _ _).m_finalLevelConsecutivePasses = _
    rw [(markActivity_frame _ _).2.2.2.2.2.1]; rfl
  · show (TrainingState.markActivity _ _).m_finalLevelCooldownStart = _
    rw [(markActivity_frame _ _).2.2.2.2.2.2.1]; rfl
  · show (TrainingState.markActivity _ _).m_trainingCompleted = _
    rw [(markActivity_frame _ _).2.2.2.2.2.2.2]; rfl

theorem addTokens_frame (st : TrainingState) (n : Int) :
    st.addTokens n = { st with m_tokens := max 0 (st.m_tokens + n) } := rfl

/-- The engine that `resolveLevelCompletion` hands to its final-level part. -/
theorem resolveLevelCompletion_eq (w : PitchTraining) (clock : Clock) :
    ∃ pre : PitchTraining, ∃ summary : LevelSummary,
      w.resolveLevelCompletion clock = pre.resolveFinalLevel w.levelPassed clock ∧
      summary.levelIndex = w.m_currentSpec.globalIndex ∧
      summary.accuracy = w.actualAccuracy ∧ summary.passed = w.levelPassed ∧
      summary.specialExercise = false ∧ summary.completedAt = .valid clock.nowMs ∧
      pre.m_currentSpec = w.m_currentSpec ∧
      pre.m_mode = .Idle ∧ pre.m_levelActive = false ∧
      pre.m_specialContext = w.m_specialContext ∧
      pre.m_state.m_tokens
        = (if PitchTraining.tokensEarned w.actualAccuracy > 0
            then max 0 (w.m_state.m_tokens + PitchTraining.tokensEarned w.actualAccuracy)
            else w.m_state.m_tokens) ∧
      pre.m_state.m_history = (w.m_state.recordLevelSummary summary).m_history ∧
      pre.m_state.m_totalLevelAttempts = w.m_state.m_totalLevelAttempts + 1 ∧
      pre.m_state.m_levelsSinceSpecial = w.m_state.m_levelsSinceSpecial + 1 ∧
      pre.m_state.m_currentLevelIndex
        = max 0 (min (w.nextLevelAfter w.levelPassed w.actualAccuracy) 287) ∧
      pre.m_state.m_finalLevelConsecutivePasses = w.m_state.m_finalLevelConsecutivePasses ∧
      pre.m_state.m_finalLevelCooldownStart = w.m_state.m_finalLevelCooldownStart ∧
      pre.m_state.m_trainingCompleted = w.m_state.m_trainingCompleted := by
  obtain ⟨r1, r2, r3, r4⟩ := rewardLevel_frame w w.actualAccuracy w.effectiveAccuracy
    w.levelPassed
  generalize hw1 : w.rewardLevel w.actualAccuracy w.effectiveAccuracy w.levelPassed = w1
    at r1 r2 r3 r4
  obtain ⟨summary, s1, s2, s3, s4, s5, c1, c2, c3, c4, c5, c6, c7, c8, c9, c10, c11, c12⟩ :=
    closeLevel_frame w1 w.actualAccuracy w.levelPassed clock
  generalize hw2 : w1.closeLevel w.actualAccuracy w.levelPassed clock = w2 at *
  have hres : w.resolveLevelCompletion clock
      = (w2.advanceLevel w.actualAccuracy w.levelPassed).resolveFinalLevel w.levelPassed
          clock := by
    rw [← hw2, ← hw1]; rfl
  have hnext : w2.nextLevelAfter w.levelPassed w.actualAccuracy
      = w.nextLevelAfter w.levelPassed w.actualAccuracy := by
    unfold PitchTraining.nextLevelAfter
    rw [c3, c9, r2, r1]
    split_ifs <;> rfl
  have hhist : w1.m_state.recordLevelSummary summary
      = { w1.m_state with m_history := (w1.m_state.recordLevelSummary summary).m_history } :=
    rfl
  refine ⟨w2.advanceLevel w.actualAccuracy w.levelPassed, summary, hres, ?_, s2, s3, s4, s5,
    ?_, c10, c11, ?_, ?_, ?_, ?_, ?_, ?_, ?_, ?_, ?_⟩
  · rw [s1, r2]
  · exact c9.trans r2
  · exact c12.trans r4
  · show w2.m_state.m_tokens = _
    rw [c1, r1]
    split_ifs <;> rfl
  · show w2.m_state.m_history = _
    rw [c2, r1]
    split_ifs <;> rfl
  · show w2.m_state.m_totalLevelAttempts = _
    rw [c4, r1]
    split_ifs <;> rfl
  · show w2.m_state.m_levelsSinceSpecial = _
    rw [c5, r1]
    split_ifs <;> rfl
  · show max 0 (min (w2.nextLevelAfter _ _) (totalLevelCount - 1)) = _
    rw [hnext]
    rfl
  · show w2.m_state.m_finalLevelConsecutivePasses = _
    rw [c6, r1]
    split_ifs <;> rfl
  · show w2.m_state.m_finalLevelCooldownStart = _
    rw [c7, r1]
    split_ifs <;> rfl
  · show w2.m_state.m_trainingCompleted = _
    rw [c8, r1]
    split_ifs <;> rfl

theorem resolveFinalLevel_frame (w : PitchTraining) (passed : Bool) (clock : Clock) :
    (w.resolveFinalLevel passed clock).m_state.m_tokens = w.m_state.m_tokens ∧
    (w.resolveFinalLevel passed clock).m_state.m_history = w.m_state.m_history ∧
    (w.resolveFinalLevel passed clock).m_state.m_currentLevelIndex
      = w.m_state.m_currentLevelIndex ∧
    (w.resolveFinalLevel passed clock).m_state.m_totalLevelAttempts
      = w.m_state.m_totalLevelAttempts ∧
    (w.resolveFinalLevel passed clock).m_state.m_levelsSinceSpecial
      = w.m_state.m_levelsSinceSpecial ∧
    (w.resolveFinalLevel passed clock).m_mode = w.m_mode ∧
    (w.resolveFinalLevel passed clock).m_levelActive = w.m_levelActive ∧
    (w.resolveFinalLevel passed clock).m_specialContext = w.m_specialContext ∧
    (w.resolveFinalLevel passed clock).m_currentSpec = w.m_currentSpec := by
  unfold PitchTraining.resolveFinalLevel PitchTraining.updateFeedback
  refine ⟨?_, ?_, ?_, ?_, ?_, ?_, ?_, ?_, ?_⟩ <;> dsimp only <;> split_ifs <;> rfl

theorem tokensEarned_eq (x : ℚ) :
    PitchTraining.tokensEarned x
      = (if x ≥ 0.60 then 1 else 0) + (if x ≥ 0.75 then 1 else 0)
        + (if x ≥ 0.90 then 1 else 0) := by
  simp only [PitchTraining.tokensEarned, kTokenThresholds, List.foldl]
  split_ifs <;> rfl

theorem tokensEarned_of_count (c : Int) :
    PitchTraining.tokensEarned ((c : ℚ) / 20)
      = if c < 12 then 0 else if c < 15 then 1 else if c < 18 then 2 else 3 := by
  rw [tokensEarned_eq]
  have h60 : ((c : ℚ) / 20 ≥ 0.60) ↔ 12 ≤ c := by
    rw [ge_iff_le, le_div_iff₀ (by norm_num : (0 : ℚ) < 20)]
    constructor
    · intro h
      have : ((12 : Int) : ℚ) ≤ (c : ℚ) := by norm_num at h ⊢; linarith
      exact_mod_cast this
    · intro h
      have : ((12 : Int) : ℚ) ≤ (c : ℚ) := by exact_mod_cast h
      norm_num at this ⊢; linarith
  have h75 : ((c : ℚ) / 20 ≥ 0.75) ↔ 15 ≤ c := by
    rw [ge_iff_le, le_div_iff₀ (by norm_num : (0 : ℚ) < 20)]
    constructor
    · intro h
      have : ((15 : Int) : ℚ) ≤ (c : ℚ) := by norm_num at h ⊢; linarith
      exact_mod_cast this
    · intro h
      have : ((15 : Int) : ℚ) ≤ (c : ℚ) := by exact_mod_cast h
      norm_num at this ⊢; linarith
  have h90 : ((c : ℚ) / 20 ≥ 0.90) ↔ 18 ≤ c := by
    rw [ge_iff_le, le_div_iff₀ (by norm_num : (0 : ℚ) < 20)]
    constructor
    · intro h
      have : ((18 : Int) : ℚ) ≤ (c : ℚ) := by norm_num at h ⊢; linarith
      exact_mod_cast this
    · intro h
      have : ((18 : Int) : ℚ) ≤ (c : ℚ) := by exact_mod_cast h
      norm_num at this ⊢; linarith
  simp only [h60, h75, h90]
  split_ifs <;> omega

/-- Claim C13: when a level completes with `c` correct trials out of 20 required, the token
balance (not negative before, as the invariant of the progress state has it) grows by
exactly the number of thresholds among 0.60, 0.75 and 0.90 that the actual accuracy `c / 20`
meets: 0 for `c < 12`, 1 for `12 ≤ c < 15`, 2 for `15 ≤ c < 18`, 3 for `c ≥ 18`. The
effective bonus plays no part in it. An accuracy of 0.91 earns 3 tokens, 0.70 earns 1 and
0.10 earns 0. -/
theorem level_completion_token_reward (w : PitchTraining) (clock : Clock)
    (hreq : w.m_requiredTrials = 20) (htok : 0 ≤ w.m_state.m_tokens) :
    (w.resolveLevelCompletion clock).m_state.m_tokens
      = w.m_state.m_tokens + PitchTraining.tokensEarned ((w.m_correctTrials : ℚ) / 20) ∧
    PitchTraining.tokensEarned ((w.m_correctTrials : ℚ) / 20)
      = (if w.m_correctTrials < 12 then 0 else if w.m_correctTrials < 15 then 1
          else if w.m_correctTrials < 18 then 2 else 3) ∧
    (∀ bonus : ℚ,
      (PitchTraining.resolveLevelCompletion { w with m_effectiveBonus := bonus }
          clock).m_state.m_tokens
        = (w.resolveLevelCompletion clock).m_state.m_tokens) ∧
    PitchTraining.tokensEarned 0.91 = 3 ∧ PitchTraining.tokensEarned 0.70 = 1 ∧
    PitchTraining.tokensEarned 0.10 = 0 := by
  have hacc : ∀ v : PitchTraining, v.m_requiredTrials = 20 →
      v.actualAccuracy = (v.m_correctTrials : ℚ) / 20 := by
    intro v hv
    simp [PitchTraining.actualAccuracy, hv]
  have htokens : ∀ v : PitchTraining, v.m_requiredTrials = 20 → 0 ≤ v.m_state.m_tokens →
      (v.resolveLevelCompletion clock).m_state.m_tokens
        = v.m_state.m_tokens + PitchTraining.tokensEarned ((v.m_correctTrials : ℚ) / 20) := by
    intro v hv hvt
    obtain ⟨pre, summary, hres, -, -, -, -, -, -, -, -, -, ht, -⟩ :=
      resolveLevelCompletion_eq v clock
    rw [hres, (resolveFinalLevel_frame pre _ clock).1, ht, hacc v hv]
    have hnonneg : 0 ≤ PitchTraining.tokensEarned ((v.m_correctTrials : ℚ) / 20) := by
      rw [tokensEarned_of_count]; split_ifs <;> decide
    split_ifs with h
    · omega
    · omega
  refine ⟨htokens w hreq htok, tokensEarned_of_count _, ?_, ?_, ?_, ?_⟩
  · intro bonus
    rw [htokens w hreq htok, htokens { w with m_effectiveBonus := bonus } hreq htok]
  · rw [tokensEarned_eq]; norm_num
  · rw [tokensEarned_eq]; norm_num
  · rw [tokensEarned_eq]; norm_num

theorem level_completion_token_reward_witness :
    (fifteenOfTwenty.resolveLevelCompletion sampleClock).m_state.m_tokens
      = fifteenOfTwenty.m_state.m_tokens
        + PitchTraining.tokensEarned ((fifteenOfTwenty.m_correctTrials : ℚ) / 20) ∧
    PitchTraining.tokensEarned ((fifteenOfTwenty.m_correctTrials : ℚ) / 20)
      = (if fifteenOfTwenty.m_correctTrials < 12 then 0
          else if fifteenOfTwenty.m_correctTrials < 15 then 1
          else if fifteenOfTwenty.m_correctTrials < 18 then 2 else 3) :=
  have h := level_completion_token_reward fifteenOfTwenty sampleClock rfl (by decide)
  ⟨h.1, h.2.1⟩

theorem recordLevelSummary_getLast (st : TrainingState) (s : LevelSummary) :
    (st.recordLevelSummary s).m_history.getLast? = some s := by
  rw [recordLevelSummary_history, List.drop_append_of_le_length (by omega)]
  simp

/-- Claim C14: a completed level with `c` correct trials, effective bonus `b` and 20
required trials is passed exactly when `min(1, (c + b) / 20)` reaches the required pass
accuracy of the level, and the summary it records (the newest of the history) carries the
actual accuracy `c / 20`, the pass flag and no special-exercise mark. With a required
accuracy of 0.60, `c = 12` and `b = 0` the accuracy is 0.60, the level is passed and the
token reward is 1. -/
theorem level_pass_rule (w : PitchTraining) (clock : Clock) (hreq : w.m_requiredTrials = 20) :
    (w.levelPassed = true ↔
      min 1 (((w.m_correctTrials : ℚ) + w.m_effectiveBonus) / 20)
        ≥ w.m_currentSpec.passAccuracy) ∧
    (∃ summary : LevelSummary,
      (w.resolveLevelCompletion clock).m_state.m_history.getLast? = some summary ∧
      summary.accuracy = (w.m_correctTrials : ℚ) / 20 ∧
      summary.passed = w.levelPassed ∧ summary.specialExercise = false ∧
      summary.levelIndex = w.m_currentSpec.globalIndex) ∧
    (w.m_currentSpec.passAccuracy = 0.60 → w.m_correctTrials = 12 → w.m_effectiveBonus = 0 →
      (w.m_correctTrials : ℚ) / 20 = 0.60 ∧ w.levelPassed = true ∧
      PitchTraining.tokensEarned ((w.m_correctTrials : ℚ) / 20) = 1) := by
  have hpass : w.levelPassed = true ↔
      min 1 (((w.m_correctTrials : ℚ) + w.m_effectiveBonus) / 20)
        ≥ w.m_currentSpec.passAccuracy := by
    simp [PitchTraining.levelPassed, PitchTraining.effectiveAccuracy, hreq]
  refine ⟨hpass, ?_, ?_⟩
  · obtain ⟨pre, summary, hres, s1, s2, s3, s4, -, -, -, -, -, -, hh, -⟩ :=
      resolveLevelCompletion_eq w clock
    refine ⟨summary, ?_, ?_, s3, s4, s1⟩
    · rw [hres, (resolveFinalLevel_frame pre _ clock).2.1, hh]
      exact recordLevelSummary_getLast _ _
    · rw [s2]; simp [PitchTraining.actualAccuracy, hreq]
  · intro hacc hc hb
    refine ⟨by rw [hc]; norm_num, ?_, by rw [tokensEarned_of_count, hc]; decide⟩
    rw [hpass, hacc, hc, hb]
    norm_num

theorem level_pass_rule_witness :
    (fifteenOfTwenty.levelPassed = true ↔
      min 1 (((fifteenOfTwenty.m_correctTrials : ℚ) + fifteenOfTwenty.m_effectiveBonus) / 20)
        ≥ fifteenOfTwenty.m_currentSpec.passAccuracy) ∧
    (∃ summary : LevelSummary,
      (fifteenOfTwenty.resolveLevelCompletion sampleClock).m_state.m_history.getLast?
        = some summary ∧
      summary.accuracy = (fifteenOfTwenty.m_correctTrials : ℚ) / 20 ∧
      summary.passed = fifteenOfTwenty.levelPassed ∧ summary.specialExercise = false ∧
      summary.levelIndex = fifteenOfTwenty.m_currentSpec.globalIndex) :=
  have h := level_pass_rule fifteenOfTwenty sampleClock rfl
  ⟨h.1, h.2.1⟩

/-! ## The level pointer after a completed level -/

theorem levelSpecEntry_stage (k : Nat) :
    (levelSpecEntry k).stageIndex = ((k / 24 : Nat) : Int) + 1 := rfl

theorem levelSpecEntry_levelInStage (k : Nat) :
    (levelSpecEntry k).levelInStage = ((k % 24 : Nat) : Int) + 1 := rfl

theorem specForIndex_stage (i : Int) (h0 : 0 ≤ i) (h1 : i ≤ 287) :
    (specForIndex i).stageIndex = i / 24 + 1 ∧ (specForIndex i).levelInStage = i % 24 + 1 := by
  rw [specForIndex_eq, levelSpecEntry_stage, levelSpecEntry_levelInStage]
  have h : (max 0 (min i 287)).toNat = i.toNat := by omega
  rw [h]
  constructor <;> omega

/-- The scan of `resolveLevelCompletion` from a candidate `idx` beyond `i` whose predecessor
lies in the stage of `i`: the index it yields is beyond `i`, at most 287, and in the stage
of `i` or at the start of the next one, provided `nextLevel` is so. -/
theorem advanceLoop_range (current : LevelSpec) (achieved : ℚ) (i : Int) (h0 : 0 ≤ i)
    (hcur : current.stageIndex = i / 24 + 1) (n : Nat) :
    ∀ idx nextLevel : Int, n = (288 - idx).toNat → i < idx → (idx - 1) / 24 = i / 24 →
      (i < nextLevel ∧ nextLevel ≤ 287 ∧
        (nextLevel / 24 = i / 24 ∨ (nextLevel / 24 = i / 24 + 1 ∧ nextLevel % 24 = 0))) →
      (i < PitchTraining.advanceLoop levelSpecs current achieved idx nextLevel ∧
        PitchTraining.advanceLoop levelSpecs current achieved idx nextLevel ≤ 287 ∧
        (PitchTraining.advanceLoop levelSpecs current achieved idx nextLevel / 24 = i / 24 ∨
          (PitchTraining.advanceLoop levelSpecs current achieved idx nextLevel / 24 = i / 24 + 1 ∧
            PitchTraining.advanceLoop levelSpecs current achieved idx nextLevel % 24 = 0))) := by
  induction n using Nat.strong_induction_on with
  | _ n ih =>
    intro idx nextLevel hn hlt hprev hnext
    rw [PitchTraining.advanceLoop]
    simp only [levelSpecs_length]
    by_cases hidx : idx < ((288 : Nat) : Int)
    · rw [dif_pos hidx]
      have hk : idx.toNat < 288 := by omega
      have hstage : (levelSpecs.getD idx.toNat default).stageIndex = idx / 24 + 1 := by
        rw [levelSpecs_getD _ hk, levelSpecEntry_stage]; omega
      have hself : i < idx ∧ idx ≤ 287 ∧
          (idx / 24 = i / 24 ∨ (idx / 24 = i / 24 + 1 ∧ idx % 24 = 0)) := by
        refine ⟨hlt, by omega, by omega⟩
      split_ifs with hs hf ha
      · exact hself
      · exact hnext
      · exact hself
      · have hsame : idx / 24 = i / 24 := by
          have := hstage
          rw [not_not.mp hs, hcur] at this
          omega
        exact ih (288 - (idx + 1)).toNat (by omega) (idx + 1) idx rfl (by omega)
          (by rw [show idx + 1 - 1 = idx by ring]; exact hsame) hself
    · rw [dif_neg hidx]
      exact hnext

/-- Claim C15: completing a level whose pointer is at an in-range index `i` (the level in
progress being the level of the pointer): when the level is failed the pointer stays at
`i`; when it is passed and `i < 287` the new pointer `j` satisfies `i < j ≤ 287` and level
`j` is in the stage of level `i` or is the first level of the next stage; when it is passed
at `i = 287` the pointer stays at 287. -/
theorem level_pointer_after_completion (w : PitchTraining) (clock : Clock)
    (h0 : 0 ≤ w.m_state.m_currentLevelIndex) (h1 : w.m_state.m_currentLevelIndex ≤ 287)
    (hspec : w.m_currentSpec = specForIndex w.m_state.m_currentLevelIndex) :
    (w.levelPassed = false →
      (w.resolveLevelCompletion clock).m_state.m_currentLevelIndex
        = w.m_state.m_currentLevelIndex) ∧
    (w.levelPassed = true → w.m_state.m_currentLevelIndex < 287 →
      w.m_state.m_currentLevelIndex
        < (w.resolveLevelCompletion clock).m_state.m_currentLevelIndex ∧
      (w.resolveLevelCompletion clock).m_state.m_currentLevelIndex ≤ 287 ∧
      ((specForIndex (w.resolveLevelCompletion clock).m_state.m_currentLevelIndex).stageIndex
          = (specForIndex w.m_state.m_currentLevelIndex).stageIndex ∨
        ((specForIndex (w.resolveLevelCompletion clock).m_state.m_currentLevelIndex).stageIndex
            = (specForIndex w.m_state.m_currentLevelIndex).stageIndex + 1 ∧
          (specForIndex
            (w.resolveLevelCompletion clock).m_state.m_currentLevelIndex).levelInStage = 1))) ∧
    (w.levelPassed = true → w.m_state.m_currentLevelIndex = 287 →
      (w.resolveLevelCompletion clock).m_state.m_currentLevelIndex = 287) := by
  obtain ⟨pre, summary, hres, -, -, -, -, -, -, -, -, -, -, -, -, -, hidx, -⟩ :=
    resolveLevelCompletion_eq w clock
  have hptr : (w.resolveLevelCompletion clock).m_state.m_currentLevelIndex
      = max 0 (min (w.nextLevelAfter w.levelPassed w.actualAccuracy) 287) := by
    rw [hres, (resolveFinalLevel_frame pre _ clock).2.2.1, hidx]
  rw [hptr]
  refine ⟨?_, ?_, ?_⟩
  · intro hp
    rw [hp]
    simp only [PitchTraining.nextLevelAfter]
    simp
    omega
  · intro hp hlt
    rw [hp]
    have hscan := advanceLoop_range w.m_currentSpec w.actualAccuracy
      w.m_state.m_currentLevelIndex h0
      (by rw [hspec]; exact (specForIndex_stage _ h0 h1).1) _
      (w.m_state.m_currentLevelIndex + 1)
      (min (w.m_state.m_currentLevelIndex + 1) (totalLevelCount - 1)) rfl (by omega)
      (by rw [show w.m_state.m_currentLevelIndex + 1 - 1 = w.m_state.m_currentLevelIndex by ring])
      (by
        have : totalLevelCount - 1 = 287 := by decide
        rw [this]
        refine ⟨by omega, by omega, by omega⟩)
    have hnext : w.nextLevelAfter true w.actualAccuracy
        = PitchTraining.advanceLoop levelSpecs w.m_currentSpec w.actualAccuracy
            (w.m_state.m_currentLevelIndex + 1)
            (min (w.m_state.m_currentLevelIndex + 1) (totalLevelCount - 1)) := by
      simp only [PitchTraining.nextLevelAfter, if_true]
    rw [hnext]
    generalize PitchTraining.advanceLoop levelSpecs w.m_currentSpec w.actualAccuracy
            (w.m_state.m_currentLevelIndex + 1)
            (min (w.m_state.m_currentLevelIndex + 1) (totalLevelCount - 1)) = j at hscan
    obtain ⟨j1, j2, j3⟩ := hscan
    have hj : max 0 (min j 287) = j := by omega
    rw [hj]
    have sj := specForIndex_stage j (by omega) j2
    have si := specForIndex_stage _ h0 h1
    rw [sj.1, sj.2, si.1]
    refine ⟨j1, j2, ?_⟩
    omega
  · intro hp h287
    rw [hp]
    have hnext : w.nextLevelAfter true w.actualAccuracy = 287 := by
      simp only [PitchTraining.nextLevelAfter, if_true]
      rw [PitchTraining.advanceLoop]
      simp only [levelSpecs_length]
      rw [dif_neg (by omega), h287]
      decide
    rw [hnext]
    decide

theorem fifteenOfTwenty_passed : fifteenOfTwenty.levelPassed = true := by
  simp [PitchTraining.levelPassed, PitchTraining.effectiveAccuracy, fifteenOfTwenty,
    specForIndex_eq, levelSpecEntry, buildLevelSpec, accuracyTargets]
  norm_num

theorem level_pointer_after_completion_witness :
    0 ≤ fifteenOfTwenty.m_state.m_currentLevelIndex ∧
    fifteenOfTwenty.m_state.m_currentLevelIndex ≤ 287 ∧
    fifteenOfTwenty.m_currentSpec = specForIndex fifteenOfTwenty.m_state.m_currentLevelIndex ∧
    fifteenOfTwenty.m_state.m_currentLevelIndex
      < (fifteenOfTwenty.resolveLevelCompletion sampleClock).m_state.m_currentLevelIndex ∧
    (fifteenOfTwenty.resolveLevelCompletion sampleClock).m_state.m_currentLevelIndex ≤ 287 :=
  have hspec : fifteenOfTwenty.m_currentSpec
      = specForIndex fifteenOfTwenty.m_state.m_currentLevelIndex := by
    simp [fifteenOfTwenty]
  have h := level_pointer_after_completion fifteenOfTwenty sampleClock (by decide) (by decide)
    hspec
  have h2 := h.2.1 fifteenOfTwenty_passed (by decide)
  ⟨by decide, by decide, hspec, h2.1, h2.2.1⟩

/-! ## The final level -/

theorem secsTo_ge (a b : Int) :
    (QDateTime.valid a).secsTo (.valid b) ≥ 12 * 3600 ↔ b - a ≥ 43200000 := by
  show (b - a).tdiv 1000 ≥ 12 * 3600 ↔ b - a ≥ 43200000
  by_cases h : 0 ≤ b - a
  · rw [Int.tdiv_eq_ediv h (by decide)]
    omega
  · have hneg : (b - a).tdiv 1000 = -((a - b).tdiv 1000) := by
      rw [← Int.neg_tdiv]; congr 1; ring
    have hpos : 0 ≤ (a - b).tdiv 1000 := Int.tdiv_nonneg (by omega) (by decide)
    omega

/-- What `resolveFinalLevel` leaves in the three members of the final-level rule. -/
theorem resolveFinalLevel_progress (w : PitchTraining) (passed : Bool) (clock : Clock) :
    (w.resolveFinalLevel passed clock).m_state.m_finalLevelConsecutivePasses
      = (if w.m_currentSpec.globalIndex = 287 then
          (if passed then max 0 (w.m_state.m_finalLevelConsecutivePasses + 1) else 0)
        else w.m_state.m_finalLevelConsecutivePasses) ∧
    (w.resolveFinalLevel passed clock).m_state.m_finalLevelCooldownStart
      = (if w.m_currentSpec.globalIndex = 287 then
          (if passed then
            (if w.m_state.m_finalLevelConsecutivePasses + 1 = 3 then .valid clock.nowMs
              else w.m_state.m_finalLevelCooldownStart)
          else .invalid)
        else w.m_state.m_finalLevelCooldownStart) ∧
    (w.resolveFinalLevel passed clock).m_state.m_trainingCompleted
      = (if w.m_currentSpec.globalIndex = 287 ∧ passed = true ∧
            w.m_state.m_finalLevelConsecutivePasses + 1 > 3 ∧
            w.m_state.m_finalLevelCooldownStart.isValid = true ∧
            w.m_state.m_finalLevelCooldownStart.secsTo (.valid clock.nowMs) ≥ 12 * 3600
          then true else w.m_state.m_trainingCompleted) := by
  have h287 : totalLevelCount - 1 = 287 := by decide
  unfold PitchTraining.resolveFinalLevel PitchTraining.updateFeedback
  rw [h287]
  refine ⟨?_, ?_, ?_⟩ <;> dsimp only <;> split_ifs <;>
    first | (simp_all; done) | (simp_all; omega)

/-- Claim C16: completing the final level (index 287): on a fail the consecutive-pass
counter becomes 0 and the cooldown timestamp is cleared; on a pass the counter (a count,
so not negative) increases by exactly 1 and, when it thereby becomes exactly 3, the
cooldown timestamp is set to the current time, being left as it was otherwise. Completing
any other level changes neither the counter nor the cooldown timestamp. -/
theorem final_level_counter (w : PitchTraining) (clock : Clock)
    (hcount : 0 ≤ w.m_state.m_finalLevelConsecutivePasses) :
    (w.m_currentSpec.globalIndex = 287 → w.levelPassed = false →
      (w.resolveLevelCompletion clock).m_state.m_finalLevelConsecutivePasses = 0 ∧
      (w.resolveLevelCompletion clock).m_state.m_finalLevelCooldownStart = .invalid) ∧
    (w.m_currentSpec.globalIndex = 287 → w.levelPassed = true →
      (w.resolveLevelCompletion clock).m_state.m_finalLevelConsecutivePasses
        = w.m_state.m_finalLevelConsecutivePasses + 1 ∧
      ((w.resolveLevelCompletion clock).m_state.m_finalLevelConsecutivePasses = 3 →
        (w.resolveLevelCompletion clock).m_state.m_finalLevelCooldownStart
          = .valid clock.nowMs) ∧
      ((w.resolveLevelCompletion clock).m_state.m_finalLevelConsecutivePasses ≠ 3 →
        (w.resolveLevelCompletion clock).m_state.m_finalLevelCooldownStart
          = w.m_state.m_finalLevelCooldownStart)) ∧
    (w.m_currentSpec.globalIndex ≠ 287 →
      (w.resolveLevelCompletion clock).m_state.m_finalLevelConsecutivePasses
        = w.m_state.m_finalLevelConsecutivePasses ∧
      (w.resolveLevelCompletion clock).m_state.m_finalLevelCooldownStart
        = w.m_state.m_finalLevelCooldownStart) := by
  obtain ⟨pre, summary, hres, -, -, -, -, -, hspec, -, -, -, -, -, -, -, -, hc, hcd, -⟩ :=
    resolveLevelCompletion_eq w clock
  obtain ⟨p1, p2, -⟩ := resolveFinalLevel_progress pre w.levelPassed clock
  rw [hspec, hc] at p1
  rw [hspec, hc, hcd] at p2
  rw [hres, p1, p2]
  refine ⟨?_, ?_, ?_⟩
  · intro hg hp
    rw [if_pos hg, if_pos hg, hp]
    exact ⟨rfl, rfl⟩
  · intro hg hp
    rw [if_pos hg, if_pos hg, hp, if_pos rfl, if_pos rfl,
      max_eq_right (by omega : (0 : Int) ≤ w.m_state.m_finalLevelConsecutivePasses + 1)]
    refine ⟨rfl, fun h3 => by rw [if_pos h3], fun h3 => by rw [if_neg h3]⟩
  · intro hg
    rw [if_neg hg, if_neg hg]
    exact ⟨rfl, rfl⟩

theorem finalLevelTwice_passed : finalLevelTwice.levelPassed = true := by
  simp [PitchTraining.levelPassed, PitchTraining.effectiveAccuracy, finalLevelTwice,
    specForIndex_eq, levelSpecEntry, buildLevelSpec, accuracyTargets]
  norm_num

theorem finalLevelTwice_index : finalLevelTwice.m_currentSpec.globalIndex = 287 := by
  show (specForIndex 287).globalIndex = 287
  rw [specForIndex_eq]; rfl

theorem final_level_counter_witness :
    0 ≤ finalLevelTwice.m_state.m_finalLevelConsecutivePasses ∧
    (finalLevelTwice.resolveLevelCompletion sampleClock).m_state.m_finalLevelConsecutivePasses
      = 3 ∧
    (finalLevelTwice.resolveLevelCompletion sampleClock).m_state.m_finalLevelCooldownStart
      = .valid sampleClock.nowMs :=
  have h := (final_level_counter finalLevelTwice sampleClock (by decide)).2.1
    finalLevelTwice_index finalLevelTwice_passed
  ⟨by decide, h.1, h.2.1 h.1⟩

/-! ## Starting a level -/

theorem startLevelInternal_frame (w : PitchTraining) :
    (w.startLevelInternal).m_levelActive = true ∧
    (w.startLevelInternal).m_mode = .Level ∧
    (w.startLevelInternal).m_specialContext = w.m_specialContext ∧
    (w.startLevelInternal).m_state = w.m_state := by
  unfold PitchTraining.startLevelInternal PitchTraining.scheduleShepardIfNeeded
  refine ⟨?_, ?_, ?_, ?_⟩ <;> dsimp only <;> split_ifs <;> rfl

theorem startSpecialExercise_frame (w : PitchTraining) :
    (w.startSpecialExercise).m_levelActive = false ∧
    (w.startSpecialExercise).m_mode = .SpecialExercise ∧
    (w.startSpecialExercise).m_specialContext.active = true ∧
    (w.startSpecialExercise).m_specialContext.feedbackPhase = true ∧
    (w.startSpecialExercise).m_specialContext.totalTrials = 12 ∧
    (w.startSpecialExercise).m_specialContext.secondPhasePending = true ∧
    (w.startSpecialExercise).m_trialsCompleted = 0 ∧
    (w.startSpecialExercise).m_trialLog = [] ∧
    (w.startSpecialExercise).m_waitingForShepard = false ∧
    (w.startSpecialExercise).m_state = w.m_state := by
  unfold PitchTraining.startSpecialExercise
  refine ⟨?_, ?_, ?_, ?_, ?_, ?_, ?_, ?_, ?_, ?_⟩ <;> dsimp only <;> split_ifs <;> rfl

theorem startSpecialExercise_context (w : PitchTraining) :
    (w.startSpecialExercise).m_specialContext.completedTrials = 0 ∧
    (w.startSpecialExercise).m_currentSpec = specForIndex w.m_state.m_currentLevelIndex ∧
    (w.startSpecialExercise).m_specialContext.targetPitch
      = (if !w.m_state.leastAccuratePitch.isEmpty then w.m_state.leastAccuratePitch
          else if !w.m_trainingPitches.isEmpty then w.m_trainingPitches.headD ""
          else "F") ∧
    (w.startSpecialExercise).m_outOfBoundsPitches = w.m_outOfBoundsPitches := by
  unfold PitchTraining.startSpecialExercise
  refine ⟨?_, ?_, ?_, ?_⟩ <;> dsimp only <;> split_ifs <;> rfl

/-- The branches of `handleStartLevel`. -/
theorem handleStartLevel_cases (w : PitchTraining) (clock : Clock) :
    (w.m_levelActive = true ∨ w.m_specialContext.active = true →
      w.handleStartLevel clock = w) ∧
    (w.m_levelActive = false → w.m_specialContext.active = false →
      w.m_sessionActive = false →
      w.handleStartLevel clock
        = (w.updateFeedback "Start a 15-min session before beginning a level."
            false).refreshStartLevelButton) ∧
    (w.m_levelActive = false → w.m_specialContext.active = false →
      w.m_sessionActive = true → w.shouldRunSpecialExercise = true →
      w.handleStartLevel clock = w.startSpecialExercise) ∧
    (w.m_levelActive = false → w.m_specialContext.active = false →
      w.m_sessionActive = true → w.shouldRunSpecialExercise = false →
      w.handleStartLevel clock
        = (if (specForIndex w.m_state.m_currentLevelIndex).globalIndex = 287 ∧
              w.m_state.m_finalLevelConsecutivePasses ≥ 3 ∧
              w.m_state.m_trainingCompleted = false then
            (if w.m_state.m_finalLevelCooldownStart.isValid = true ∧
                w.m_state.m_finalLevelCooldownStart.secsTo (.valid clock.nowMs) ≥ 43200 then
              w.startLevelInternal
            else
              w.updateFeedback
                "Wait at least 12 h after the third clear before the final attempt." false)
          else w.startLevelInternal)) := by
  have h287 : totalLevelCount - 1 = 287 := by decide
  unfold PitchTraining.handleStartLevel
  rw [h287]
  refine ⟨?_, ?_, ?_, ?_⟩
  · rintro (h | h) <;> simp [h]
  · intro h1 h2 h3
    simp [h1, h2, h3]
  · intro h1 h2 h3 h4
    simp [h1, h2, h3, h4]
  · intro h1 h2 h3 h4
    simp only [h1, h2, h3, h4, Bool.or_self, Bool.false_eq_true, if_false, Bool.not_true]
    split_ifs with a b c c <;> first | rfl | (exfalso; simp_all; omega) | (exfalso; simp_all)

/-- Claim C17: with the level pointer at the final level, the consecutive-pass counter at
least 3 and training not completed, `handleStartLevel` called with no level in progress
starts the level exactly when the session is on, no special exercise is active or due, and
at least 12 hours (43200 seconds) have passed since the cooldown timestamp; in particular
it never starts the level before that. A level completion turns `trainingCompleted` from
false to true exactly when it is a pass of the final level that raises the counter above 3
at least 12 hours after the cooldown timestamp. -/
theorem final_level_cooldown (w : PitchTraining) (clock : Clock) :
    (w.m_state.m_currentLevelIndex = 287 → w.m_state.m_finalLevelConsecutivePasses ≥ 3 →
      w.m_state.m_trainingCompleted = false → w.m_levelActive = false →
      ((w.handleStartLevel clock).m_levelActive = true ↔
        (w.m_specialContext.active = false ∧ w.m_sessionActive = true ∧
          w.shouldRunSpecialExercise = false ∧
          ∃ t : Int, w.m_state.m_finalLevelCooldownStart = .valid t ∧
            (QDateTime.valid t).secsTo (.valid clock.nowMs) ≥ 43200 ∧
            clock.nowMs - t ≥ 43200000))) ∧
    (w.m_state.m_trainingCompleted = false →
      ((w.resolveLevelCompletion clock).m_state.m_trainingCompleted = true ↔
        (w.m_currentSpec.globalIndex = 287 ∧ w.levelPassed = true ∧
          w.m_state.m_finalLevelConsecutivePasses + 1 > 3 ∧
          ∃ t : Int, w.m_state.m_finalLevelCooldownStart = .valid t ∧
            (QDateTime.valid t).secsTo (.valid clock.nowMs) ≥ 43200 ∧
            clock.nowMs - t ≥ 43200000))) := by
  constructor
  · intro hptr hcount hdone hidle
    have hspec : (specForIndex w.m_state.m_currentLevelIndex).globalIndex = 287 := by
      rw [hptr, specForIndex_eq]; rfl
    obtain ⟨c1, c2, c3, c4⟩ := handleStartLevel_cases w clock
    cases hsa : w.m_specialContext.active
    · cases hse : w.m_sessionActive
      · rw [c2 hidle hsa hse]
        simp [PitchTraining.updateFeedback, PitchTraining.refreshStartLevelButton, hidle]
      · cases hsr : w.shouldRunSpecialExercise
        · rw [c4 hidle hsa hse hsr, if_pos ⟨hspec, hcount, hdone⟩]
          cases hcd : w.m_state.m_finalLevelCooldownStart with
          | invalid =>
            rw [if_neg (by simp [QDateTime.isValid])]
            simp [PitchTraining.updateFeedback, hidle]
          | valid t =>
            have hs := secsTo_ge t clock.nowMs
            by_cases hge : (QDateTime.valid t).secsTo (.valid clock.nowMs) ≥ 43200
            · rw [if_pos ⟨rfl, hge⟩, (startLevelInternal_frame w).1]
              exact ⟨fun _ => ⟨rfl, rfl, rfl, t, rfl, hge, hs.mp hge⟩, fun _ => rfl⟩
            · rw [if_neg (fun h => hge h.2)]
              constructor
              · intro h
                simp [PitchTraining.updateFeedback, hidle] at h
              · rintro ⟨-, -, -, t2, ht, h2, -⟩
                cases ht
                exact absurd h2 hge
        · rw [c3 hidle hsa hse hsr, (startSpecialExercise_frame w).1]
          simp
    · rw [c1 (Or.inr hsa), hidle]
      simp
  · intro hdone
    obtain ⟨pre, summary, hres, -, -, -, -, -, hspec, -, -, -, -, -, -, -, -, hc, hcd, hcomp⟩ :=
      resolveLevelCompletion_eq w clock
    obtain ⟨-, -, p3⟩ := resolveFinalLevel_progress pre w.levelPassed clock
    rw [hspec, hc, hcd, hcomp, hdone] at p3
    rw [hres, p3]
    cases hcdv : w.m_state.m_finalLevelCooldownStart with
    | invalid => simp [QDateTime.isValid]
    | valid t =>
      have hs := secsTo_ge t clock.nowMs
      constructor
      · intro h
        split_ifs at h with hc
        · obtain ⟨c1, c2, c3, -, c5⟩ := hc
          exact ⟨c1, c2, c3, t, rfl, by omega, hs.mp c5⟩
      · rintro ⟨c1, c2, c3, t2, ht, c5, -⟩
        cases ht
        rw [if_pos ⟨c1, c2, c3, rfl, by omega⟩]

theorem final_level_cooldown_witness :
    ¬ (awaitingFinalAttempt.handleStartLevel { nowMs := 43199999, today := 0 }).m_levelActive
        = true ∧
    (awaitingFinalAttempt.handleStartLevel { nowMs := 43200000, today := 0 }).m_levelActive
        = true :=
  have hrun : awaitingFinalAttempt.shouldRunSpecialExercise = false := by
    simp [PitchTraining.shouldRunSpecialExercise, awaitingFinalAttempt]
  ⟨fun h =>
      have h2 := ((final_level_cooldown awaitingFinalAttempt { nowMs := 43199999, today := 0 }).1
        rfl (by decide) rfl rfl).mp h
      match h2 with
      | ⟨_, _, _, t, ht, _, hms⟩ => by
        cases ht
        exact absurd hms (by decide),
    ((final_level_cooldown awaitingFinalAttempt { nowMs := 43200000, today := 0 }).1
        rfl (by decide) rfl rfl).mpr
      ⟨rfl, rfl, hrun, 0, rfl, by decide, by decide⟩⟩

/-- Claim C18: when a level is already active, when a special exercise is active, or when
the training-session flag is off, `handleStartLevel` changes no session-engine state (mode,
level-active flag, special-exercise context, trial counters, pitch sets, current level and
trial) and no progress state: with a level or a special exercise active it changes nothing
at all, and with the session flag off it writes only the feedback label and the enabled
state of the start button. -/
theorem handleStartLevel_rejected (w : PitchTraining) (clock : Clock)
    (h : w.m_levelActive = true ∨ w.m_specialContext.active = true ∨
      w.m_sessionActive = false) :
    (w.m_levelActive = true ∨ w.m_specialContext.active = true →
      w.handleStartLevel clock = w) ∧
    w.handleStartLevel clock
      = { w with feedbackText := (w.handleStartLevel clock).feedbackText,
                 feedbackPositive := (w.handleStartLevel clock).feedbackPositive,
                 startLevelEnabled := (w.handleStartLevel clock).startLevelEnabled } ∧
    (w.handleStartLevel clock).m_mode = w.m_mode ∧
    (w.handleStartLevel clock).m_levelActive = w.m_levelActive ∧
    (w.handleStartLevel clock).m_specialContext = w.m_specialContext ∧
    (w.handleStartLevel clock).m_trialsCompleted = w.m_trialsCompleted ∧
    (w.handleStartLevel clock).m_requiredTrials = w.m_requiredTrials ∧
    (w.handleStartLevel clock).m_correctTrials = w.m_correctTrials ∧
    (w.handleStartLevel clock).m_effectiveBonus = w.m_effectiveBonus ∧
    (w.handleStartLevel clock).m_trainingPitches = w.m_trainingPitches ∧
    (w.handleStartLevel clock).m_outOfBoundsPitches = w.m_outOfBoundsPitches ∧
    (w.handleStartLevel clock).m_currentSpec = w.m_currentSpec ∧
    (w.handleStartLevel clock).m_currentTrial = w.m_currentTrial ∧
    (w.handleStartLevel clock).m_trialLog = w.m_trialLog ∧
    (w.handleStartLevel clock).m_state = w.m_state := by
  obtain ⟨c1, c2, -, -⟩ := handleStartLevel_cases w clock
  refine ⟨c1, ?_⟩
  by_cases hact : w.m_levelActive = true ∨ w.m_specialContext.active = true
  · rw [c1 hact]
    exact ⟨rfl, rfl, rfl, rfl, rfl, rfl, rfl, rfl, rfl, rfl, rfl, rfl, rfl, rfl⟩
  · have hs : w.m_sessionActive = false := by
      rcases h with h | h | h
      · exact absurd (Or.inl h) hact
      · exact absurd (Or.inr h) hact
      · exact h
    have hl : w.m_levelActive = false := by
      cases hv : w.m_levelActive
      · rfl
      · exact absurd (Or.inl hv) hact
    have hp : w.m_specialContext.active = false := by
      cases hv : w.m_specialContext.active
      · rfl
      · exact absurd (Or.inr hv) hact
    rw [c2 hl hp hs]
    exact ⟨rfl, rfl, rfl, rfl, rfl, rfl, rfl, rfl, rfl, rfl, rfl, rfl, rfl, rfl⟩

theorem handleStartLevel_rejected_witness :
    fifteenOfTwenty.handleStartLevel sampleClock = fifteenOfTwenty ∧
    (PitchTraining.handleStartLevel {} sampleClock).m_state = ({} : PitchTraining).m_state ∧
    (PitchTraining.handleStartLevel {} sampleClock).m_levelActive = false :=
  ⟨(handleStartLevel_rejected fifteenOfTwenty sampleClock (Or.inl rfl)).1 (Or.inl rfl),
    (handleStartLevel_rejected {} sampleClock (Or.inr (Or.inr rfl))).2.2.2.2.2.2.2.2.2.2.2.2.2.2,
    (handleStartLevel_rejected {} sampleClock (Or.inr (Or.inr rfl))).2.2.2.1⟩

theorem stage_ge_five_iff (i : Int) : (specForIndex i).stageIndex ≥ 5 ↔ i ≥ 96 := by
  rw [specForIndex_eq, levelSpecEntry_stage]
  omega

/-- Claim C19: with the training-session flag on and neither a level nor a special exercise
active, `handleStartLevel` starts a special exercise (and then no level) if and only if
`levelsSinceSpecial ≥ 15` and the stage index of the current level is at least 5, which is
the case exactly for a current level index of at least 96; so from a level of stages 1 to 4
no special exercise is started. -/
theorem special_exercise_due (w : PitchTraining) (clock : Clock)
    (hsession : w.m_sessionActive = true) (hlevel : w.m_levelActive = false)
    (hspecial : w.m_specialContext.active = false) :
    ((w.handleStartLevel clock).m_specialContext.active = true ↔
      (w.m_state.m_levelsSinceSpecial ≥ 15 ∧
        (specForIndex w.m_state.m_currentLevelIndex).stageIndex ≥ 5)) ∧
    ((w.handleStartLevel clock).m_specialContext.active = true →
      w.handleStartLevel clock = w.startSpecialExercise ∧
      (w.handleStartLevel clock).m_mode = .SpecialExercise ∧
      (w.handleStartLevel clock).m_levelActive = false) ∧
    ((specForIndex w.m_state.m_currentLevelIndex).stageIndex ≥ 5 ↔
      w.m_state.m_currentLevelIndex ≥ 96) ∧
    ((specForIndex w.m_state.m_currentLevelIndex).stageIndex ≤ 4 →
      (w.handleStartLevel clock).m_specialContext.active = false) := by
  obtain ⟨-, -, c3, c4⟩ := handleStartLevel_cases w clock
  have hdue : w.shouldRunSpecialExercise = true ↔
      (w.m_state.m_levelsSinceSpecial ≥ 15 ∧
        (specForIndex w.m_state.m_currentLevelIndex).stageIndex ≥ 5) := by
    simp [PitchTraining.shouldRunSpecialExercise]
  have hnot : w.shouldRunSpecialExercise = false →
      (w.handleStartLevel clock).m_specialContext.active = false := by
    intro hr
    rw [c4 hlevel hspecial hsession hr]
    split_ifs
    · rw [(startLevelInternal_frame w).2.2.1]; exact hspecial
    · exact hspecial
    · rw [(startLevelInternal_frame w).2.2.1]; exact hspecial
  have hiff : (w.handleStartLevel clock).m_specialContext.active = true ↔
      w.shouldRunSpecialExercise = true := by
    cases hr : w.shouldRunSpecialExercise
    · rw [hnot hr]
    · rw [c3 hlevel hspecial hsession hr, (startSpecialExercise_frame w).2.2.1]
  refine ⟨hiff.trans hdue, ?_, stage_ge_five_iff _, ?_⟩
  · intro ha
    have hr := hiff.mp ha
    rw [c3 hlevel hspecial hsession hr]
    exact ⟨rfl, (startSpecialExercise_frame w).2.1, (startSpecialExercise_frame w).1⟩
  · intro h4
    apply hnot
    cases hr : w.shouldRunSpecialExercise
    · rfl
    · have := (hdue.mp hr).2
      omega

theorem special_exercise_due_witness :
    markerWeakest.m_sessionActive = true ∧ markerWeakest.m_levelActive = false ∧
    markerWeakest.m_specialContext.active = false ∧
    (markerWeakest.handleStartLevel sampleClock).m_specialContext.active = true ∧
    (lastOfStageFour.handleStartLevel sampleClock).m_specialContext.active = false :=
  ⟨rfl, rfl, rfl,
    (special_exercise_due markerWeakest sampleClock rfl rfl rfl).1.mpr
      ⟨by decide, (stage_ge_five_iff _).mpr (by decide)⟩,
    (special_exercise_due lastOfStageFour sampleClock rfl rfl rfl).2.2.2
      (by
        have h := (stage_ge_five_iff 95).not.mpr (by decide)
        show (specForIndex 95).stageIndex ≤ 4
        omega)⟩

/-! ## Trials and the special exercise -/

/-- The value `correct` of `finishCurrentTrial`, from the members it reads. -/
theorem judgeTrial_correct (w : PitchTraining) (timedOut : Bool) :
    (w.judgeTrial timedOut).2
      = (!timedOut &&
          (if w.m_mode = .SpecialExercise then
            ((!w.m_currentTrial.outOfBounds &&
                decide (w.m_currentTrial.response = w.m_specialContext.targetPitch))
              || (w.m_currentTrial.outOfBounds && decide (w.m_currentTrial.response = "OUT")))
          else if w.m_currentTrial.outOfBounds then decide (w.m_currentTrial.response = "OUT")
          else decide (w.m_currentTrial.response = w.m_currentTrial.presentedPitch))) := by
  unfold PitchTraining.judgeTrial
  cases timedOut <;> dsimp only <;> split_ifs <;> simp_all

theorem judgeTrial_frame (w : PitchTraining) (timedOut : Bool) :
    (w.judgeTrial timedOut).1.m_state = w.m_state ∧
    (w.judgeTrial timedOut).1.m_specialContext = w.m_specialContext ∧
    (w.judgeTrial timedOut).1.m_mode = w.m_mode ∧
    (w.judgeTrial timedOut).1.m_trialsCompleted = w.m_trialsCompleted ∧
    (w.judgeTrial timedOut).1.m_waitingForShepard = w.m_waitingForShepard ∧
    (w.judgeTrial timedOut).1.m_levelActive = w.m_levelActive ∧
    (w.judgeTrial timedOut).1.m_trialLog = w.m_trialLog ∧
    (w.judgeTrial timedOut).1.m_currentSpec = w.m_currentSpec ∧
    (w.judgeTrial timedOut).1.m_outOfBoundsPitches = w.m_outOfBoundsPitches ∧
    (w.judgeTrial timedOut).1.m_currentTrial.presentedPitch = w.m_currentTrial.presentedPitch ∧
    (w.judgeTrial timedOut).1.m_currentTrial.outOfBounds = w.m_currentTrial.outOfBounds ∧
    (w.judgeTrial timedOut).1.m_currentTrial.response = w.m_currentTrial.response ∧
    (w.judgeTrial timedOut).1.m_currentTrial.timedOut = w.m_currentTrial.timedOut := by
  unfold PitchTraining.judgeTrial
  refine ⟨?_, ?_, ?_, ?_, ?_, ?_, ?_, ?_, ?_, ?_, ?_, ?_, ?_⟩ <;> dsimp only <;>
    split_ifs <;> rfl

theorem applyTrialBonus_frame (w : PitchTraining) (correct : Bool) :
    (w.applyTrialBonus correct).m_state = w.m_state ∧
    (w.applyTrialBonus correct).m_specialContext = w.m_specialContext ∧
    (w.applyTrialBonus correct).m_mode = w.m_mode ∧
    (w.applyTrialBonus correct).m_trialsCompleted = w.m_trialsCompleted ∧
    (w.applyTrialBonus correct).m_waitingForShepard = w.m_waitingForShepard ∧
    (w.applyTrialBonus correct).m_levelActive = w.m_levelActive ∧
    (w.applyTrialBonus correct).m_trialLog = w.m_trialLog ∧
    (w.applyTrialBonus correct).m_currentSpec = w.m_currentSpec ∧
    (w.applyTrialBonus correct).m_outOfBoundsPitches = w.m_outOfBoundsPitches ∧
    (w.applyTrialBonus correct).m_currentTrial.presentedPitch
      = w.m_currentTrial.presentedPitch ∧
    (w.applyTrialBonus correct).m_currentTrial.outOfBounds = w.m_currentTrial.outOfBounds ∧
    (w.applyTrialBonus correct).m_currentTrial.response = w.m_currentTrial.response ∧
    (w.applyTrialBonus correct).m_currentTrial.timedOut = w.m_currentTrial.timedOut ∧
    (w.applyTrialBonus correct).m_currentTrial.correct = w.m_currentTrial.correct := by
  unfold PitchTraining.applyTrialBonus
  refine ⟨?_, ?_, ?_, ?_, ?_, ?_, ?_, ?_, ?_, ?_, ?_, ?_, ?_, ?_⟩ <;> dsimp only <;>
    split_ifs <;> rfl

theorem reportTrial_frame (w : PitchTraining) (correct timedOut : Bool) (n : Int) :
    (w.reportTrial correct timedOut n).m_state = w.m_state ∧
    (w.reportTrial correct timedOut n).m_specialContext = w.m_specialContext ∧
    (w.reportTrial correct timedOut n).m_mode = w.m_mode ∧
    (w.reportTrial correct timedOut n).m_trialsCompleted = w.m_trialsCompleted ∧
    (w.reportTrial correct timedOut n).m_waitingForShepard = w.m_waitingForShepard ∧
    (w.reportTrial correct timedOut n).m_levelActive = w.m_levelActive ∧
    (w.reportTrial correct timedOut n).m_trialLog = w.m_trialLog ∧
    (w.reportTrial correct timedOut n).m_currentSpec = w.m_currentSpec ∧
    (w.reportTrial correct timedOut n).m_outOfBoundsPitches = w.m_outOfBoundsPitches ∧
    (w.reportTrial correct timedOut n).m_currentTrial = w.m_currentTrial := by
  unfold PitchTraining.reportTrial PitchTraining.appendTrialLogEntry
    PitchTraining.setResponseEnabled PitchTraining.updateFeedback
  refine ⟨?_, ?_, ?_, ?_, ?_, ?_, ?_, ?_, ?_, ?_⟩ <;> dsimp only <;> split_ifs <;> rfl

theorem recordTrial_frame (w : PitchTraining) (timedOut : Bool) (elapsedMs : Int) :
    (w.recordTrial timedOut elapsedMs).m_state = w.m_state ∧
    (w.recordTrial timedOut elapsedMs).m_specialContext = w.m_specialContext ∧
    (w.recordTrial timedOut elapsedMs).m_mode = w.m_mode ∧
    (w.recordTrial timedOut elapsedMs).m_trialsCompleted = w.m_trialsCompleted + 1 ∧
    (w.recordTrial timedOut elapsedMs).m_waitingForShepard = w.m_waitingForShepard ∧
    (w.recordTrial timedOut elapsedMs).m_levelActive = w.m_levelActive ∧
    (w.recordTrial timedOut elapsedMs).m_currentSpec = w.m_currentSpec ∧
    (w.recordTrial timedOut elapsedMs).m_outOfBoundsPitches = w.m_outOfBoundsPitches := by
  have hr := fun (x : PitchTraining) (c t : Bool) (n : Int) => reportTrial_frame x c t n
  have ha := fun (x : PitchTraining) (c : Bool) => applyTrialBonus_frame x c
  have hj := fun (x : PitchTraining) (t : Bool) => judgeTrial_frame x t
  unfold PitchTraining.recordTrial
  dsimp only
  refine ⟨?_, ?_, ?_, ?_, ?_, ?_, ?_, ?_⟩
  · rw [(hr _ _ _ _).1, (ha _ _).1]
    split_ifs <;> dsimp only <;> rw [(hj _ _).1]
  · rw [(hr _ _ _ _).2.1, (ha _ _).2.1]
    split_ifs <;> dsimp only <;> rw [(hj _ _).2.1]
  · rw [(hr _ _ _ _).2.2.1, (ha _ _).2.2.1]
    split_ifs <;> dsimp only <;> rw [(hj _ _).2.2.1]
  · rw [(hr _ _ _ _).2.2.2.1, (ha _ _).2.2.2.1]
    split_ifs <;> dsimp only <;> rw [(hj _ _).2.2.2.1]
  · rw [(hr _ _ _ _).2.2.2.2.1, (ha _ _).2.2.2.2.1]
    split_ifs <;> dsimp only <;> rw [(hj _ _).2.2.2.2.1]
  · rw [(hr _ _ _ _).2.2.2.2.2.1, (ha _ _).2.2.2.2.2.1]
    split_ifs <;> dsimp only <;> rw [(hj _ _).2.2.2.2.2.1]
  · rw [(hr _ _ _ _).2.2.2.2.2.2.2.1, (ha _ _).2.2.2.2.2.2.2.1]
    split_ifs <;> dsimp only <;> rw [(hj _ _).2.2.2.2.2.2.2.1]
  · rw [(hr _ _ _ _).2.2.2.2.2.2.2.2.1, (ha _ _).2.2.2.2.2.2.2.2.1]
    split_ifs <;> dsimp only <;> rw [(hj _ _).2.2.2.2.2.2.2.2.1]

/-- The trial that `finishCurrentTrial` appends to the trial log, with its judgement. -/
theorem recordTrial_log (w : PitchTraining) (timedOut : Bool) (elapsedMs : Int) :
    ∃ trial : TrialData,
      (w.recordTrial timedOut elapsedMs).m_trialLog = w.m_trialLog ++ [trial] ∧
      trial.presentedPitch = w.m_currentTrial.presentedPitch ∧
      trial.outOfBounds = w.m_currentTrial.outOfBounds ∧
      trial.response = w.m_currentTrial.response ∧
      trial.timedOut = timedOut ∧
      trial.correct
        = (!timedOut &&
            (if w.m_mode = .SpecialExercise then
              ((!w.m_currentTrial.outOfBounds &&
                  decide (w.m_currentTrial.response = w.m_specialContext.targetPitch))
                || (w.m_currentTrial.outOfBounds &&
                  decide (w.m_currentTrial.response = "OUT")))
            else if w.m_currentTrial.outOfBounds then
              decide (w.m_currentTrial.response = "OUT")
            else decide (w.m_currentTrial.response = w.m_currentTrial.presentedPitch))) := by
  have hr := fun (x : PitchTraining) (c t : Bool) (n : Int) => reportTrial_frame x c t n
  have ha := fun (x : PitchTraining) (c : Bool) => applyTrialBonus_frame x c
  have hj := fun (x : PitchTraining) (t : Bool) => judgeTrial_frame x t
  have hc := fun (x : PitchTraining) (t : Bool) => judgeTrial_correct x t
  unfold PitchTraining.recordTrial
  dsimp only
  refine ⟨_, congrArg (fun l => l ++ [_]) ?_, ?_, ?_, ?_, ?_, ?_⟩
  · rw [(hr _ _ _ _).2.2.2.2.2.2.1, (ha _ _).2.2.2.2.2.2.1]
    split_ifs <;> dsimp only <;> rw [(hj _ _).2.2.2.2.2.2.1]
  · rw [(hr _ _ _ _).2.2.2.2.2.2.2.2.2, (ha _ _).2.2.2.2.2.2.2.2.2.1]
    split_ifs <;> dsimp only <;> rw [(hj _ _).2.2.2.2.2.2.2.2.2.1]
  · rw [(hr _ _ _ _).2.2.2.2.2.2.2.2.2, (ha _ _).2.2.2.2.2.2.2.2.2.2.1]
    split_ifs <;> dsimp only <;> rw [(hj _ _).2.2.2.2.2.2.2.2.2.2.1]
  · rw [(hr _ _ _ _).2.2.2.2.2.2.2.2.2, (ha _ _).2.2.2.2.2.2.2.2.2.2.2.1]
    split_ifs <;> dsimp only <;> rw [(hj _ _).2.2.2.2.2.2.2.2.2.2.2.1]
  · rw [(hr _ _ _ _).2.2.2.2.2.2.2.2.2, (ha _ _).2.2.2.2.2.2.2.2.2.2.2.2.1]
    split_ifs <;> dsimp only <;> rw [(hj _ _).2.2.2.2.2.2.2.2.2.2.2.2]
  · rw [(hr _ _ _ _).2.2.2.2.2.2.2.2.2, (ha _ _).2.2.2.2.2.2.2.2.2.2.2.2.2]
    rw [apply_ite (fun x : PitchTraining => x.m_currentTrial.correct)]
    dsimp only
    rw [ite_self, hc]

set_option maxHeartbeats 1000000 in
theorem prepareNextTrial_frame (w : PitchTraining) (draw : TrialDraw) :
    (w.prepareNextTrial draw).m_state = w.m_state ∧
    (w.prepareNextTrial draw).m_specialContext = w.m_specialContext ∧
    (w.prepareNextTrial draw).m_mode = w.m_mode ∧
    (w.prepareNextTrial draw).m_trialsCompleted = w.m_trialsCompleted ∧
    (w.prepareNextTrial draw).m_waitingForShepard = w.m_waitingForShepard ∧
    (w.prepareNextTrial draw).m_levelActive = w.m_levelActive ∧
    (w.prepareNextTrial draw).m_trialLog = w.m_trialLog ∧
    (w.prepareNextTrial draw).m_currentSpec = w.m_currentSpec ∧
    (w.prepareNextTrial draw).m_outOfBoundsPitches = w.m_outOfBoundsPitches := by
  unfold PitchTraining.prepareNextTrial PitchTraining.setResponseEnabled
    PitchTraining.updateFeedback
  refine ⟨?_, ?_, ?_, ?_, ?_, ?_, ?_, ?_, ?_⟩ <;> dsimp only <;> split_ifs <;> rfl

/-- The tone that `prepareNextTrial` presents in a special exercise when the draw asks for
the target: the target pitch, marked as no distractor. -/
theorem prepareNextTrial_target (w : PitchTraining) (draw : TrialDraw)
    (hmode : w.m_mode = .SpecialExercise) (hdraw : draw.playTarget = 0) :
    (w.prepareNextTrial draw).m_currentTrial.presentedPitch = w.m_specialContext.targetPitch ∧
    (w.prepareNextTrial draw).m_currentTrial.outOfBounds = false := by
  unfold PitchTraining.prepareNextTrial PitchTraining.setResponseEnabled
    PitchTraining.updateFeedback
  constructor <;> dsimp only <;> simp only [hmode, hdraw] <;> split_ifs <;> simp_all

/-- What `resolveSpecialExercise` does at the end of the first and of the second phase. -/
theorem resolveSpecialExercise_cases (w : PitchTraining) (clock : Clock) :
    (w.m_specialContext.feedbackPhase = true → w.m_specialContext.secondPhasePending = true →
      (w.resolveSpecialExercise clock).m_state = w.m_state ∧
      (w.resolveSpecialExercise clock).m_specialContext
        = { w.m_specialContext with
            feedbackPhase := false, totalTrials := 22, secondPhasePending := false } ∧
      (w.resolveSpecialExercise clock).m_mode = w.m_mode ∧
      (w.resolveSpecialExercise clock).m_trialsCompleted = 0 ∧
      (w.resolveSpecialExercise clock).m_waitingForShepard = w.m_waitingForShepard ∧
      (w.resolveSpecialExercise clock).m_levelActive = w.m_levelActive) ∧
    ((w.m_specialContext.feedbackPhase && w.m_specialContext.secondPhasePending) = false →
      ∃ summary : LevelSummary,
        summary.levelIndex = w.m_currentSpec.globalIndex ∧ summary.accuracy = 0 ∧
        summary.passed = true ∧ summary.specialExercise = true ∧
        summary.completedAt = .valid clock.nowMs ∧
        (w.resolveSpecialExercise clock).m_state
          = { w.m_state.recordLevelSummary summary with m_levelsSinceSpecial := 0 } ∧
        (w.resolveSpecialExercise clock).m_specialContext = {} ∧
        (w.resolveSpecialExercise clock).m_mode = .Idle ∧
        (w.resolveSpecialExercise clock).m_levelActive = w.m_levelActive) := by
  constructor
  · intro h1 h2
    unfold PitchTraining.resolveSpecialExercise PitchTraining.setResponseEnabled
      PitchTraining.resetTrialLog
    rw [if_pos (by rw [h1, h2]; rfl)]
    exact ⟨rfl, rfl, rfl, rfl, rfl, rfl⟩
  · intro h
    obtain ⟨summary, s1, s2, s3, s4, s5, hrec⟩ := recordSummary_frame w true 0 true clock
    refine ⟨summary, s1, s2, s3, s4, s5, ?_⟩
    unfold PitchTraining.resolveSpecialExercise PitchTraining.setResponseEnabled
      PitchTraining.refreshStartLevelButton
    rw [if_neg (by rw [h]; decide), hrec]
    exact ⟨rfl, rfl, rfl, rfl⟩

/-- A trial resolved in a special exercise: the counter advances, and the exercise is
resolved once the trials of the phase are completed. -/
theorem finishCurrentTrial_special (w : PitchTraining) (timedOut : Bool) (elapsedMs : Int)
    (clock : Clock) (hact : w.m_specialContext.active = true)
    (hmode : w.m_mode = .SpecialExercise) :
    ∃ mid : PitchTraining,
      mid.m_state = w.m_state ∧ mid.m_specialContext = w.m_specialContext ∧
      mid.m_mode = w.m_mode ∧ mid.m_trialsCompleted = w.m_trialsCompleted + 1 ∧
      mid.m_waitingForShepard = w.m_waitingForShepard ∧
      mid.m_levelActive = w.m_levelActive ∧ mid.m_currentSpec = w.m_currentSpec ∧
      w.finishCurrentTrial timedOut elapsedMs clock
        = (if mid.m_trialsCompleted ≥ mid.m_specialContext.totalTrials
            then mid.resolveSpecialExercise clock
            else { mid with startTrialEnabled := true }) := by
  obtain ⟨f1, f2, f3, f4, f5, f6, f7, -⟩ := recordTrial_frame w timedOut elapsedMs
  refine ⟨w.recordTrial timedOut elapsedMs, f1, f2, f3, f4, f5, f6, f7, ?_⟩
  unfold PitchTraining.finishCurrentTrial
  rw [if_neg (by rw [hact]; simp)]
  dsimp only
  rw [f3, hmode]
  simp only [if_true]

/-- The trial that an answer to a special-exercise trial appends to the trial log while
the phase goes on: it is judged on the stored response, which is the target pitch for the
target button and `"OUT"` for the other. -/
theorem handleSpecialResponse_log (p : PitchTraining) (isTarget : Bool) (elapsedMs : Int)
    (clock : Clock) (hact : p.m_specialContext.active = true)
    (hmode : p.m_mode = .SpecialExercise)
    (hmore : p.m_trialsCompleted + 1 < p.m_specialContext.totalTrials) :
    ∃ trial : TrialData,
      (p.handleSpecialResponse isTarget elapsedMs clock).m_trialLog = p.m_trialLog ++ [trial] ∧
      trial.presentedPitch = p.m_currentTrial.presentedPitch ∧
      trial.outOfBounds = p.m_currentTrial.outOfBounds ∧
      trial.response = (if isTarget then p.m_specialContext.targetPitch else "OUT") ∧
      trial.timedOut = false ∧
      (trial.correct = true ↔
        (p.m_currentTrial.outOfBounds = false ∧
            (isTarget = true ∨ p.m_specialContext.targetPitch = "OUT")) ∨
          (p.m_currentTrial.outOfBounds = true ∧
            (isTarget = false ∨ p.m_specialContext.targetPitch = "OUT"))) := by
  unfold PitchTraining.handleSpecialResponse
  rw [if_neg (by rw [hact]; simp)]
  dsimp only
  generalize hq : ({ p with m_currentTrial :=
      { p.m_currentTrial with
        response := if isTarget then p.m_specialContext.targetPitch else "OUT" } }
      : PitchTraining) = q
  have q1 : q.m_specialContext = p.m_specialContext := by rw [← hq]
  have q2 : q.m_mode = p.m_mode := by rw [← hq]
  have q3 : q.m_trialsCompleted = p.m_trialsCompleted := by rw [← hq]
  have q4 : q.m_trialLog = p.m_trialLog := by rw [← hq]
  have q5 : q.m_currentTrial.presentedPitch = p.m_currentTrial.presentedPitch := by rw [← hq]
  have q6 : q.m_currentTrial.outOfBounds = p.m_currentTrial.outOfBounds := by rw [← hq]
  have q7 : q.m_currentTrial.response
      = (if isTarget then p.m_specialContext.targetPitch else "OUT") := by rw [← hq]
  obtain ⟨f1, f2, f3, f4, -⟩ := recordTrial_frame q false elapsedMs
  obtain ⟨trial, t1, t2, t3, t4, t5, t6⟩ := recordTrial_log q false elapsedMs
  have hfin : (q.finishCurrentTrial false elapsedMs clock).m_trialLog
      = (q.recordTrial false elapsedMs).m_trialLog := by
    unfold PitchTraining.finishCurrentTrial
    rw [if_neg (by rw [q1, hact]; simp)]
    dsimp only
    rw [f3, q2, hmode]
    simp only [if_true]
    rw [if_neg (by rw [f4, f2, q1, q3]; omega)]
  refine ⟨trial, by rw [hfin, t1, q4], t2.trans q5, t3.trans q6, t4.trans q7, t5, ?_⟩
  rw [t6, q2, hmode, q6, q7, q1]
  cases isTarget <;> cases p.m_currentTrial.outOfBounds <;> simp [eq_comm]

/-- Claim C12 fails on the code when the target of the special exercise is the out-of-set
marker. After a level whose distractor trials, filed under `"OUT"` by `recordSummary`, were
the least accurate, `handleStartLevel` starts a special exercise with target pitch `"OUT"`;
a trial that presents the target and is answered in time with the button for "not the
target" is stored with the response `"OUT"`, which is the target, and is judged correct. -/
theorem special_trial_marker_target :
    (markerWeakest.handleStartLevel sampleClock).m_specialContext.active = true ∧
    (markerWeakest.handleStartLevel sampleClock).m_specialContext.targetPitch = "OUT" ∧
    ((markerWeakest.handleStartLevel sampleClock).handleStartTrial
        targetDraw).m_currentTrial.presentedPitch = "OUT" ∧
    ((markerWeakest.handleStartLevel sampleClock).handleStartTrial
        targetDraw).m_currentTrial.outOfBounds = false ∧
    ∃ trial : TrialData,
      (((markerWeakest.handleStartLevel sampleClock).handleStartTrial
          targetDraw).handleSpecialResponse false 900 sampleClock).m_trialLog = [trial] ∧
      trial.outOfBounds = false ∧ trial.response = "OUT" ∧ trial.timedOut = false ∧
      trial.correct = true := by
  have hdue : markerWeakest.shouldRunSpecialExercise = true := by
    simp [PitchTraining.shouldRunSpecialExercise, markerWeakest, specForIndex_eq,
      levelSpecEntry_stage]
  have hleast : markerWeakest.m_state.leastAccuratePitch = "OUT" := by
    simp [TrainingState.leastAccuratePitch, markerWeakest, TrainingState.aggregateSummaries,
      TrainingState.addPerPitch, TrainingState.selectLeast, PitchHash.value, PitchHash.insert,
      insertEntry]
    norm_num
  rw [(handleStartLevel_cases markerWeakest sampleClock).2.2.1 rfl rfl rfl hdue]
  obtain ⟨-, b2, b3, -, b5, -, b7, b8, b9, -⟩ := startSpecialExercise_frame markerWeakest
  have htarget : (markerWeakest.startSpecialExercise).m_specialContext.targetPitch = "OUT" := by
    rw [(startSpecialExercise_context markerWeakest).2.2.1, hleast]
    rfl
  generalize markerWeakest.startSpecialExercise = s at *
  have hstart : s.handleStartTrial targetDraw = s.prepareNextTrial targetDraw := by
    unfold PitchTraining.handleStartTrial
    rw [if_neg (by rw [b3, b9]; simp)]
  obtain ⟨-, p2, p3, p4, -, -, p7, -⟩ := prepareNextTrial_frame s targetDraw
  obtain ⟨g1, g2⟩ := prepareNextTrial_target s targetDraw b2 rfl
  rw [hstart]
  generalize s.prepareNextTrial targetDraw = p at *
  obtain ⟨trial, t1, -, t3, t4, t5, t6⟩ :=
    handleSpecialResponse_log p false 900 sampleClock (by rw [p2, b3]) (by rw [p3, b2])
      (by rw [p4, b7, p2, b5]; decide)
  refine ⟨b3, htarget, by rw [g1, htarget], g2, trial, ?_, t3.trans g2, ?_, t5, ?_⟩
  · rw [t1, p7, b8]; rfl
  · rw [t4]; rfl
  · rw [t6]
    exact Or.inl ⟨g2, Or.inr (by rw [p2, htarget])⟩

/-- One trial of a special exercise that is in progress. -/
theorem runSpecialTrial_step (w : PitchTraining) (t : SpecialTrial)
    (hact : w.m_specialContext.active = true) (hmode : w.m_mode = .SpecialExercise)
    (hwait : w.m_waitingForShepard = false) :
    ∃ mid : PitchTraining,
      mid.m_state = w.m_state ∧ mid.m_specialContext = w.m_specialContext ∧
      mid.m_mode = .SpecialExercise ∧ mid.m_trialsCompleted = w.m_trialsCompleted + 1 ∧
      mid.m_waitingForShepard = false ∧
      runSpecialTrial w t
        = (if mid.m_trialsCompleted ≥ mid.m_specialContext.totalTrials
            then mid.resolveSpecialExercise t.clock
            else { mid with startTrialEnabled := true }) := by
  obtain ⟨p1, p2, p3, p4, p5, -⟩ := prepareNextTrial_frame w t.draw
  have hstart : w.handleStartTrial t.draw = w.prepareNextTrial t.draw := by
    unfold PitchTraining.handleStartTrial
    rw [if_neg (by rw [hact, hwait]; simp)]
  unfold runSpecialTrial
  rw [hstart]
  generalize w.prepareNextTrial t.draw = p at p1 p2 p3 p4 p5
  cases t.answer with
  | none =>
    obtain ⟨mid, m1, m2, m3, m4, m5, -, -, hres⟩ :=
      finishCurrentTrial_special p true t.elapsedMs t.clock (by rw [p2, hact])
        (by rw [p3, hmode])
    exact ⟨mid, m1.trans p1, m2.trans p2, by rw [m3, p3, hmode], by rw [m4, p4],
      by rw [m5, p5, hwait], hres⟩
  | some isTarget =>
    dsimp only
    unfold PitchTraining.handleSpecialResponse
    rw [if_neg (by rw [p2, hact]; simp)]
    dsimp only
    obtain ⟨mid, m1, m2, m3, m4, m5, -, -, hres⟩ :=
      finishCurrentTrial_special
        { p with m_currentTrial :=
          { p.m_currentTrial with
            response := if isTarget then p.m_specialContext.targetPitch else "OUT" } }
        false t.elapsedMs t.clock (by show p.m_specialContext.active = true; rw [p2, hact])
        (by show p.m_mode = _; rw [p3, hmode])
    exact ⟨mid, m1.trans p1, m2.trans p2, by rw [m3]; exact p3.trans hmode,
      by rw [m4]; exact congrArg (· + 1) p4, by rw [m5]; exact p5.trans hwait, hres⟩

theorem runSpecialTrials_snoc (w : PitchTraining) (l : List SpecialTrial) (t : SpecialTrial) :
    runSpecialTrials w (l ++ [t]) = runSpecialTrial (runSpecialTrials w l) t := by
  unfold runSpecialTrials
  rw [List.foldl_append]
  rfl

/-- Claim C20: a started special exercise, taken through its trials one after the other:
during the first 12 trials it is in phase 1 (12 trials, the counter at the number of trials
resolved) and nothing is recorded; when the 12th trial resolves it is in phase 2 with the
counter back at 0, 22 trials and the same target pitch, still with nothing recorded, and so
on with the counter at the number of phase-2 trials resolved until the 22nd; when that one
resolves exactly one summary, marked special and passed, is appended to the history,
`levelsSinceSpecial` is 0, the mode is Idle and the special context inactive, while the
level pointer, the token balance and the level-attempt counter are what they were before
the exercise. -/
theorem special_exercise_phases (w : PitchTraining) (trials : List SpecialTrial) :
    (trials.length < 12 →
      (runSpecialTrials w.startSpecialExercise trials).m_specialContext.active = true ∧
      (runSpecialTrials w.startSpecialExercise trials).m_specialContext.feedbackPhase = true ∧
      (runSpecialTrials w.startSpecialExercise trials).m_specialContext.totalTrials = 12 ∧
      (runSpecialTrials w.startSpecialExercise trials).m_specialContext.targetPitch
        = (w.startSpecialExercise).m_specialContext.targetPitch ∧
      (runSpecialTrials w.startSpecialExercise trials).m_trialsCompleted
        = (trials.length : Int) ∧
      (runSpecialTrials w.startSpecialExercise trials).m_mode = .SpecialExercise ∧
      (runSpecialTrials w.startSpecialExercise trials).m_state = w.m_state) ∧
    (12 ≤ trials.length → trials.length < 34 →
      (runSpecialTrials w.startSpecialExercise trials).m_specialContext.active = true ∧
      (runSpecialTrials w.startSpecialExercise trials).m_specialContext.feedbackPhase = false ∧
      (runSpecialTrials w.startSpecialExercise trials).m_specialContext.totalTrials = 22 ∧
      (runSpecialTrials w.startSpecialExercise trials).m_specialContext.targetPitch
        = (w.startSpecialExercise).m_specialContext.targetPitch ∧
      (runSpecialTrials w.startSpecialExercise trials).m_trialsCompleted
        = (trials.length : Int) - 12 ∧
      (runSpecialTrials w.startSpecialExercise trials).m_mode = .SpecialExercise ∧
      (runSpecialTrials w.startSpecialExercise trials).m_state = w.m_state) ∧
    (trials.length = 34 →
      ∃ summary : LevelSummary,
        summary.specialExercise = true ∧ summary.passed = true ∧
        (runSpecialTrials w.startSpecialExercise trials).m_state
          = { w.m_state.recordLevelSummary summary with m_levelsSinceSpecial := 0 } ∧
        (runSpecialTrials w.startSpecialExercise trials).m_state.m_history
          = (w.m_state.recordLevelSummary summary).m_history ∧
        (runSpecialTrials w.startSpecialExercise trials).m_state.m_levelsSinceSpecial = 0 ∧
        (runSpecialTrials w.startSpecialExercise trials).m_mode = .Idle ∧
        (runSpecialTrials w.startSpecialExercise trials).m_specialContext.active = false ∧
        (runSpecialTrials w.startSpecialExercise trials).m_state.m_currentLevelIndex
          = w.m_state.m_currentLevelIndex ∧
        (runSpecialTrials w.startSpecialExercise trials).m_state.m_tokens = w.m_state.m_tokens ∧
        (runSpecialTrials w.startSpecialExercise trials).m_state.m_totalLevelAttempts
          = w.m_state.m_totalLevelAttempts) := by
  obtain ⟨-, b2, b3, b4, b5, b6, b7, -, b9, b10⟩ := startSpecialExercise_frame w
  generalize w.startSpecialExercise = s0 at *
  -- the engine in progress also keeps the flags that `resolveSpecialExercise` reads
  have key : ∀ l : List SpecialTrial,
      (l.length < 12 →
        (runSpecialTrials s0 l).m_specialContext.active = true ∧
        (runSpecialTrials s0 l).m_specialContext.feedbackPhase = true ∧
        (runSpecialTrials s0 l).m_specialContext.totalTrials = 12 ∧
        (runSpecialTrials s0 l).m_specialContext.targetPitch = s0.m_specialContext.targetPitch ∧
        (runSpecialTrials s0 l).m_trialsCompleted = (l.length : Int) ∧
        (runSpecialTrials s0 l).m_mode = .SpecialExercise ∧
        (runSpecialTrials s0 l).m_state = w.m_state ∧
        (runSpecialTrials s0 l).m_specialContext.secondPhasePending = true ∧
        (runSpecialTrials s0 l).m_waitingForShepard = false) ∧
      (12 ≤ l.length → l.length < 34 →
        (runSpecialTrials s0 l).m_specialContext.active = true ∧
        (runSpecialTrials s0 l).m_specialContext.feedbackPhase = false ∧
        (runSpecialTrials s0 l).m_specialContext.totalTrials = 22 ∧
        (runSpecialTrials s0 l).m_specialContext.targetPitch = s0.m_specialContext.targetPitch ∧
        (runSpecialTrials s0 l).m_trialsCompleted = (l.length : Int) - 12 ∧
        (runSpecialTrials s0 l).m_mode = .SpecialExercise ∧
        (runSpecialTrials s0 l).m_state = w.m_state ∧
        (runSpecialTrials s0 l).m_waitingForShepard = false) ∧
      (l.length = 34 →
        ∃ summary : LevelSummary,
          summary.specialExercise = true ∧ summary.passed = true ∧
          (runSpecialTrials s0 l).m_state
            = { w.m_state.recordLevelSummary summary with m_levelsSinceSpecial := 0 } ∧
          (runSpecialTrials s0 l).m_mode = .Idle ∧
          (runSpecialTrials s0 l).m_specialContext.active = false) := by
    intro l
    induction l using List.reverseRecOn with
    | nil =>
      refine ⟨fun _ => ⟨b3, b4, b5, rfl, b7, b2, b10, b6, b9⟩, fun h => ?_, fun h => ?_⟩
      · simp at h
      · simp at h
    | append_singleton l t ih =>
      obtain ⟨ih1, ih2, -⟩ := ih
      rw [runSpecialTrials_snoc]
      have hlen : (l ++ [t]).length = l.length + 1 := by simp
      rw [hlen]
      generalize runSpecialTrials s0 l = s at ih1 ih2
      refine ⟨fun h => ?_, fun h12 h34 => ?_, fun h => ?_⟩
      · obtain ⟨i1, i2, i3, i4, i5, i6, i7, i8, i9⟩ := ih1 (by omega)
        obtain ⟨mid, m1, m2, m3, m4, m5, hres⟩ := runSpecialTrial_step s t i1 i6 i9
        have hlt : ¬ mid.m_trialsCompleted ≥ mid.m_specialContext.totalTrials := by
          rw [m4, m2, i3, i5]; omega
        rw [hres, if_neg hlt]
        refine ⟨?_, ?_, ?_, ?_, ?_, m3, ?_, ?_, m5⟩
        · show mid.m_specialContext.active = true
          rw [m2, i1]
        · show mid.m_specialContext.feedbackPhase = true
          rw [m2, i2]
        · show mid.m_specialContext.totalTrials = 12
          rw [m2, i3]
        · show mid.m_specialContext.targetPitch = _
          rw [m2, i4]
        · show mid.m_trialsCompleted = _
          rw [m4, i5]; push_cast; ring
        · exact m1.trans i7
        · show mid.m_specialContext.secondPhasePending = true
          rw [m2, i8]
      · by_cases h11 : l.length < 12
        · obtain ⟨i1, i2, i3, i4, i5, i6, i7, i8, i9⟩ := ih1 h11
          obtain ⟨mid, m1, m2, m3, m4, m5, hres⟩ := runSpecialTrial_step s t i1 i6 i9
          have hge : mid.m_trialsCompleted ≥ mid.m_specialContext.totalTrials := by
            rw [m4, m2, i3, i5]; omega
          obtain ⟨r1, r2, r3, r4, r5, -⟩ :=
            (resolveSpecialExercise_cases mid t.clock).1 (by rw [m2, i2]) (by rw [m2, i8])
          rw [hres, if_pos hge]
          refine ⟨?_, ?_, ?_, ?_, ?_, r3.trans m3, ?_, r5.trans m5⟩
          · rw [r2]; show mid.m_specialContext.active = true; rw [m2, i1]
          · rw [r2]
          · rw [r2]
          · rw [r2]; show mid.m_specialContext.targetPitch = _; rw [m2, i4]
          · rw [r4]; push_cast; omega
          · exact r1.trans (m1.trans i7)
        · obtain ⟨i1, i2, i3, i4, i5, i6, i7, i9⟩ := ih2 (by omega) (by omega)
          obtain ⟨mid, m1, m2, m3, m4, m5, hres⟩ := runSpecialTrial_step s t i1 i6 i9
          have hlt : ¬ mid.m_trialsCompleted ≥ mid.m_specialContext.totalTrials := by
            rw [m4, m2, i3, i5]; omega
          rw [hres, if_neg hlt]
          refine ⟨?_, ?_, ?_, ?_, ?_, m3, ?_, m5⟩
          · show mid.m_specialContext.active = true
            rw [m2, i1]
          · show mid.m_specialContext.feedbackPhase = false
            rw [m2, i2]
          · show mid.m_specialContext.totalTrials = 22
            rw [m2, i3]
          · show mid.m_specialContext.targetPitch = _
            rw [m2, i4]
          · show mid.m_trialsCompleted = _
            rw [m4, i5]; push_cast; ring
          · exact m1.trans i7
      · obtain ⟨i1, i2, i3, i4, i5, i6, i7, i9⟩ := ih2 (by omega) (by omega)
        obtain ⟨mid, m1, m2, m3, m4, m5, hres⟩ := runSpecialTrial_step s t i1 i6 i9
        have hge : mid.m_trialsCompleted ≥ mid.m_specialContext.totalTrials := by
          rw [m4, m2, i3, i5]; omega
        obtain ⟨summary, -, -, s3, s4, -, r1, r2, r3, -⟩ :=
          (resolveSpecialExercise_cases mid t.clock).2 (by rw [m2, i2]; rfl)
        rw [hres, if_pos hge]
        refine ⟨summary, s4, s3, ?_, r3, ?_⟩
        · rw [r1, m1, i7]
        · rw [r2]
  obtain ⟨k1, k2, k3⟩ := key trials
  refine ⟨fun h => ?_, fun h12 h34 => ?_, fun h => ?_⟩
  · obtain ⟨i1, i2, i3, i4, i5, i6, i7, -, -⟩ := k1 h
    exact ⟨i1, i2, i3, i4, i5, i6, i7⟩
  · obtain ⟨i1, i2, i3, i4, i5, i6, i7, -⟩ := k2 h12 h34
    exact ⟨i1, i2, i3, i4, i5, i6, i7⟩
  · obtain ⟨summary, s1, s2, hst, hm, ha⟩ := k3 h
    refine ⟨summary, s1, s2, hst, ?_, ?_, hm, ha, ?_, ?_, ?_⟩ <;> rw [hst] <;> rfl

theorem special_exercise_phases_witness :
    (runSpecialTrials markerWeakest.startSpecialExercise
        (List.replicate 12 targetAnswered)).m_trialsCompleted = 0 ∧
    (runSpecialTrials markerWeakest.startSpecialExercise
        (List.replicate 12 targetAnswered)).m_specialContext.totalTrials = 22 ∧
    (runSpecialTrials markerWeakest.startSpecialExercise
        (List.replicate 34 targetAnswered)).m_mode = .Idle ∧
    (runSpecialTrials markerWeakest.startSpecialExercise
        (List.replicate 34 targetAnswered)).m_state.m_levelsSinceSpecial = 0 :=
  have h12 := (special_exercise_phases markerWeakest (List.replicate 12 targetAnswered)).2.1
    (by simp) (by simp)
  have h34 := (special_exercise_phases markerWeakest (List.replicate 34 targetAnswered)).2.2
    (by simp)
  match h34 with
  | ⟨_, _, _, _, _, hzero, hidle, _⟩ =>
    ⟨by simpa using h12.2.2.2.2.1, h12.2.2.1, hidle, hzero⟩

/-! ## The levels that the forward scan passes over -/

/-- The scan of `resolveLevelCompletion` from candidate `idx`: when every level between `i`
and `idx` is of the stage and feedback mode of `current` and asks no more than `achieved`,
and `nextLevel` is not beyond `idx`, so is every level between `i` and the index it
yields. -/
theorem advanceLoop_skipped (current : LevelSpec) (achieved : ℚ) (i : Int) (n : Nat) :
    ∀ idx nextLevel : Int, n = (288 - idx).toNat → i < idx → nextLevel ≤ idx →
      (∀ k : Int, i < k → k < idx →
        (levelSpecs.getD k.toNat default).stageIndex = current.stageIndex ∧
        (levelSpecs.getD k.toNat default).feedback = current.feedback ∧
        (levelSpecs.getD k.toNat default).passAccuracy ≤ achieved) →
      ∀ k : Int, i < k →
        k < PitchTraining.advanceLoop levelSpecs current achieved idx nextLevel →
        (levelSpecs.getD k.toNat default).stageIndex = current.stageIndex ∧
        (levelSpecs.getD k.toNat default).feedback = current.feedback ∧
        (levelSpecs.getD k.toNat default).passAccuracy ≤ achieved := by
  induction n using Nat.strong_induction_on with
  | _ n ih =>
    intro idx nextLevel hn hlt hnext hbefore k hik hk
    rw [PitchTraining.advanceLoop] at hk
    simp only [levelSpecs_length] at hk
    by_cases hidx : idx < ((288 : Nat) : Int)
    · rw [dif_pos hidx] at hk
      split_ifs at hk with hs hf ha
      · exact hbefore k hik hk
      · exact hbefore k hik (by omega)
      · exact hbefore k hik hk
      · refine ih (288 - (idx + 1)).toNat (by omega) (idx + 1) idx rfl (by omega) (by omega)
          ?_ k hik hk
        intro k2 hik2 hk2
        by_cases hlast : k2 = idx
        · rw [hlast]
          exact ⟨not_not.mp hs, not_not.mp hf, not_lt.mp ha⟩
        · exact hbefore k2 hik2 (by omega)
    · rw [dif_neg hidx] at hk
      exact hbefore k hik (by omega)

/-- Claim C23: when a level at an in-range index `i` (the level in progress being the level
of the pointer) is passed with actual accuracy `a = correct / required` and the pointer
moves to `j`, every level `k` with `i < k < j` is of the stage and the feedback mode of
level `i` and requires a pass accuracy of at most `a`. -/
theorem forward_scan_skips (w : PitchTraining) (clock : Clock)
    (h0 : 0 ≤ w.m_state.m_currentLevelIndex) (h1 : w.m_state.m_currentLevelIndex ≤ 287)
    (hspec : w.m_currentSpec = specForIndex w.m_state.m_currentLevelIndex)
    (hpass : w.levelPassed = true) :
    ∀ k : Int, w.m_state.m_currentLevelIndex < k →
      k < (w.resolveLevelCompletion clock).m_state.m_currentLevelIndex →
      (specForIndex k).stageIndex = (specForIndex w.m_state.m_currentLevelIndex).stageIndex ∧
      (specForIndex k).feedback = (specForIndex w.m_state.m_currentLevelIndex).feedback ∧
      (specForIndex k).passAccuracy ≤ w.actualAccuracy ∧
      w.actualAccuracy
        = (if w.m_requiredTrials = 0 then 0
            else (w.m_correctTrials : ℚ) / (w.m_requiredTrials : ℚ)) := by
  obtain ⟨pre, summary, hres, -, -, -, -, -, -, -, -, -, -, -, -, -, hidx, -⟩ :=
    resolveLevelCompletion_eq w clock
  have hptr : (w.resolveLevelCompletion clock).m_state.m_currentLevelIndex
      = max 0 (min (w.nextLevelAfter w.levelPassed w.actualAccuracy) 287) := by
    rw [hres, (resolveFinalLevel_frame pre _ clock).2.2.1, hidx]
  have hnext : w.nextLevelAfter true w.actualAccuracy
      = PitchTraining.advanceLoop levelSpecs w.m_currentSpec w.actualAccuracy
          (w.m_state.m_currentLevelIndex + 1)
          (min (w.m_state.m_currentLevelIndex + 1) (totalLevelCount - 1)) := by
    simp only [PitchTraining.nextLevelAfter, if_true]
  intro k hik hk
  rw [hptr, hpass, hnext] at hk
  have hk287 : k < 287 := by omega
  have hscan := advanceLoop_skipped w.m_currentSpec w.actualAccuracy
    w.m_state.m_currentLevelIndex _ (w.m_state.m_currentLevelIndex + 1)
    (min (w.m_state.m_currentLevelIndex + 1) (totalLevelCount - 1)) rfl (by omega) (by omega)
    (fun k2 h2 h3 => by omega) k hik (by omega)
  have hk : specForIndex k = levelSpecs.getD k.toNat default := by
    rw [specForIndex_eq, levelSpecs_getD _ (by omega)]
    congr 1
    omega
  rw [hk, ← hspec]
  exact ⟨hscan.1, hscan.2.1, hscan.2.2, rfl⟩

theorem fifteenOfTwenty_spec : fifteenOfTwenty.m_currentSpec = levelSpecEntry 4 := by
  have h : fifteenOfTwenty.m_currentSpec = specForIndex 4 := by simp [fifteenOfTwenty]
  rw [h, specForIndex_eq]
  congr 1

theorem fifteenOfTwenty_next :
    fifteenOfTwenty.nextLevelAfter true fifteenOfTwenty.actualAccuracy = 8 := by
  have hacc : fifteenOfTwenty.actualAccuracy = 3 / 4 := by
    simp [PitchTraining.actualAccuracy, fifteenOfTwenty]
    norm_num
  have hidx : fifteenOfTwenty.m_state.m_currentLevelIndex = 4 := rfl
  rw [hacc]
  simp only [PitchTraining.nextLevelAfter, if_true, fifteenOfTwenty_spec, hidx]
  have e5 : levelSpecs.getD (5 : Int).toNat default = levelSpecEntry 5 :=
    levelSpecs_getD 5 (by decide)
  have e6 : levelSpecs.getD (5 + 1 : Int).toNat default = levelSpecEntry 6 :=
    levelSpecs_getD 6 (by decide)
  have e7 : levelSpecs.getD (5 + 1 + 1 : Int).toNat default = levelSpecEntry 7 :=
    levelSpecs_getD 7 (by decide)
  have e8 : levelSpecs.getD (5 + 1 + 1 + 1 : Int).toNat default = levelSpecEntry 8 :=
    levelSpecs_getD 8 (by decide)
  have s4 : (levelSpecEntry 4).stageIndex = 1 := rfl
  have s5 : (levelSpecEntry 5).stageIndex = 1 := rfl
  have s6 : (levelSpecEntry 6).stageIndex = 1 := rfl
  have s7 : (levelSpecEntry 7).stageIndex = 1 := rfl
  have s8 : (levelSpecEntry 8).stageIndex = 1 := rfl
  have f4 : (levelSpecEntry 4).feedback = true := rfl
  have f5 : (levelSpecEntry 5).feedback = true := rfl
  have f6 : (levelSpecEntry 6).feedback = true := rfl
  have f7 : (levelSpecEntry 7).feedback = true := rfl
  have f8 : (levelSpecEntry 8).feedback = true := rfl
  have p5 : (levelSpecEntry 5).passAccuracy = 0.65 := rfl
  have p6 : (levelSpecEntry 6).passAccuracy = 0.70 := rfl
  have p7 : (levelSpecEntry 7).passAccuracy = 0.75 := rfl
  have p8 : (levelSpecEntry 8).passAccuracy = 0.80 := rfl
  have h45 : (4 : Int) + 1 = 5 := rfl
  rw [h45]
  rw [PitchTraining.advanceLoop, dif_pos (by rw [levelSpecs_length]; decide)]
  simp only [e5, s4, s5, f4, f5, p5, ne_eq, not_true_eq_false, if_false]
  rw [if_neg (by norm_num)]
  rw [PitchTraining.advanceLoop, dif_pos (by rw [levelSpecs_length]; decide)]
  simp only [e6, s4, s6, f4, f6, p6, ne_eq, not_true_eq_false, if_false]
  rw [if_neg (by norm_num)]
  rw [PitchTraining.advanceLoop, dif_pos (by rw [levelSpecs_length]; decide)]
  simp only [e7, s4, s7, f4, f7, p7, ne_eq, not_true_eq_false, if_false]
  rw [if_neg (by norm_num)]
  rw [PitchTraining.advanceLoop, dif_pos (by rw [levelSpecs_length]; decide)]
  simp only [e8, s4, s8, f4, f8, p8, ne_eq, not_true_eq_false, if_false]
  rw [if_pos (by norm_num)]
  rfl

theorem forward_scan_skips_witness :
    (fifteenOfTwenty.resolveLevelCompletion sampleClock).m_state.m_currentLevelIndex = 8 ∧
    (specForIndex 6).stageIndex = (specForIndex 4).stageIndex ∧
    (specForIndex 6).feedback = (specForIndex 4).feedback ∧
    (specForIndex 6).passAccuracy ≤ fifteenOfTwenty.actualAccuracy :=
  have hspec : fifteenOfTwenty.m_currentSpec
      = specForIndex fifteenOfTwenty.m_state.m_currentLevelIndex := by
    simp [fifteenOfTwenty]
  have hpass : fifteenOfTwenty.levelPassed = true := fifteenOfTwenty_passed
  have hptr : (fifteenOfTwenty.resolveLevelCompletion sampleClock).m_state.m_currentLevelIndex
      = 8 := by
    obtain ⟨pre, summary, hres, -, -, -, -, -, -, -, -, -, -, -, -, -, hidx, -⟩ :=
      resolveLevelCompletion_eq fifteenOfTwenty sampleClock
    rw [hres, (resolveFinalLevel_frame pre _ sampleClock).2.2.1, hidx, hpass,
      fifteenOfTwenty_next]
    decide
  have h := forward_scan_skips fifteenOfTwenty sampleClock (by decide) (by decide) hspec hpass
    6 (by decide) (by rw [hptr]; decide)
  ⟨hptr, h.1, h.2.1, h.2.2.1⟩

/-! ## Bonuses -/

theorem judgeTrial_bonus_frame (w : PitchTraining) (timedOut : Bool) :
    (w.judgeTrial timedOut).1.m_effectiveBonus = w.m_effectiveBonus ∧
    (w.judgeTrial timedOut).1.m_doubleArmed = w.m_doubleArmed ∧
    (w.judgeTrial timedOut).1.m_randomDouble = w.m_randomDouble ∧
    (w.judgeTrial timedOut).1.m_correctTrials = w.m_correctTrials ∧
    (w.judgeTrial timedOut).1.m_requiredTrials = w.m_requiredTrials ∧
    (w.judgeTrial timedOut).1.m_currentTrial.usedDouble = w.m_currentTrial.usedDouble ∧
    (w.judgeTrial timedOut).1.m_currentTrial.luckyDouble = w.m_currentTrial.luckyDouble ∧
    (w.judgeTrial timedOut).1.m_sessionActive = w.m_sessionActive := by
  unfold PitchTraining.judgeTrial
  refine ⟨?_, ?_, ?_, ?_, ?_, ?_, ?_, ?_⟩ <;> dsimp only <;> split_ifs <;> rfl

/-- What `finishCurrentTrial` does with the bonuses once the trial is judged. -/
theorem applyTrialBonus_bonus (w : PitchTraining) (correct : Bool) :
    (w.applyTrialBonus correct).m_doubleArmed = false ∧
    (w.applyTrialBonus correct).m_randomDouble = false ∧
    (w.applyTrialBonus correct).m_effectiveBonus
      = w.m_effectiveBonus
        + (if correct && (w.m_doubleArmed || (w.m_randomDouble && w.m_currentSpec.tokensAllowed))
            then 1 else 0) ∧
    (w.applyTrialBonus correct).m_currentTrial.usedDouble
      = (w.m_currentTrial.usedDouble || (correct && w.m_doubleArmed)) ∧
    (w.applyTrialBonus correct).m_currentTrial.luckyDouble
      = (w.m_currentTrial.luckyDouble
          || (correct && !w.m_doubleArmed && w.m_randomDouble && w.m_currentSpec.tokensAllowed)) ∧
    (w.applyTrialBonus correct).m_correctTrials = w.m_correctTrials ∧
    (w.applyTrialBonus correct).m_requiredTrials = w.m_requiredTrials ∧
    (w.applyTrialBonus correct).m_sessionActive = w.m_sessionActive := by
  unfold PitchTraining.applyTrialBonus
  cases correct <;> cases h1 : w.m_doubleArmed <;> cases h2 : w.m_randomDouble <;>
    cases h3 : w.m_currentSpec.tokensAllowed <;> simp [h1, h2, h3]

theorem reportTrial_bonus_frame (w : PitchTraining) (correct timedOut : Bool) (n : Int) :
    (w.reportTrial correct timedOut n).m_effectiveBonus = w.m_effectiveBonus ∧
    (w.reportTrial correct timedOut n).m_doubleArmed = w.m_doubleArmed ∧
    (w.reportTrial correct timedOut n).m_randomDouble = w.m_randomDouble ∧
    (w.reportTrial correct timedOut n).m_correctTrials = w.m_correctTrials ∧
    (w.reportTrial correct timedOut n).m_requiredTrials = w.m_requiredTrials ∧
    (w.reportTrial correct timedOut n).m_sessionActive = w.m_sessionActive := by
  unfold PitchTraining.reportTrial PitchTraining.appendTrialLogEntry
    PitchTraining.setResponseEnabled PitchTraining.updateFeedback
  refine ⟨?_, ?_, ?_, ?_, ?_, ?_⟩ <;> dsimp only <;> split_ifs <;> rfl

/-- The counters and bonus members after `finishCurrentTrial` has settled a trial, in terms
of the judgement `(w.judgeTrial timedOut).2` of the trial. -/
theorem recordTrial_bonus (w : PitchTraining) (timedOut : Bool) (elapsedMs : Int) :
    (w.recordTrial timedOut elapsedMs).m_doubleArmed = false ∧
    (w.recordTrial timedOut elapsedMs).m_randomDouble = false ∧
    (w.recordTrial timedOut elapsedMs).m_effectiveBonus
      = w.m_effectiveBonus
        + (if (w.judgeTrial timedOut).2
              && (w.m_doubleArmed || (w.m_randomDouble && w.m_currentSpec.tokensAllowed))
            then 1 else 0) ∧
    (w.recordTrial timedOut elapsedMs).m_correctTrials
      = w.m_correctTrials
        + (if (w.judgeTrial timedOut).2 && decide (w.m_mode ≠ .SpecialExercise)
            then 1 else 0) ∧
    (w.recordTrial timedOut elapsedMs).m_requiredTrials = w.m_requiredTrials ∧
    (w.recordTrial timedOut elapsedMs).m_currentTrial.correct = (w.judgeTrial timedOut).2 ∧
    (w.recordTrial timedOut elapsedMs).m_currentTrial.usedDouble
      = (w.m_currentTrial.usedDouble || ((w.judgeTrial timedOut).2 && w.m_doubleArmed)) ∧
    (w.recordTrial timedOut elapsedMs).m_currentTrial.luckyDouble
      = (w.m_currentTrial.luckyDouble
          || ((w.judgeTrial timedOut).2 && !w.m_doubleArmed && w.m_randomDouble
            && w.m_currentSpec.tokensAllowed)) ∧
    (w.recordTrial timedOut elapsedMs).m_sessionActive = w.m_sessionActive := by
  have hr := fun (x : PitchTraining) (c t : Bool) (n : Int) => reportTrial_bonus_frame x c t n
  have hr2 := fun (x : PitchTraining) (c t : Bool) (n : Int) => reportTrial_frame x c t n
  have ha := fun (x : PitchTraining) (c : Bool) => applyTrialBonus_bonus x c
  have ha2 := fun (x : PitchTraining) (c : Bool) => applyTrialBonus_frame x c
  have hj := fun (x : PitchTraining) (t : Bool) => judgeTrial_bonus_frame x t
  have hj2 := fun (x : PitchTraining) (t : Bool) => judgeTrial_frame x t
  unfold PitchTraining.recordTrial
  simp only [judgeTrial_correct]
  dsimp only
  generalize (!timedOut &&
      (if w.m_mode = .SpecialExercise then
        ((!w.m_currentTrial.outOfBounds &&
            decide (w.m_currentTrial.response = w.m_specialContext.targetPitch))
          || (w.m_currentTrial.outOfBounds && decide (w.m_currentTrial.response = "OUT")))
      else if w.m_currentTrial.outOfBounds then decide (w.m_currentTrial.response = "OUT")
      else decide (w.m_currentTrial.response = w.m_currentTrial.presentedPitch))) = c
  refine ⟨?_, ?_, ?_, ?_, ?_, ?_, ?_, ?_, ?_⟩
  · rw [(hr _ _ _ _).2.1, (ha _ _).1]
  · rw [(hr _ _ _ _).2.2.1, (ha _ _).2.1]
  · rw [(hr _ _ _ _).1, (ha _ _).2.2.1,
      apply_ite (fun x : PitchTraining => x.m_effectiveBonus),
      apply_ite (fun x : PitchTraining => x.m_doubleArmed),
      apply_ite (fun x : PitchTraining => x.m_randomDouble),
      apply_ite (fun x : PitchTraining => x.m_currentSpec)]
    dsimp only
    simp only [ite_self]
    rw [(hj _ _).1, (hj _ _).2.1, (hj _ _).2.2.1, (hj2 _ _).2.2.2.2.2.2.2.1]
  · rw [(hr _ _ _ _).2.2.2.1, (ha _ _).2.2.2.2.2.1,
      apply_ite (fun x : PitchTraining => x.m_correctTrials)]
    dsimp only
    rw [(hj _ _).2.2.2.1, (hj2 _ _).2.2.1]
    split_ifs <;> simp
  · rw [(hr _ _ _ _).2.2.2.2.1, (ha _ _).2.2.2.2.2.2.1,
      apply_ite (fun x : PitchTraining => x.m_requiredTrials)]
    dsimp only
    rw [ite_self, (hj _ _).2.2.2.2.1]
  · rw [(hr2 _ _ _ _).2.2.2.2.2.2.2.2.2, (ha2 _ _).2.2.2.2.2.2.2.2.2.2.2.2.2,
      apply_ite (fun x : PitchTraining => x.m_currentTrial.correct)]
    dsimp only
    rw [ite_self]
  · rw [(hr2 _ _ _ _).2.2.2.2.2.2.2.2.2, (ha _ _).2.2.2.1,
      apply_ite (fun x : PitchTraining => x.m_currentTrial.usedDouble),
      apply_ite (fun x : PitchTraining => x.m_doubleArmed)]
    dsimp only
    simp only [ite_self]
    rw [(hj _ _).2.1, (hj _ _).2.2.2.2.2.1]
  · rw [(hr2 _ _ _ _).2.2.2.2.2.2.2.2.2, (ha _ _).2.2.2.2.1,
      apply_ite (fun x : PitchTraining => x.m_currentTrial.luckyDouble),
      apply_ite (fun x : PitchTraining => x.m_doubleArmed),
      apply_ite (fun x : PitchTraining => x.m_randomDouble),
      apply_ite (fun x : PitchTraining => x.m_currentSpec)]
    dsimp only
    simp only [ite_self]
    rw [(hj _ _).2.1, (hj _ _).2.2.1, (hj _ _).2.2.2.2.2.2.1, (hj2 _ _).2.2.2.2.2.2.2.1]
  · rw [(hr _ _ _ _).2.2.2.2.2, (ha _ _).2.2.2.2.2.2.2,
      apply_ite (fun x : PitchTraining => x.m_sessionActive)]
    dsimp only
    rw [ite_self, (hj _ _).2.2.2.2.2.2.2]

theorem rewardLevel_engine (w : PitchTraining) (a e : ℚ) (p : Bool) :
    (w.rewardLevel a e p).m_effectiveBonus = w.m_effectiveBonus ∧
    (w.rewardLevel a e p).m_doubleArmed = w.m_doubleArmed ∧
    (w.rewardLevel a e p).m_randomDouble = w.m_randomDouble ∧
    (w.rewardLevel a e p).m_correctTrials = w.m_correctTrials ∧
    (w.rewardLevel a e p).m_trialsCompleted = w.m_trialsCompleted ∧
    (w.rewardLevel a e p).m_requiredTrials = w.m_requiredTrials ∧
    (w.rewardLevel a e p).m_sessionActive = w.m_sessionActive ∧
    (w.rewardLevel a e p).m_waitingForShepard = w.m_waitingForShepard := by
  unfold PitchTraining.rewardLevel PitchTraining.updateFeedback
  refine ⟨?_, ?_, ?_, ?_, ?_, ?_, ?_, ?_⟩ <;> dsimp only <;> split_ifs <;> rfl

theorem closeLevel_engine (w : PitchTraining) (a : ℚ) (p : Bool) (clock : Clock) :
    (w.closeLevel a p clock).m_effectiveBonus = w.m_effectiveBonus ∧
    (w.closeLevel a p clock).m_doubleArmed = w.m_doubleArmed ∧
    (w.closeLevel a p clock).m_randomDouble = w.m_randomDouble ∧
    (w.closeLevel a p clock).m_correctTrials = w.m_correctTrials ∧
    (w.closeLevel a p clock).m_trialsCompleted = w.m_trialsCompleted ∧
    (w.closeLevel a p clock).m_requiredTrials = w.m_requiredTrials ∧
    (w.closeLevel a p clock).m_sessionActive = w.m_sessionActive ∧
    (w.closeLevel a p clock).m_waitingForShepard = w.m_waitingForShepard :=
  ⟨rfl, rfl, rfl, rfl, rfl, rfl, rfl, rfl⟩

theorem resolveFinalLevel_engine (w : PitchTraining) (p : Bool) (clock : Clock) :
    (w.resolveFinalLevel p clock).m_effectiveBonus = w.m_effectiveBonus ∧
    (w.resolveFinalLevel p clock).m_doubleArmed = w.m_doubleArmed ∧
    (w.resolveFinalLevel p clock).m_randomDouble = w.m_randomDouble ∧
    (w.resolveFinalLevel p clock).m_correctTrials = w.m_correctTrials ∧
    (w.resolveFinalLevel p clock).m_trialsCompleted = w.m_trialsCompleted ∧
    (w.resolveFinalLevel p clock).m_requiredTrials = w.m_requiredTrials ∧
    (w.resolveFinalLevel p clock).m_sessionActive = w.m_sessionActive ∧
    (w.resolveFinalLevel p clock).m_waitingForShepard = w.m_waitingForShepard := by
  unfold PitchTraining.resolveFinalLevel PitchTraining.updateFeedback
  refine ⟨?_, ?_, ?_, ?_, ?_, ?_, ?_, ?_⟩ <;> dsimp only <;> split_ifs <;> rfl

/-- The members of the level in progress that `resolveLevelCompletion` leaves alone. -/
theorem resolveLevelCompletion_engine (w : PitchTraining) (clock : Clock) :
    (w.resolveLevelCompletion clock).m_effectiveBonus = w.m_effectiveBonus ∧
    (w.resolveLevelCompletion clock).m_doubleArmed = w.m_doubleArmed ∧
    (w.resolveLevelCompletion clock).m_randomDouble = w.m_randomDouble ∧
    (w.resolveLevelCompletion clock).m_correctTrials = w.m_correctTrials ∧
    (w.resolveLevelCompletion clock).m_trialsCompleted = w.m_trialsCompleted ∧
    (w.resolveLevelCompletion clock).m_requiredTrials = w.m_requiredTrials ∧
    (w.resolveLevelCompletion clock).m_sessionActive = w.m_sessionActive ∧
    (w.resolveLevelCompletion clock).m_waitingForShepard = w.m_waitingForShepard := by
  have hf := fun (x : PitchTraining) (p : Bool) => resolveFinalLevel_engine x p clock
  have hc := fun (x : PitchTraining) (a : ℚ) (p : Bool) => closeLevel_engine x a p clock
  have hr := fun (x : PitchTraining) (a e : ℚ) (p : Bool) => rewardLevel_engine x a e p
  unfold PitchTraining.resolveLevelCompletion PitchTraining.advanceLevel
  dsimp only
  refine ⟨?_, ?_, ?_, ?_, ?_, ?_, ?_, ?_⟩
  · rw [(hf _ _).1]; dsimp only; rw [(hc _ _ _).1, (hr _ _ _ _).1]
  · rw [(hf _ _).2.1]; dsimp only; rw [(hc _ _ _).2.1, (hr _ _ _ _).2.1]
  · rw [(hf _ _).2.2.1]; dsimp only; rw [(hc _ _ _).2.2.1, (hr _ _ _ _).2.2.1]
  · rw [(hf _ _).2.2.2.1]; dsimp only; rw [(hc _ _ _).2.2.2.1, (hr _ _ _ _).2.2.2.1]
  · rw [(hf _ _).2.2.2.2.1]; dsimp only; rw [(hc _ _ _).2.2.2.2.1, (hr _ _ _ _).2.2.2.2.1]
  · rw [(hf _ _).2.2.2.2.2.1]; dsimp only
    rw [(hc _ _ _).2.2.2.2.2.1, (hr _ _ _ _).2.2.2.2.2.1]
  · rw [(hf _ _).2.2.2.2.2.2.1]; dsimp only
    rw [(hc _ _ _).2.2.2.2.2.2.1, (hr _ _ _ _).2.2.2.2.2.2.1]
  · rw [(hf _ _).2.2.2.2.2.2.2]; dsimp only
    rw [(hc _ _ _).2.2.2.2.2.2.2, (hr _ _ _ _).2.2.2.2.2.2.2]

theorem resolveSpecialExercise_engine (w : PitchTraining) (clock : Clock) :
    (w.resolveSpecialExercise clock).m_effectiveBonus = w.m_effectiveBonus ∧
    (w.resolveSpecialExercise clock).m_doubleArmed = w.m_doubleArmed ∧
    (w.resolveSpecialExercise clock).m_randomDouble = w.m_randomDouble ∧
    (w.resolveSpecialExercise clock).m_correctTrials = w.m_correctTrials ∧
    (w.resolveSpecialExercise clock).m_requiredTrials = w.m_requiredTrials ∧
    (w.resolveSpecialExercise clock).m_sessionActive = w.m_sessionActive ∧
    (w.resolveSpecialExercise clock).m_state.m_tokens = w.m_state.m_tokens := by
  unfold PitchTraining.resolveSpecialExercise PitchTraining.setResponseEnabled
    PitchTraining.resetTrialLog PitchTraining.refreshStartLevelButton
  refine ⟨?_, ?_, ?_, ?_, ?_, ?_, ?_⟩ <;> dsimp only <;> split_ifs <;> rfl

/-- The dispatch of `finishCurrentTrial` after the trial is settled. -/
theorem finishCurrentTrial_eq (w : PitchTraining) (timedOut : Bool) (elapsedMs : Int)
    (clock : Clock) (hact : (w.m_levelActive || w.m_specialContext.active) = true) :
    w.finishCurrentTrial timedOut elapsedMs clock
      = (if (w.recordTrial timedOut elapsedMs).m_trialsCompleted
            ≥ (if w.m_mode = .SpecialExercise then w.m_specialContext.totalTrials
                else w.m_requiredTrials) then
          (if w.m_mode = .SpecialExercise
            then (w.recordTrial timedOut elapsedMs).resolveSpecialExercise clock
            else (w.recordTrial timedOut elapsedMs).resolveLevelCompletion clock)
        else { w.recordTrial timedOut elapsedMs with startTrialEnabled := true }) := by
  obtain ⟨-, f2, f3, -⟩ := recordTrial_frame w timedOut elapsedMs
  have f5 := (recordTrial_bonus w timedOut elapsedMs).2.2.2.2.1
  unfold PitchTraining.finishCurrentTrial
  rw [if_neg (by rw [hact]; simp)]
  dsimp only
  rw [f3, f2, f5]

/-- Claim C21: the resolution of a trial (of a level or of a special exercise in progress)
raises the bonus count by at most 1. A trial judged correct with a bonus armed adds 1,
marks the trial as using the armed bonus and leaves its random-bonus mark alone; a trial
judged correct with no bonus armed but a random bonus pending on a token-eligible level
adds 1 and marks the trial as a lucky double; a trial judged incorrect, as every timed-out
trial is, adds nothing. After the resolution no bonus is armed or pending. The settling of
the trial leaves the progress state, hence the token balance, as it was (nothing is
refunded); the only change of the balance in the same call is the threshold reward of the
level when the trial is its last. -/
theorem trial_bonus_rule (w : PitchTraining) (timedOut : Bool) (elapsedMs : Int)
    (clock : Clock) (hact : (w.m_levelActive || w.m_specialContext.active) = true) :
    ((w.finishCurrentTrial timedOut elapsedMs clock).m_effectiveBonus = w.m_effectiveBonus ∨
      (w.finishCurrentTrial timedOut elapsedMs clock).m_effectiveBonus
        = w.m_effectiveBonus + 1) ∧
    ((w.judgeTrial timedOut).2 = true → w.m_doubleArmed = true →
      (w.finishCurrentTrial timedOut elapsedMs clock).m_effectiveBonus
        = w.m_effectiveBonus + 1 ∧
      (w.recordTrial timedOut elapsedMs).m_currentTrial.usedDouble = true ∧
      (w.recordTrial timedOut elapsedMs).m_currentTrial.luckyDouble
        = w.m_currentTrial.luckyDouble) ∧
    ((w.judgeTrial timedOut).2 = true → w.m_doubleArmed = false →
      w.m_randomDouble = true → w.m_currentSpec.tokensAllowed = true →
      (w.finishCurrentTrial timedOut elapsedMs clock).m_effectiveBonus
        = w.m_effectiveBonus + 1 ∧
      (w.recordTrial timedOut elapsedMs).m_currentTrial.luckyDouble = true) ∧
    ((w.judgeTrial timedOut).2 = false →
      (w.finishCurrentTrial timedOut elapsedMs clock).m_effectiveBonus = w.m_effectiveBonus) ∧
    (timedOut = true → (w.judgeTrial timedOut).2 = false) ∧
    (w.finishCurrentTrial timedOut elapsedMs clock).m_doubleArmed = false ∧
    (w.finishCurrentTrial timedOut elapsedMs clock).m_randomDouble = false ∧
    (w.recordTrial timedOut elapsedMs).m_state = w.m_state ∧
    ((w.finishCurrentTrial timedOut elapsedMs clock).m_state.m_tokens = w.m_state.m_tokens ∨
      (w.finishCurrentTrial timedOut elapsedMs clock).m_state.m_tokens
        = max 0 (w.m_state.m_tokens
            + PitchTraining.tokensEarned (w.recordTrial timedOut elapsedMs).actualAccuracy)) := by
  obtain ⟨b1, b2, b3, -, -, -, b7, b8, -⟩ := recordTrial_bonus w timedOut elapsedMs
  have hstate := (recordTrial_frame w timedOut elapsedMs).1
  have hfin := finishCurrentTrial_eq w timedOut elapsedMs clock hact
  generalize w.recordTrial timedOut elapsedMs = r at *
  have hbonus : (w.finishCurrentTrial timedOut elapsedMs clock).m_effectiveBonus
      = r.m_effectiveBonus := by
    rw [hfin]
    split_ifs <;> first
      | exact (resolveSpecialExercise_engine r clock).1
      | exact (resolveLevelCompletion_engine r clock).1
      | rfl
  have harmed : (w.finishCurrentTrial timedOut elapsedMs clock).m_doubleArmed = false := by
    rw [hfin]
    split_ifs <;> first
      | exact (resolveSpecialExercise_engine r clock).2.1.trans b1
      | exact (resolveLevelCompletion_engine r clock).2.1.trans b1
      | exact b1
  have hrandom : (w.finishCurrentTrial timedOut elapsedMs clock).m_randomDouble = false := by
    rw [hfin]
    split_ifs <;> first
      | exact (resolveSpecialExercise_engine r clock).2.2.1.trans b2
      | exact (resolveLevelCompletion_engine r clock).2.2.1.trans b2
      | exact b2
  have htok : (w.finishCurrentTrial timedOut elapsedMs clock).m_state.m_tokens
        = w.m_state.m_tokens ∨
      (w.finishCurrentTrial timedOut elapsedMs clock).m_state.m_tokens
        = max 0 (w.m_state.m_tokens + PitchTraining.tokensEarned r.actualAccuracy) := by
    have hlevel : (r.resolveLevelCompletion clock).m_state.m_tokens = w.m_state.m_tokens ∨
        (r.resolveLevelCompletion clock).m_state.m_tokens
          = max 0 (w.m_state.m_tokens + PitchTraining.tokensEarned r.actualAccuracy) := by
      obtain ⟨pre, summary, hres, -, -, -, -, -, -, -, -, -, ht, -⟩ :=
        resolveLevelCompletion_eq r clock
      rw [hres, (resolveFinalLevel_frame pre _ clock).1, ht, hstate]
      split_ifs
      · right; rfl
      · left; rfl
    have hkeep : ({ r with startTrialEnabled := true } : PitchTraining).m_state.m_tokens
        = w.m_state.m_tokens := by
      show r.m_state.m_tokens = _
      rw [hstate]
    rw [hfin]
    split_ifs <;> first
      | exact hlevel
      | exact Or.inl hkeep
      | exact Or.inl (by rw [(resolveSpecialExercise_engine r clock).2.2.2.2.2.2, hstate])
  rw [hbonus, b3]
  refine ⟨?_, ?_, ?_, ?_, ?_, harmed, hrandom, hstate, htok⟩
  · split_ifs
    · right; rfl
    · left; simp
  · intro hc ha
    rw [b7, b8, hc, ha]
    simp
  · intro hc ha hr ht
    rw [b8, hc, ha, hr, ht]
    simp
  · intro hc
    rw [hc]
    simp
  · intro ht
    rw [judgeTrial_correct, ht]
    rfl

theorem armedTrial_correct : (armedTrial.judgeTrial false).2 = true := by
  rw [judgeTrial_correct]
  simp [armedTrial]

theorem trial_bonus_rule_witness :
    (armedTrial.m_levelActive || armedTrial.m_specialContext.active) = true ∧
    (armedTrial.finishCurrentTrial false 900 sampleClock).m_effectiveBonus
      = armedTrial.m_effectiveBonus + 1 ∧
    (armedTrial.recordTrial false 900).m_currentTrial.usedDouble = true ∧
    (armedTrial.finishCurrentTrial false 900 sampleClock).m_doubleArmed = false :=
  have h := trial_bonus_rule armedTrial false 900 sampleClock rfl
  have h2 := h.2.1 armedTrial_correct rfl
  ⟨rfl, h2.1, h2.2.1, h.2.2.2.2.2.1⟩

/-! ## Trials of a level -/

/-- The members that `startLevelInternal` sets for the level it starts. -/
theorem startLevelInternal_members (w : PitchTraining) :
    (w.startLevelInternal).m_currentSpec = specForIndex w.m_state.m_currentLevelIndex ∧
    (w.startLevelInternal).m_trainingPitches
      = stagePitchSet (specForIndex w.m_state.m_currentLevelIndex).stageIndex ∧
    (w.startLevelInternal).m_outOfBoundsPitches
      = outOfBoundsForStage (specForIndex w.m_state.m_currentLevelIndex).stageIndex ∧
    (w.startLevelInternal).m_requiredTrials
      = (specForIndex w.m_state.m_currentLevelIndex).trialCount ∧
    (w.startLevelInternal).m_trialsCompleted = 0 ∧
    (w.startLevelInternal).m_correctTrials = 0 ∧
    (w.startLevelInternal).m_effectiveBonus = 0 ∧
    (w.startLevelInternal).m_doubleArmed = false ∧
    (w.startLevelInternal).m_randomDouble = false ∧
    (w.startLevelInternal).m_trialLog = [] ∧
    (w.startLevelInternal).m_waitingForShepard
      = !(specForIndex w.m_state.m_currentLevelIndex).feedback ∧
    (w.startLevelInternal).m_sessionActive = w.m_sessionActive := by
  unfold PitchTraining.startLevelInternal PitchTraining.scheduleShepardIfNeeded
  refine ⟨?_, ?_, ?_, ?_, ?_, ?_, ?_, ?_, ?_, ?_, ?_, ?_⟩ <;> dsimp only <;> split_ifs <;>
    first | rfl | simp_all [PitchTraining.resetLevelState, PitchTraining.resetTrialLog,
      PitchTraining.setResponseEnabled, PitchTraining.playShepardTone,
      PitchTraining.updateFeedback, PitchTraining.setControlsEnabled,
      PitchTraining.refreshStartLevelButton]

set_option maxHeartbeats 1000000 in
/-- The tone that `prepareNextTrial` presents in a level: the entry of the pool (the trained
pitches followed by the distractors not among them) at the drawn index, marked as a
distractor when it is one; the trial is fresh. -/
theorem prepareNextTrial_level (w : PitchTraining) (draw : TrialDraw)
    (hmode : w.m_mode ≠ .SpecialExercise) :
    (w.prepareNextTrial draw).m_currentTrial.presentedPitch
      = (w.m_outOfBoundsPitches.foldl
          (fun pool name => if !pool.contains name then pool ++ [name] else pool)
          w.m_trainingPitches).getD draw.poolIndex.toNat "" ∧
    (w.prepareNextTrial draw).m_currentTrial.outOfBounds
      = w.m_outOfBoundsPitches.contains
          ((w.m_outOfBoundsPitches.foldl
            (fun pool name => if !pool.contains name then pool ++ [name] else pool)
            w.m_trainingPitches).getD draw.poolIndex.toNat "") ∧
    (w.prepareNextTrial draw).m_currentTrial.response = "" ∧
    (w.prepareNextTrial draw).m_currentTrial.semitoneError = false ∧
    (w.prepareNextTrial draw).m_randomDouble
      = (w.m_currentSpec.tokensAllowed && decide (draw.luckyDraw = 0)) ∧
    (w.prepareNextTrial draw).m_doubleArmed = w.m_doubleArmed ∧
    (w.prepareNextTrial draw).m_effectiveBonus = w.m_effectiveBonus ∧
    (w.prepareNextTrial draw).m_correctTrials = w.m_correctTrials ∧
    (w.prepareNextTrial draw).m_requiredTrials = w.m_requiredTrials ∧
    (w.prepareNextTrial draw).m_sessionActive = w.m_sessionActive := by
  unfold PitchTraining.prepareNextTrial PitchTraining.setResponseEnabled
    PitchTraining.updateFeedback
  refine ⟨?_, ?_, ?_, ?_, ?_, ?_, ?_, ?_, ?_, ?_⟩ <;> dsimp only <;>
    simp only [hmode, if_false] <;> split_ifs <;> rfl

/-- The semitone flag of the trial after the judgement: set in `finishCurrentTrial` only in
the branch of a level trial whose presented pitch is no distractor. -/
theorem judgeTrial_semitone (w : PitchTraining) (timedOut : Bool) :
    (w.judgeTrial timedOut).1.m_currentTrial.semitoneError
      = (w.m_currentTrial.semitoneError ||
          (!timedOut && decide (w.m_mode ≠ .SpecialExercise) && !w.m_currentTrial.outOfBounds
            && !decide (w.m_currentTrial.response = w.m_currentTrial.presentedPitch)
            && decide (indexOf chromaticOrder w.m_currentTrial.presentedPitch ≥ 0 ∧
                indexOf chromaticOrder w.m_currentTrial.response ≥ 0 ∧
                |indexOf chromaticOrder w.m_currentTrial.presentedPitch
                  - indexOf chromaticOrder w.m_currentTrial.response| = 1))) := by
  unfold PitchTraining.judgeTrial
  cases timedOut <;> dsimp only <;> split_ifs <;> simp_all

theorem applyTrialBonus_semitone (w : PitchTraining) (correct : Bool) :
    (w.applyTrialBonus correct).m_currentTrial.semitoneError
      = w.m_currentTrial.semitoneError := by
  unfold PitchTraining.applyTrialBonus
  dsimp only
  split_ifs <;> rfl

/-- The semitone flag of the trial that `finishCurrentTrial` appends to the trial log. -/
theorem recordTrial_semitone (w : PitchTraining) (timedOut : Bool) (elapsedMs : Int) :
    (w.recordTrial timedOut elapsedMs).m_trialLog
      = w.m_trialLog ++ [(w.recordTrial timedOut elapsedMs).m_currentTrial] ∧
    (w.recordTrial timedOut elapsedMs).m_currentTrial.semitoneError
      = (w.m_currentTrial.semitoneError ||
          (!timedOut && decide (w.m_mode ≠ .SpecialExercise) && !w.m_currentTrial.outOfBounds
            && !decide (w.m_currentTrial.response = w.m_currentTrial.presentedPitch)
            && decide (indexOf chromaticOrder w.m_currentTrial.presentedPitch ≥ 0 ∧
                indexOf chromaticOrder w.m_currentTrial.response ≥ 0 ∧
                |indexOf chromaticOrder w.m_currentTrial.presentedPitch
                  - indexOf chromaticOrder w.m_currentTrial.response| = 1))) ∧
    (w.recordTrial timedOut elapsedMs).m_currentTrial.presentedPitch
      = w.m_currentTrial.presentedPitch ∧
    (w.recordTrial timedOut elapsedMs).m_currentTrial.outOfBounds
      = w.m_currentTrial.outOfBounds ∧
    (w.recordTrial timedOut elapsedMs).m_currentTrial.response = w.m_currentTrial.response ∧
    (w.recordTrial timedOut elapsedMs).m_currentTrial.timedOut = timedOut := by
  have hr := fun (x : PitchTraining) (c t : Bool) (n : Int) => reportTrial_frame x c t n
  have ha := fun (x : PitchTraining) (c : Bool) => applyTrialBonus_frame x c
  have hs := fun (x : PitchTraining) (c : Bool) => applyTrialBonus_semitone x c
  have hj := fun (x : PitchTraining) (t : Bool) => judgeTrial_frame x t
  unfold PitchTraining.recordTrial
  dsimp only
  refine ⟨?_, ?_, ?_, ?_, ?_, ?_⟩
  · rw [(hr _ _ _ _).2.2.2.2.2.2.1, (ha _ _).2.2.2.2.2.2.1,
      apply_ite (fun x : PitchTraining => x.m_trialLog)]
    dsimp only
    rw [ite_self, (hj _ _).2.2.2.2.2.2.1]
  · rw [(hr _ _ _ _).2.2.2.2.2.2.2.2.2, hs,
      apply_ite (fun x : PitchTraining => x.m_currentTrial.semitoneError)]
    dsimp only
    rw [ite_self, judgeTrial_semitone]
  · rw [(hr _ _ _ _).2.2.2.2.2.2.2.2.2, (ha _ _).2.2.2.2.2.2.2.2.2.1,
      apply_ite (fun x : PitchTraining => x.m_currentTrial.presentedPitch)]
    dsimp only
    rw [ite_self, (hj _ _).2.2.2.2.2.2.2.2.2.1]
  · rw [(hr _ _ _ _).2.2.2.2.2.2.2.2.2, (ha _ _).2.2.2.2.2.2.2.2.2.2.1,
      apply_ite (fun x : PitchTraining => x.m_currentTrial.outOfBounds)]
    dsimp only
    rw [ite_self, (hj _ _).2.2.2.2.2.2.2.2.2.2.1]
  · rw [(hr _ _ _ _).2.2.2.2.2.2.2.2.2, (ha _ _).2.2.2.2.2.2.2.2.2.2.2.1,
      apply_ite (fun x : PitchTraining => x.m_currentTrial.response)]
    dsimp only
    rw [ite_self, (hj _ _).2.2.2.2.2.2.2.2.2.2.2.1]
  · rw [(hr _ _ _ _).2.2.2.2.2.2.2.2.2, (ha _ _).2.2.2.2.2.2.2.2.2.2.2.2.1,
      apply_ite (fun x : PitchTraining => x.m_currentTrial.timedOut)]
    dsimp only
    rw [ite_self, (hj _ _).2.2.2.2.2.2.2.2.2.2.2.2]

/-- The trial that an answer to a level trial appends to the trial log while the level goes
on, with its judgement and its semitone flag. -/
theorem handleResponse_log (p : PitchTraining) (button : ResponseButton) (elapsedMs : Int)
    (clock : Clock) (hact : p.m_levelActive = true) (hmode : p.m_mode = .Level)
    (hmore : p.m_trialsCompleted + 1 < p.m_requiredTrials) :
    ∃ trial : TrialData,
      (p.handleResponse (some button) elapsedMs clock).m_trialLog = p.m_trialLog ++ [trial] ∧
      trial.presentedPitch = p.m_currentTrial.presentedPitch ∧
      trial.outOfBounds = p.m_currentTrial.outOfBounds ∧
      trial.response = (if button.outOfBound then "OUT" else button.pitch) ∧
      trial.timedOut = false ∧
      trial.correct
        = (if p.m_currentTrial.outOfBounds then
            decide ((if button.outOfBound then "OUT" else button.pitch) = "OUT")
          else decide ((if button.outOfBound then "OUT" else button.pitch)
            = p.m_currentTrial.presentedPitch)) ∧
      trial.semitoneError
        = (p.m_currentTrial.semitoneError ||
            (!p.m_currentTrial.outOfBounds
              && !decide ((if button.outOfBound then "OUT" else button.pitch)
                  = p.m_currentTrial.presentedPitch)
              && decide (indexOf chromaticOrder p.m_currentTrial.presentedPitch ≥ 0 ∧
                  indexOf chromaticOrder (if button.outOfBound then "OUT" else button.pitch)
                    ≥ 0 ∧
                  |indexOf chromaticOrder p.m_currentTrial.presentedPitch
                    - indexOf chromaticOrder
                        (if button.outOfBound then "OUT" else button.pitch)| = 1))) := by
  unfold PitchTraining.handleResponse
  rw [if_neg (by rw [hact, hmode]; simp)]
  dsimp only
  generalize hq : ({ p with m_currentTrial :=
      { p.m_currentTrial with
        response := if button.outOfBound then "OUT" else button.pitch } }
      : PitchTraining) = q
  have q0 : q.m_levelActive = p.m_levelActive := by rw [← hq]
  have q2 : q.m_mode = p.m_mode := by rw [← hq]
  have q3 : q.m_trialsCompleted = p.m_trialsCompleted := by rw [← hq]
  have q3b : q.m_requiredTrials = p.m_requiredTrials := by rw [← hq]
  have q4 : q.m_trialLog = p.m_trialLog := by rw [← hq]
  have q5 : q.m_currentTrial.presentedPitch = p.m_currentTrial.presentedPitch := by rw [← hq]
  have q6 : q.m_currentTrial.outOfBounds = p.m_currentTrial.outOfBounds := by rw [← hq]
  have q7 : q.m_currentTrial.response
      = (if button.outOfBound then "OUT" else button.pitch) := by rw [← hq]
  have q8 : q.m_currentTrial.semitoneError = p.m_currentTrial.semitoneError := by rw [← hq]
  obtain ⟨-, -, -, f4, -⟩ := recordTrial_frame q false elapsedMs
  obtain ⟨s1, s2, s3, s4, s5, s6⟩ := recordTrial_semitone q false elapsedMs
  have hcorrect := (recordTrial_bonus q false elapsedMs).2.2.2.2.2.1
  have hfin : (q.finishCurrentTrial false elapsedMs clock).m_trialLog
      = (q.recordTrial false elapsedMs).m_trialLog := by
    rw [finishCurrentTrial_eq q false elapsedMs clock (by rw [q0, hact]; rfl), q2, hmode]
    simp only [reduceCtorEq, if_false]
    rw [if_neg (by rw [f4, q3, q3b]; omega)]
  refine ⟨(q.recordTrial false elapsedMs).m_currentTrial, by rw [hfin, s1, q4], s3.trans q5,
    s4.trans q6, s5.trans q7, s6, ?_, ?_⟩
  · rw [hcorrect, judgeTrial_correct, q2, hmode, q6, q7, q5]
    simp
  · rw [s2, q2, hmode, q6, q7, q5, q8]
    simp

theorem specForIndex_zero : specForIndex 0 = levelSpecEntry 0 := by
  rw [specForIndex_eq]
  congr 1

theorem stagePitchSet_one : stagePitchSet 1 = ["F"] := by
  rw [stagePitchSet_eq_take 1 (by decide) (by decide)]
  rfl

theorem outOfBoundsForStage_one : outOfBoundsForStage 1 = ["E", "D#", "F#", "G"] := by
  rw [outOfBoundsForStage_eq 1 (by decide) (by decide)]
  decide

/-- The level that `handleStartLevel` starts for a new profile: level 1 of stage 1. -/
theorem freshSession_level :
    freshSession.handleStartLevel sampleClock = freshSession.startLevelInternal ∧
    (freshSession.startLevelInternal).m_levelActive = true ∧
    (freshSession.startLevelInternal).m_mode = .Level ∧
    (freshSession.startLevelInternal).m_trainingPitches = ["F"] ∧
    (freshSession.startLevelInternal).m_outOfBoundsPitches = ["E", "D#", "F#", "G"] ∧
    (freshSession.startLevelInternal).m_requiredTrials = 20 ∧
    (freshSession.startLevelInternal).m_trialsCompleted = 0 ∧
    (freshSession.startLevelInternal).m_trialLog = [] ∧
    (freshSession.startLevelInternal).m_waitingForShepard = false ∧
    (freshSession.startLevelInternal).m_specialContext.active = false := by
  have hidx : freshSession.m_state.m_currentLevelIndex = 0 := rfl
  have hdue : freshSession.shouldRunSpecialExercise = false := by
    simp [PitchTraining.shouldRunSpecialExercise, freshSession]
  obtain ⟨m1, m2, m3, m4, m5, -, -, -, -, m10, m11, -⟩ := startLevelInternal_members freshSession
  obtain ⟨f1, f2, f3, -⟩ := startLevelInternal_frame freshSession
  rw [hidx, specForIndex_zero] at m2 m3 m4 m11
  refine ⟨?_, f1, f2, ?_, ?_, m4, m5, m10, ?_, ?_⟩
  · rw [(handleStartLevel_cases freshSession sampleClock).2.2.2 rfl rfl rfl hdue,
      if_neg (by rw [hidx, specForIndex_zero]; decide)]
  · rw [m2]; exact stagePitchSet_one
  · rw [m3]; exact outOfBoundsForStage_one
  · rw [m11]; rfl
  · rw [f3]; rfl

/-- The trial that the first level logs when it presents the distractor E and is answered
in time with the button of F (trained pitch F, distractors E, D#, F#, G): incorrect, the
response one step from the presented pitch in the chromatic order, and not flagged as a
semitone error, because `finishCurrentTrial` looks for a semitone error only when the
presented pitch is no distractor. -/
theorem distractor_answer_logged :
    ∃ trial : TrialData,
      (((freshSession.handleStartLevel sampleClock).handleStartTrial
          secondOfPool).handleResponse (some buttonF) 900 sampleClock).m_trialLog = [trial] ∧
      trial.presentedPitch = "E" ∧ trial.outOfBounds = true ∧ trial.response = "F" ∧
      trial.timedOut = false ∧ trial.correct = false ∧
      |indexOf chromaticOrder trial.presentedPitch
        - indexOf chromaticOrder trial.response| = 1 ∧
      trial.semitoneError = false := by
  obtain ⟨hstart, l1, l2, l3, l4, l5, l6, l7, l8, l9⟩ := freshSession_level
  rw [hstart]
  generalize freshSession.startLevelInternal = s at *
  have htrial : s.handleStartTrial secondOfPool = s.prepareNextTrial secondOfPool := by
    unfold PitchTraining.handleStartTrial
    rw [if_neg (by rw [l1, l8]; simp)]
  obtain ⟨-, -, p3, p4, -, p6, p7, -⟩ := prepareNextTrial_frame s secondOfPool
  obtain ⟨g1, g2, -, g4, -⟩ := prepareNextTrial_level s secondOfPool (by rw [l2]; decide)
  have g5 := (prepareNextTrial_level s secondOfPool (by rw [l2]; decide)).2.2.2.2.2.2.2.2.1
  rw [l3, l4] at g1 g2
  have hE : ((["E", "D#", "F#", "G"] : List String).foldl
      (fun pool name => if !pool.contains name then pool ++ [name] else pool)
      ["F"]).getD secondOfPool.poolIndex.toNat "" = "E" := by decide
  rw [hE] at g1 g2
  rw [htrial]
  generalize s.prepareNextTrial secondOfPool = p at *
  obtain ⟨trial, t1, t2, t3, t4, t5, t6, t7⟩ :=
    handleResponse_log p buttonF 900 sampleClock (by rw [p6, l1]) (by rw [p3, l2])
      (by rw [p4, l6, g5, l5]; decide)
  have hout : p.m_currentTrial.outOfBounds = true := by rw [g2]; decide
  refine ⟨trial, by rw [t1, p7, l7]; rfl, t2.trans g1, t3.trans hout, t4, t5, ?_, ?_, ?_⟩
  · rw [t6, hout]; simp [buttonF]
  · rw [t2, g1, t4]; decide
  · rw [t7, hout, g4]; simp

/-- Claim C24, amended: a resolved trial of a normal level is flagged as a semitone error
if and only if its presented pitch is no distractor, it is incorrect, did not time out, and
the presented pitch and the response are pitch names exactly one step apart in the
chromatic order; so a trial that presents a distractor is never flagged. The trial is the
one that `finishCurrentTrial` settles and appends to the trial log: it carries the
presented pitch, the distractor mark and the response of the trial in flight, which is not
flagged before it is settled (`prepareNextTrial` clears the flag). -/
theorem semitone_flag_rule (w : PitchTraining) (timedOut : Bool) (elapsedMs : Int)
    (hmode : w.m_mode = .Level) (hfresh : w.m_currentTrial.semitoneError = false) :
    (w.recordTrial timedOut elapsedMs).m_trialLog
      = w.m_trialLog ++ [(w.recordTrial timedOut elapsedMs).m_currentTrial] ∧
    ((w.recordTrial timedOut elapsedMs).m_currentTrial.semitoneError = true ↔
      (w.recordTrial timedOut elapsedMs).m_currentTrial.outOfBounds = false ∧
      (w.recordTrial timedOut elapsedMs).m_currentTrial.correct = false ∧
      (w.recordTrial timedOut elapsedMs).m_currentTrial.timedOut = false ∧
      0 ≤ indexOf chromaticOrder
        (w.recordTrial timedOut elapsedMs).m_currentTrial.presentedPitch ∧
      0 ≤ indexOf chromaticOrder (w.recordTrial timedOut elapsedMs).m_currentTrial.response ∧
      |indexOf chromaticOrder (w.recordTrial timedOut elapsedMs).m_currentTrial.presentedPitch
        - indexOf chromaticOrder (w.recordTrial timedOut elapsedMs).m_currentTrial.response|
        = 1) ∧
    ((w.recordTrial timedOut elapsedMs).m_currentTrial.outOfBounds = true →
      (w.recordTrial timedOut elapsedMs).m_currentTrial.semitoneError = false) ∧
    (w.recordTrial timedOut elapsedMs).m_currentTrial.presentedPitch
      = w.m_currentTrial.presentedPitch ∧
    (w.recordTrial timedOut elapsedMs).m_currentTrial.outOfBounds
      = w.m_currentTrial.outOfBounds ∧
    (w.recordTrial timedOut elapsedMs).m_currentTrial.response = w.m_currentTrial.response ∧
    (w.recordTrial timedOut elapsedMs).m_currentTrial.timedOut = timedOut ∧
    (w.recordTrial timedOut elapsedMs).m_currentTrial.correct
      = (!timedOut &&
          (if w.m_currentTrial.outOfBounds then decide (w.m_currentTrial.response = "OUT")
            else decide (w.m_currentTrial.response = w.m_currentTrial.presentedPitch))) := by
  obtain ⟨s1, s2, s3, s4, s5, s6⟩ := recordTrial_semitone w timedOut elapsedMs
  have hc := (recordTrial_bonus w timedOut elapsedMs).2.2.2.2.2.1
  rw [judgeTrial_correct, hmode] at hc
  simp only [reduceCtorEq, if_false] at hc
  rw [hfresh, hmode] at s2
  generalize (w.recordTrial timedOut elapsedMs).m_currentTrial = t at *
  refine ⟨s1, ?_, ?_, s3, s4, s5, s6, hc⟩
  · rw [s2, s4, hc, s6, s3, s5]
    cases timedOut <;> cases w.m_currentTrial.outOfBounds <;>
      by_cases hr : w.m_currentTrial.response = w.m_currentTrial.presentedPitch <;>
      simp [hr]
  · intro hout
    rw [s2, ← s4, hout]
    simp

theorem semitone_flag_rule_witness :
    nearMiss.m_mode = .Level ∧ nearMiss.m_currentTrial.semitoneError = false ∧
    (nearMiss.recordTrial false 900).m_currentTrial.semitoneError = true :=
  have h := semitone_flag_rule nearMiss false 900 rfl rfl
  ⟨rfl, rfl, h.2.1.mpr
    ⟨h.2.2.2.2.1.trans rfl, h.2.2.2.2.2.2.2.trans (by decide), h.2.2.2.2.2.2.1,
      by rw [h.2.2.2.1]; decide, by rw [h.2.2.2.2.2.1]; decide,
      by rw [h.2.2.2.1, h.2.2.2.2.2.1]; decide⟩⟩

/-- Claim C24 as stated fails for a trial that presents a distractor. In the first level
(trained pitch F, distractors E, D#, F#, G) the trial presents the distractor E and is
answered in time with the button of F: the logged trial is incorrect, did not time out, its
response is a pitch name one step from the presented pitch in the chromatic order, and it
is not flagged as a semitone error. -/
theorem distractor_semitone_unflagged :
    ¬ ∀ trial ∈ (((freshSession.handleStartLevel sampleClock).handleStartTrial
          secondOfPool).handleResponse (some buttonF) 900 sampleClock).m_trialLog,
        (trial.semitoneError = true ↔
          trial.correct = false ∧ trial.timedOut = false ∧
          0 ≤ indexOf chromaticOrder trial.presentedPitch ∧
          0 ≤ indexOf chromaticOrder trial.response ∧
          |indexOf chromaticOrder trial.presentedPitch
            - indexOf chromaticOrder trial.response| = 1) := by
  intro h
  obtain ⟨trial, hlog, e1, -, e3, e4, e5, e6, e7⟩ := distractor_answer_logged
  have hflag := (h trial (by rw [hlog]; exact List.mem_singleton.mpr rfl)).mpr
    ⟨e5, e4, by rw [e1]; decide, by rw [e3]; decide, e6⟩
  rw [e7] at hflag
  exact Bool.noConfusion hflag

/-! ## What the learner is shown when a trial resolves -/

theorem judgeTrial_display_frame (w : PitchTraining) (timedOut : Bool) :
    (w.judgeTrial timedOut).1.trialLogList = w.trialLogList ∧
    (w.judgeTrial timedOut).1.m_trialLogHasEntries = w.m_trialLogHasEntries := by
  unfold PitchTraining.judgeTrial
  refine ⟨?_, ?_⟩ <;> dsimp only <;> split_ifs <;> rfl

theorem applyTrialBonus_display_frame (w : PitchTraining) (correct : Bool) :
    (w.applyTrialBonus correct).trialLogList = w.trialLogList ∧
    (w.applyTrialBonus correct).m_trialLogHasEntries = w.m_trialLogHasEntries := by
  unfold PitchTraining.applyTrialBonus
  refine ⟨?_, ?_⟩ <;> dsimp only <;> split_ifs <;> rfl

/-- The feedback label and the entry of the trial log list that `finishCurrentTrial` shows
for a trial judged `correct`: neither depends on the feedback flag of the level or on the
phase of the special exercise. -/
theorem reportTrial_display (w : PitchTraining) (correct timedOut : Bool) (n : Int) :
    (w.reportTrial correct timedOut n).feedbackText
      = (if !correct && timedOut then "Time up!"
          else if !correct then "Incorrect." else "Correct") ∧
    (w.reportTrial correct timedOut n).feedbackPositive = correct ∧
    (w.reportTrial correct timedOut n).trialLogList
      = (if w.m_trialLogHasEntries then w.trialLogList else [])
        ++ [{ colour := if correct && !timedOut then "#1b5e20" else "#b71c1c"
              text := "Trial " ++ toString n ++ ": "
                ++ ((if w.m_mode = .SpecialExercise then "[Special] " else "")
                  ++ (if timedOut then
                      "Time expired (target "
                        ++ (if w.m_currentTrial.outOfBounds then "other"
                            else w.m_currentTrial.presentedPitch) ++ ")"
                    else if correct then
                      "Correct ("
                        ++ (if w.m_currentTrial.outOfBounds then "other"
                            else w.m_currentTrial.presentedPitch) ++ ")"
                    else
                      "Incorrect (target "
                        ++ (if w.m_currentTrial.outOfBounds then "other"
                            else w.m_currentTrial.presentedPitch)
                        ++ ", answered "
                        ++ (if w.m_currentTrial.response.isEmpty then "none"
                            else if w.m_currentTrial.response = "OUT" then "other"
                            else w.m_currentTrial.response) ++ ")")) }] := by
  unfold PitchTraining.reportTrial PitchTraining.appendTrialLogEntry
    PitchTraining.setResponseEnabled PitchTraining.updateFeedback
  refine ⟨?_, ?_, ?_⟩
  · dsimp only
    cases hm : w.m_trialLogHasEntries <;> cases correct <;> cases timedOut <;> simp [hm]
  · dsimp only
    cases hm : w.m_trialLogHasEntries <;> cases correct <;> cases timedOut <;> simp [hm]
  · dsimp only
    cases hm : w.m_trialLogHasEntries <;> cases correct <;> cases timedOut <;>
      by_cases hs : w.m_mode = .SpecialExercise <;> simp [hm, hs]

/-- What the learner is shown when `finishCurrentTrial` settles a trial, in terms of the
judgement `(w.judgeTrial timedOut).2` of the trial. -/
theorem recordTrial_display (w : PitchTraining) (timedOut : Bool) (elapsedMs : Int) :
    (w.recordTrial timedOut elapsedMs).feedbackText
      = (if !(w.judgeTrial timedOut).2 && timedOut then "Time up!"
          else if !(w.judgeTrial timedOut).2 then "Incorrect." else "Correct") ∧
    (w.recordTrial timedOut elapsedMs).trialLogList
      = (if w.m_trialLogHasEntries then w.trialLogList else [])
        ++ [{ colour := if (w.judgeTrial timedOut).2 && !timedOut then "#1b5e20"
                else "#b71c1c"
              text := "Trial " ++ toString (w.m_trialsCompleted + 1) ++ ": "
                ++ ((if w.m_mode = .SpecialExercise then "[Special] " else "")
                  ++ (if timedOut then
                      "Time expired (target "
                        ++ (if w.m_currentTrial.outOfBounds then "other"
                            else w.m_currentTrial.presentedPitch) ++ ")"
                    else if (w.judgeTrial timedOut).2 then
                      "Correct ("
                        ++ (if w.m_currentTrial.outOfBounds then "other"
                            else w.m_currentTrial.presentedPitch) ++ ")"
                    else
                      "Incorrect (target "
                        ++ (if w.m_currentTrial.outOfBounds then "other"
                            else w.m_currentTrial.presentedPitch)
                        ++ ", answered "
                        ++ (if w.m_currentTrial.response.isEmpty then "none"
                            else if w.m_currentTrial.response = "OUT" then "other"
                            else w.m_currentTrial.response) ++ ")")) }] := by
  have hd := fun (x : PitchTraining) (c t : Bool) (n : Int) => reportTrial_display x c t n
  have ha := fun (x : PitchTraining) (c : Bool) => applyTrialBonus_frame x c
  have ha2 := fun (x : PitchTraining) (c : Bool) => applyTrialBonus_display_frame x c
  have hj := fun (x : PitchTraining) (t : Bool) => judgeTrial_frame x t
  have hj2 := fun (x : PitchTraining) (t : Bool) => judgeTrial_display_frame x t
  unfold PitchTraining.recordTrial
  simp only [judgeTrial_correct]
  dsimp only
  generalize (!timedOut &&
      (if w.m_mode = .SpecialExercise then
        ((!w.m_currentTrial.outOfBounds &&
            decide (w.m_currentTrial.response = w.m_specialContext.targetPitch))
          || (w.m_currentTrial.outOfBounds && decide (w.m_currentTrial.response = "OUT")))
      else if w.m_currentTrial.outOfBounds then decide (w.m_currentTrial.response = "OUT")
      else decide (w.m_currentTrial.response = w.m_currentTrial.presentedPitch))) = c
  refine ⟨?_, ?_⟩
  · rw [(hd _ _ _ _).1]
  · rw [(hd _ _ _ _).2.2, (ha2 _ _).1, (ha2 _ _).2, (ha _ _).2.2.1,
      (ha _ _).2.2.2.2.2.2.2.2.2.1, (ha _ _).2.2.2.2.2.2.2.2.2.2.1,
      (ha _ _).2.2.2.2.2.2.2.2.2.2.2.1,
      apply_ite (fun x : PitchTraining => x.trialLogList),
      apply_ite (fun x : PitchTraining => x.m_trialLogHasEntries),
      apply_ite (fun x : PitchTraining => x.m_mode),
      apply_ite (fun x : PitchTraining => x.m_currentTrial.presentedPitch),
      apply_ite (fun x : PitchTraining => x.m_currentTrial.outOfBounds),
      apply_ite (fun x : PitchTraining => x.m_currentTrial.response)]
    dsimp only
    simp only [ite_self]
    rw [(hj2 _ _).1, (hj2 _ _).2, (hj _ _).2.2.1, (hj _ _).2.2.2.2.2.2.2.2.2.1,
      (hj _ _).2.2.2.2.2.2.2.2.2.2.1, (hj _ _).2.2.2.2.2.2.2.2.2.2.2.1]

/-- A trial that does not complete the level or the phase: `finishCurrentTrial` settles it
and enables the next one. -/
theorem finishCurrentTrial_of_more (w : PitchTraining) (timedOut : Bool) (elapsedMs : Int)
    (clock : Clock) (hact : (w.m_levelActive || w.m_specialContext.active) = true)
    (hmore : w.m_trialsCompleted + 1
      < (if w.m_mode = .SpecialExercise then w.m_specialContext.totalTrials
          else w.m_requiredTrials)) :
    w.finishCurrentTrial timedOut elapsedMs clock
      = { w.recordTrial timedOut elapsedMs with startTrialEnabled := true } := by
  rw [finishCurrentTrial_eq w timedOut elapsedMs clock hact,
    (recordTrial_frame w timedOut elapsedMs).2.2.2.1, if_neg (by omega)]

/-- What an answer to a level trial shows while the level goes on: `"Correct"` or
`"Incorrect."` in the feedback label, and a log entry in the matching colour, whatever the
feedback flag of the level. -/
theorem handleResponse_display (p : PitchTraining) (button : ResponseButton)
    (elapsedMs : Int) (clock : Clock) (hact : p.m_levelActive = true)
    (hmode : p.m_mode = .Level) (hmore : p.m_trialsCompleted + 1 < p.m_requiredTrials) :
    (p.handleResponse (some button) elapsedMs clock).feedbackText
      = (if (if p.m_currentTrial.outOfBounds then
              decide ((if button.outOfBound then "OUT" else button.pitch) = "OUT")
            else decide ((if button.outOfBound then "OUT" else button.pitch)
              = p.m_currentTrial.presentedPitch))
          then "Correct" else "Incorrect.") ∧
    (p.handleResponse (some button) elapsedMs clock).trialLogList.getLast?.map LogItem.colour
      = some (if (if p.m_currentTrial.outOfBounds then
              decide ((if button.outOfBound then "OUT" else button.pitch) = "OUT")
            else decide ((if button.outOfBound then "OUT" else button.pitch)
              = p.m_currentTrial.presentedPitch))
          then "#1b5e20" else "#b71c1c") := by
  unfold PitchTraining.handleResponse
  rw [if_neg (by rw [hact, hmode]; simp)]
  dsimp only
  generalize hq : ({ p with m_currentTrial :=
      { p.m_currentTrial with
        response := if button.outOfBound then "OUT" else button.pitch } }
      : PitchTraining) = q
  have q0 : q.m_levelActive = p.m_levelActive := by rw [← hq]
  have q2 : q.m_mode = p.m_mode := by rw [← hq]
  have q3 : q.m_trialsCompleted = p.m_trialsCompleted := by rw [← hq]
  have q3b : q.m_requiredTrials = p.m_requiredTrials := by rw [← hq]
  have q5 : q.m_currentTrial.presentedPitch = p.m_currentTrial.presentedPitch := by rw [← hq]
  have q6 : q.m_currentTrial.outOfBounds = p.m_currentTrial.outOfBounds := by rw [← hq]
  have q7 : q.m_currentTrial.response
      = (if button.outOfBound then "OUT" else button.pitch) := by rw [← hq]
  have hjudge : (q.judgeTrial false).2
      = (if p.m_currentTrial.outOfBounds then
          decide ((if button.outOfBound then "OUT" else button.pitch) = "OUT")
        else decide ((if button.outOfBound then "OUT" else button.pitch)
          = p.m_currentTrial.presentedPitch)) := by
    rw [judgeTrial_correct, q2, hmode, q6, q7, q5]
    simp
  obtain ⟨d1, d2⟩ := recordTrial_display q false elapsedMs
  rw [finishCurrentTrial_of_more q false elapsedMs clock (by rw [q0, hact]; rfl)
    (by rw [q2, hmode, q3, q3b]; simpa using hmore)]
  rw [hjudge] at d1 d2
  refine ⟨?_, ?_⟩
  · show (q.recordTrial false elapsedMs).feedbackText = _
    rw [d1]
    split_ifs <;> simp_all
  · show (q.recordTrial false elapsedMs).trialLogList.getLast?.map LogItem.colour = _
    rw [d2]
    simp

/-- What an answer to a special-exercise trial shows while the phase goes on, whatever the
phase. -/
theorem handleSpecialResponse_display (p : PitchTraining) (isTarget : Bool) (elapsedMs : Int)
    (clock : Clock) (hact : p.m_specialContext.active = true)
    (hmode : p.m_mode = .SpecialExercise)
    (hmore : p.m_trialsCompleted + 1 < p.m_specialContext.totalTrials) :
    (p.handleSpecialResponse isTarget elapsedMs clock).feedbackText
      = (if ((!p.m_currentTrial.outOfBounds &&
              decide ((if isTarget then p.m_specialContext.targetPitch else "OUT")
                = p.m_specialContext.targetPitch))
            || (p.m_currentTrial.outOfBounds &&
              decide ((if isTarget then p.m_specialContext.targetPitch else "OUT") = "OUT")))
          then "Correct" else "Incorrect.") := by
  unfold PitchTraining.handleSpecialResponse
  rw [if_neg (by rw [hact]; simp)]
  dsimp only
  generalize hq : ({ p with m_currentTrial :=
      { p.m_currentTrial with
        response := if isTarget then p.m_specialContext.targetPitch else "OUT" } }
      : PitchTraining) = q
  have q1 : q.m_specialContext = p.m_specialContext := by rw [← hq]
  have q2 : q.m_mode = p.m_mode := by rw [← hq]
  have q3 : q.m_trialsCompleted = p.m_trialsCompleted := by rw [← hq]
  have q6 : q.m_currentTrial.outOfBounds = p.m_currentTrial.outOfBounds := by rw [← hq]
  have q7 : q.m_currentTrial.response
      = (if isTarget then p.m_specialContext.targetPitch else "OUT") := by rw [← hq]
  have hjudge : (q.judgeTrial false).2
      = ((!p.m_currentTrial.outOfBounds &&
            decide ((if isTarget then p.m_specialContext.targetPitch else "OUT")
              = p.m_specialContext.targetPitch))
          || (p.m_currentTrial.outOfBounds &&
            decide ((if isTarget then p.m_specialContext.targetPitch else "OUT") = "OUT"))) := by
    rw [judgeTrial_correct, q2, hmode, q6, q7, q1]
    simp
  obtain ⟨d1, -⟩ := recordTrial_display q false elapsedMs
  rw [finishCurrentTrial_of_more q false elapsedMs clock (by rw [q1, hact]; simp)
    (by rw [q2, hmode, q3, q1]; simpa using hmore)]
  rw [hjudge] at d1
  show (q.recordTrial false elapsedMs).feedbackText = _
  rw [d1]
  split_ifs <;> simp_all

/-- Claim C28 fails on the code. On a level without feedback (position 13 of a stage) the
same trial in flight, answered with the button of the presented pitch and answered with
the other button, leaves `"Correct"` in the feedback label and a green log entry in the one
run, `"Incorrect."` and a red log entry in the other; in the second phase of a special
exercise the two answer buttons leave `"Correct"` and `"Incorrect."` in the same way. -/
theorem feedback_shown_without_feedback :
    silentTrial.m_currentSpec.feedback = false ∧
    silentTrial.m_currentSpec.levelInStage = 13 ∧
    (silentTrial.handleResponse (some buttonF) 900 sampleClock).feedbackText = "Correct" ∧
    (silentTrial.handleResponse (some buttonOther) 900 sampleClock).feedbackText
      = "Incorrect." ∧
    (silentTrial.handleResponse (some buttonF) 900
        sampleClock).trialLogList.getLast?.map LogItem.colour = some "#1b5e20" ∧
    (silentTrial.handleResponse (some buttonOther) 900
        sampleClock).trialLogList.getLast?.map LogItem.colour = some "#b71c1c" ∧
    secondPhaseTrial.m_specialContext.feedbackPhase = false ∧
    (secondPhaseTrial.handleSpecialResponse true 900 sampleClock).feedbackText = "Correct" ∧
    (secondPhaseTrial.handleSpecialResponse false 900 sampleClock).feedbackText
      = "Incorrect." := by
  have hspec : silentTrial.m_currentSpec = levelSpecEntry 12 := by
    have h : silentTrial.m_currentSpec = specForIndex 12 := by simp [silentTrial]
    rw [h, specForIndex_eq]
    congr 1
  have hF := handleResponse_display silentTrial buttonF 900 sampleClock rfl rfl (by decide)
  have hO := handleResponse_display silentTrial buttonOther 900 sampleClock rfl rfl
    (by decide)
  have hT := handleSpecialResponse_display secondPhaseTrial true 900 sampleClock rfl rfl
    (by decide)
  have hN := handleSpecialResponse_display secondPhaseTrial false 900 sampleClock rfl rfl
    (by decide)
  refine ⟨by rw [hspec]; rfl, by rw [hspec]; rfl, ?_, ?_, ?_, ?_, rfl, ?_, ?_⟩
  · rw [hF.1]; simp [silentTrial, buttonF]
  · rw [hO.1]; simp [silentTrial, buttonOther]
  · rw [hF.2]; simp [silentTrial, buttonF]
  · rw [hO.2]; simp [silentTrial, buttonOther]
  · rw [hT]; simp [secondPhaseTrial]
  · rw [hN]; simp [secondPhaseTrial]

/-! ## The token flag of a level -/

/-- The balance after a completed level of 20 trials: the threshold reward is added,
whatever the level. -/
theorem resolveLevelCompletion_tokens (w : PitchTraining) (clock : Clock)
    (hreq : w.m_requiredTrials = 20) (htok : 0 ≤ w.m_state.m_tokens) :
    (w.resolveLevelCompletion clock).m_state.m_tokens
      = w.m_state.m_tokens + PitchTraining.tokensEarned ((w.m_correctTrials : ℚ) / 20) := by
  have hacc : w.actualAccuracy = (w.m_correctTrials : ℚ) / 20 := by
    simp [PitchTraining.actualAccuracy, hreq]
  obtain ⟨pre, summary, hres, -, -, -, -, -, -, -, -, -, ht, -⟩ :=
    resolveLevelCompletion_eq w clock
  rw [hres, (resolveFinalLevel_frame pre _ clock).1, ht, hacc]
  have hnonneg : 0 ≤ PitchTraining.tokensEarned ((w.m_correctTrials : ℚ) / 20) := by
    rw [tokensEarned_of_count]; split_ifs <;> decide
  split_ifs with h
  · omega
  · omega

theorem specForIndex_tokensAllowed (i : Int) :
    ((specForIndex i).tokensAllowed = false ↔ (specForIndex i).levelInStage = 24) ∧
    ((specForIndex i).levelInStage = 24 ↔ max 0 (min i 287) % 24 = 23) := by
  rw [specForIndex_eq]
  simp only [levelSpecEntry, buildLevelSpec, kLevelsPerStage]
  constructor
  · simp
  · omega

/-- Claim C26, amended: the token flag of a level is off exactly on position 24 of a
stage. It disables the use of bonuses on that level: the double-bonus button is rejected
without spending tokens or arming anything, and no random bonus becomes pending when a
trial is prepared; on a level with the flag on, in progress and with at least 10 tokens,
the button spends 10 tokens and arms the bonus. The threshold reward is applied on
completing a level of every position, the 24th included: the balance grows by the number
of thresholds of {0.60, 0.75, 0.90} that `correct / 20` meets. -/
theorem token_flag_gates_bonuses (w : PitchTraining) (clock : Clock)
    (hreq : w.m_requiredTrials = 20) (htok : 0 ≤ w.m_state.m_tokens) :
    (∀ i : Int, (specForIndex i).tokensAllowed = false ↔ (specForIndex i).levelInStage = 24) ∧
    (w.resolveLevelCompletion clock).m_state.m_tokens
      = w.m_state.m_tokens + PitchTraining.tokensEarned ((w.m_correctTrials : ℚ) / 20) ∧
    PitchTraining.tokensEarned ((w.m_correctTrials : ℚ) / 20)
      = (if w.m_correctTrials < 12 then 0 else if w.m_correctTrials < 15 then 1
          else if w.m_correctTrials < 18 then 2 else 3) ∧
    (w.m_currentSpec.tokensAllowed = false →
      (w.handleDoubleButton).m_state = w.m_state ∧
      (w.handleDoubleButton).m_doubleArmed = w.m_doubleArmed ∧
      (w.handleDoubleButton).m_effectiveBonus = w.m_effectiveBonus ∧
      ∀ draw : TrialDraw, w.m_mode ≠ .SpecialExercise →
        (w.prepareNextTrial draw).m_randomDouble = false) ∧
    (w.m_currentSpec.tokensAllowed = true → w.m_levelActive = true →
      10 ≤ w.m_state.m_tokens →
      (w.handleDoubleButton).m_doubleArmed = true ∧
      (w.handleDoubleButton).m_state.m_tokens = w.m_state.m_tokens - 10) := by
  refine ⟨fun i => (specForIndex_tokensAllowed i).1,
    resolveLevelCompletion_tokens w clock hreq htok, tokensEarned_of_count _, ?_, ?_⟩
  · intro hflag
    refine ⟨?_, ?_, ?_, ?_⟩
    · unfold PitchTraining.handleDoubleButton
      rw [if_pos (by rw [hflag]; simp)]
      rfl
    · unfold PitchTraining.handleDoubleButton
      rw [if_pos (by rw [hflag]; simp)]
      rfl
    · unfold PitchTraining.handleDoubleButton
      rw [if_pos (by rw [hflag]; simp)]
      rfl
    · intro draw hmode
      rw [(prepareNextTrial_level w draw hmode).2.2.2.2.1, hflag]
      rfl
  · intro hflag hact hten
    have hcons : w.m_state.consumeTokens kTokenCostForDouble
        = (true, TrainingState.incrementTokensSpent
            { w.m_state with m_tokens := w.m_state.m_tokens - 10 } 10) := by
      unfold TrainingState.consumeTokens kTokenCostForDouble
      rw [if_neg (by decide), if_neg (by omega)]
    unfold PitchTraining.handleDoubleButton
    rw [if_neg (by rw [hflag, hact]; simp)]
    dsimp only
    rw [hcons]
    exact ⟨rfl, rfl⟩

theorem lastPositionDone_spec : lastPositionDone.m_currentSpec = levelSpecEntry 23 := by
  have h : lastPositionDone.m_currentSpec = specForIndex 23 := by simp [lastPositionDone]
  rw [h, specForIndex_eq]
  congr 1

theorem token_flag_gates_bonuses_witness :
    lastPositionDone.m_requiredTrials = 20 ∧ 0 ≤ lastPositionDone.m_state.m_tokens ∧
    (lastPositionDone.resolveLevelCompletion sampleClock).m_state.m_tokens
      = lastPositionDone.m_state.m_tokens
        + PitchTraining.tokensEarned ((lastPositionDone.m_correctTrials : ℚ) / 20) ∧
    (lastPositionDone.handleDoubleButton).m_state = lastPositionDone.m_state :=
  have h := token_flag_gates_bonuses lastPositionDone sampleClock rfl (by decide)
  ⟨rfl, by decide, h.2.1, (h.2.2.2.1 (by rw [lastPositionDone_spec]; rfl)).1⟩

/-- Claim C26 as stated fails on the last level of stage 1 (position 24, token flag off):
completing it with 18 of 20 trials correct raises the balance from 10 to 13. -/
theorem token_reward_on_last_position :
    ¬ (lastPositionDone.m_currentSpec.levelInStage = 24 →
        lastPositionDone.m_currentSpec.tokensAllowed = false →
        (lastPositionDone.resolveLevelCompletion sampleClock).m_state.m_tokens
          = lastPositionDone.m_state.m_tokens) := by
  intro h
  have h13 := resolveLevelCompletion_tokens lastPositionDone sampleClock rfl (by decide)
  rw [h (by rw [lastPositionDone_spec]; rfl) (by rw [lastPositionDone_spec]; rfl),
    tokensEarned_of_count] at h13
  have hc : lastPositionDone.m_correctTrials = 18 := rfl
  rw [hc] at h13
  simp at h13

/-! ## Cancellation -/

/-- Switching the profile cancels what is in progress: `applyActiveProfile` stops the
response timer, leaves the engine idle with no level and no special exercise active and
with zeroed trial counters and an empty trial log, and its progress state is the one loaded
from the state file of the profile, so that nothing of the trial in flight is recorded. -/
theorem applyActiveProfile_cancels (w : PitchTraining) (directory : String)
    (file : StateFile) :
    (w.applyActiveProfile directory file).responseTimerActive = false ∧
    (w.applyActiveProfile directory file).m_mode = .Idle ∧
    (w.applyActiveProfile directory file).m_levelActive = false ∧
    (w.applyActiveProfile directory file).m_specialContext = {} ∧
    (w.applyActiveProfile directory file).m_trialsCompleted = 0 ∧
    (w.applyActiveProfile directory file).m_correctTrials = 0 ∧
    (w.applyActiveProfile directory file).m_effectiveBonus = 0 ∧
    (w.applyActiveProfile directory file).m_doubleArmed = false ∧
    (w.applyActiveProfile directory file).m_randomDouble = false ∧
    (w.applyActiveProfile directory file).m_waitingForShepard = false ∧
    (w.applyActiveProfile directory file).m_trialLog = [] ∧
    (w.applyActiveProfile directory file).m_currentTrial = {} ∧
    (w.applyActiveProfile directory file).m_state
      = ((w.m_state.setProfileDirectory directory).load file).2 :=
  ⟨rfl, rfl, rfl, rfl, rfl, rfl, rfl, rfl, rfl, rfl, rfl, rfl, rfl⟩

/-- A profile chosen in the profile box and activated: the session is concluded and the
engine is the cancelled one of `applyActiveProfile`, with the confirmation in the feedback
label. -/
theorem handleProfileSelection_cancels (w : PitchTraining) (id name activeId : String)
    (elapsedMs : Int) (directory : String) (file : StateFile)
    (hid : id.isEmpty = false) (hother : id ≠ activeId) :
    w.handleProfileSelection id name activeId true elapsedMs directory file
      = ((w.concludeSessionIfNeeded elapsedMs).applyActiveProfile directory
          file).updateFeedback ("Switched to profile " ++ name) true ∧
    (w.handleProfileSelection id name activeId true elapsedMs directory
        file).responseTimerActive = false ∧
    (w.handleProfileSelection id name activeId true elapsedMs directory file).m_mode = .Idle ∧
    (w.handleProfileSelection id name activeId true elapsedMs directory
        file).m_levelActive = false ∧
    (w.handleProfileSelection id name activeId true elapsedMs directory
        file).m_specialContext.active = false ∧
    (w.handleProfileSelection id name activeId true elapsedMs directory
        file).m_trialsCompleted = 0 ∧
    (w.handleProfileSelection id name activeId true elapsedMs directory file).m_trialLog = [] := by
  have h : w.handleProfileSelection id name activeId true elapsedMs directory file
      = ((w.concludeSessionIfNeeded elapsedMs).applyActiveProfile directory
          file).updateFeedback ("Switched to profile " ++ name) true := by
    unfold PitchTraining.handleProfileSelection PitchTraining.switchProfile
    simp [hid, hother]
  rw [h]
  exact ⟨rfl, rfl, rfl, rfl, rfl, rfl, rfl⟩

/-- The members of a level or special exercise in progress that ending the session leaves
as they are. -/
theorem handleSessionToggle_frame (w : PitchTraining) (elapsedMs : Int) :
    (w.handleSessionToggle elapsedMs).m_sessionActive = !w.m_sessionActive ∧
    (w.handleSessionToggle elapsedMs).responseTimerActive = w.responseTimerActive ∧
    (w.handleSessionToggle elapsedMs).m_mode = w.m_mode ∧
    (w.handleSessionToggle elapsedMs).m_levelActive = w.m_levelActive ∧
    (w.handleSessionToggle elapsedMs).m_specialContext = w.m_specialContext ∧
    (w.handleSessionToggle elapsedMs).m_trialsCompleted = w.m_trialsCompleted ∧
    (w.handleSessionToggle elapsedMs).m_correctTrials = w.m_correctTrials ∧
    (w.handleSessionToggle elapsedMs).m_requiredTrials = w.m_requiredTrials ∧
    (w.handleSessionToggle elapsedMs).m_currentTrial = w.m_currentTrial ∧
    (w.handleSessionToggle elapsedMs).m_trialLog = w.m_trialLog ∧
    (w.handleSessionToggle elapsedMs).m_doubleArmed = w.m_doubleArmed := by
  unfold PitchTraining.handleSessionToggle PitchTraining.concludeSessionIfNeeded
    PitchTraining.refreshStartLevelButton PitchTraining.updateFeedback
  refine ⟨?_, ?_, ?_, ?_, ?_, ?_, ?_, ?_, ?_, ?_, ?_⟩ <;> dsimp only <;> split_ifs <;>
    simp_all

/-- Claim C25 fails on the code for the end of the training session. With a level running
and a trial in flight, `handleSessionToggle` ends the session and leaves the level active in
mode Level with its response timer running and its counters as they were; when the timer
then fires, the trial is settled and appended to the trial log as a timed-out trial. -/
theorem session_end_keeps_level_running :
    armedTrial.m_sessionActive = true ∧ armedTrial.m_levelActive = true ∧
    armedTrial.responseTimerActive = true ∧
    (armedTrial.handleSessionToggle 60000).m_sessionActive = false ∧
    (armedTrial.handleSessionToggle 60000).m_levelActive = true ∧
    (armedTrial.handleSessionToggle 60000).m_mode = .Level ∧
    (armedTrial.handleSessionToggle 60000).responseTimerActive = true ∧
    (armedTrial.handleSessionToggle 60000).m_trialsCompleted = 3 ∧
    ((armedTrial.handleSessionToggle 60000).handleResponseTimeout 2000
        sampleClock).m_trialsCompleted = 4 ∧
    ∃ trial : TrialData,
      ((armedTrial.handleSessionToggle 60000).handleResponseTimeout 2000
          sampleClock).m_trialLog = armedTrial.m_trialLog ++ [trial] ∧
      trial.timedOut = true ∧ trial.presentedPitch = "F" := by
  obtain ⟨s1, s2, s3, s4, s5, s6, -, s8, s9, s10, -⟩ :=
    handleSessionToggle_frame armedTrial 60000
  generalize armedTrial.handleSessionToggle 60000 = e at *
  have hmore : e.m_trialsCompleted + 1
      < (if e.m_mode = .SpecialExercise then e.m_specialContext.totalTrials
          else e.m_requiredTrials) := by
    rw [s3, s6, s8]; simp [armedTrial]
  have hfin : e.handleResponseTimeout 2000 sampleClock
      = { e.recordTrial true 2000 with startTrialEnabled := true } :=
    finishCurrentTrial_of_more e true 2000 sampleClock (by rw [s4]; rfl) hmore
  obtain ⟨-, -, -, f4, -⟩ := recordTrial_frame e true 2000
  obtain ⟨t1, -, t3, -, -, t6⟩ := recordTrial_semitone e true 2000
  refine ⟨rfl, rfl, rfl, s1, s4, s3, s2, s6, ?_, (e.recordTrial true 2000).m_currentTrial,
    ?_, t6, ?_⟩
  · rw [hfin]
    show (e.recordTrial true 2000).m_trialsCompleted = 4
    rw [f4, s6]; rfl
  · rw [hfin]
    show (e.recordTrial true 2000).m_trialLog = _
    rw [t1, s10]
  · rw [t3, s9]; rfl

/-! ## The cooldown timestamp of the final level -/

/-- The final-level members of the progress state after a completion. -/
theorem applyCompletion_final (st : TrainingState) (c : Completion) :
    (applyCompletion st c).m_finalLevelConsecutivePasses
      = (if c.special = false ∧ c.engine.m_currentSpec.globalIndex = 287 then
          (if PitchTraining.levelPassed { c.engine with m_state := st } then
            max 0 (st.m_finalLevelConsecutivePasses + 1) else 0)
        else st.m_finalLevelConsecutivePasses) ∧
    (applyCompletion st c).m_finalLevelCooldownStart
      = (if c.special = false ∧ c.engine.m_currentSpec.globalIndex = 287 then
          (if PitchTraining.levelPassed { c.engine with m_state := st } then
            (if st.m_finalLevelConsecutivePasses + 1 = 3 then .valid c.clock.nowMs
              else st.m_finalLevelCooldownStart)
          else .invalid)
        else st.m_finalLevelCooldownStart) := by
  unfold applyCompletion
  dsimp only
  generalize hw : ({ c.engine with m_state := st } : PitchTraining) = w
  have w1 : w.m_state = st := by rw [← hw]
  have w2 : w.m_currentSpec = c.engine.m_currentSpec := by rw [← hw]
  cases hs : c.special
  · simp only [Bool.false_eq_true, if_false, true_and]
    obtain ⟨pre, summary, hres, -, -, -, -, -, hspec, -, -, -, -, -, -, -, -, hc, hcd, -⟩ :=
      resolveLevelCompletion_eq w c.clock
    obtain ⟨p1, p2, -⟩ := resolveFinalLevel_progress pre w.levelPassed c.clock
    rw [hspec, hc, w1, w2] at p1
    rw [hspec, hc, hcd, w1, w2] at p2
    rw [hres, p1, p2]
    exact ⟨rfl, rfl⟩
  · simp only [if_true, Bool.true_eq_false, false_and, if_false]
    by_cases hphase : (w.m_specialContext.feedbackPhase
        && w.m_specialContext.secondPhasePending) = true
    · have h := (resolveSpecialExercise_cases w c.clock).1
        (by cases h1 : w.m_specialContext.feedbackPhase <;> simp_all)
        (by cases h1 : w.m_specialContext.secondPhasePending <;> simp_all)
      rw [h.1, w1]
      exact ⟨rfl, rfl⟩
    · obtain ⟨summary, -, -, -, -, -, hst, -⟩ :=
        (resolveSpecialExercise_cases w c.clock).2 (by simpa using hphase)
      rw [hst, w1]
      exact ⟨rfl, rfl⟩

/-- Claim C30: in every progress state reached from the default (zeroed) state by a run of
level and special-exercise completions, a final-level consecutive-pass counter of at least
3 comes with a valid cooldown timestamp; so, with the pointer at the final level and
training not completed, `handleStartLevel` called on an idle engine in a running session
with no special exercise due starts the level as soon as 12 hours (43 200 000 ms) have
passed since that timestamp. -/
theorem final_counter_has_timestamp (completions : List Completion) :
    ((runCompletions {} completions).m_finalLevelConsecutivePasses ≥ 3 →
      ∃ t : Int, (runCompletions {} completions).m_finalLevelCooldownStart = .valid t) ∧
    (∀ (w : PitchTraining) (clock : Clock),
      w.m_state = runCompletions {} completions →
      w.m_state.m_currentLevelIndex = 287 → w.m_state.m_finalLevelConsecutivePasses ≥ 3 →
      w.m_state.m_trainingCompleted = false → w.m_sessionActive = true →
      w.m_levelActive = false → w.m_specialContext.active = false →
      w.shouldRunSpecialExercise = false →
      ∃ t : Int, w.m_state.m_finalLevelCooldownStart = .valid t ∧
        (clock.nowMs - t ≥ 43200000 → (w.handleStartLevel clock).m_levelActive = true)) := by
  have key : ∀ l : List Completion,
      (runCompletions {} l).m_finalLevelConsecutivePasses ≥ 3 →
      ∃ t : Int, (runCompletions {} l).m_finalLevelCooldownStart = .valid t := by
    intro l
    induction l using List.reverseRecOn with
    | nil =>
      intro h
      exact absurd h (by decide)
    | append_singleton l c ih =>
      have hsnoc : runCompletions {} (l ++ [c]) = applyCompletion (runCompletions {} l) c := by
        unfold runCompletions
        rw [List.foldl_append]
        rfl
      rw [hsnoc]
      generalize runCompletions {} l = st at ih
      obtain ⟨a1, a2⟩ := applyCompletion_final st c
      rw [a1, a2]
      intro h
      split_ifs at h ⊢ with hfinal hpass h3
      · exact ⟨_, rfl⟩
      · exact ih (by omega)
      · exact absurd h (by decide)
      · exact ih h
  refine ⟨key completions, ?_⟩
  intro w clock hst hptr hcount hdone hsession hidle hnos hdue
  obtain ⟨t, ht⟩ := key completions (by rw [← hst]; exact hcount)
  rw [← hst] at ht
  refine ⟨t, ht, fun helapsed => ?_⟩
  have hspec : (specForIndex w.m_state.m_currentLevelIndex).globalIndex = 287 := by
    rw [hptr, specForIndex_eq]; rfl
  rw [(handleStartLevel_cases w clock).2.2.2 hidle hnos hsession hdue,
    if_pos ⟨hspec, hcount, hdone⟩, ht,
    if_pos ⟨rfl, by
      have := (secsTo_ge t clock.nowMs).mpr helapsed
      omega⟩]
  exact (startLevelInternal_frame w).1

theorem finalLevel_pass_step (st : TrainingState) :
    (applyCompletion st
        { engine := finalLevelTwice, clock := sampleClock, special := false }
      ).m_finalLevelConsecutivePasses = max 0 (st.m_finalLevelConsecutivePasses + 1) := by
  have hpass : PitchTraining.levelPassed { finalLevelTwice with m_state := st } = true := by
    simp [PitchTraining.levelPassed, PitchTraining.effectiveAccuracy, finalLevelTwice,
      specForIndex_eq, levelSpecEntry, buildLevelSpec, accuracyTargets]
    norm_num
  rw [(applyCompletion_final st _).1]
  dsimp only
  rw [if_pos ⟨rfl, finalLevelTwice_index⟩, hpass]
  rfl

theorem final_counter_has_timestamp_witness :
    (runCompletions {} threeFinalPasses).m_finalLevelConsecutivePasses = 3 ∧
    ∃ t : Int, (runCompletions {} threeFinalPasses).m_finalLevelCooldownStart = .valid t :=
  have h3 : (runCompletions {} threeFinalPasses).m_finalLevelConsecutivePasses = 3 := by
    simp only [runCompletions, threeFinalPasses, List.replicate, List.foldl]
    rw [finalLevel_pass_step, finalLevel_pass_step, finalLevel_pass_step]
    decide
  ⟨h3, (final_counter_has_timestamp threeFinalPasses).1 (by rw [h3])⟩

/-! ## The counters of a level -/

theorem handleDoubleButton_frame (w : PitchTraining) :
    (w.handleDoubleButton).m_specialContext = w.m_specialContext ∧
    (w.handleDoubleButton).m_currentSpec = w.m_currentSpec ∧
    (w.handleDoubleButton).m_requiredTrials = w.m_requiredTrials ∧
    (w.handleDoubleButton).m_effectiveBonus = w.m_effectiveBonus ∧
    (w.handleDoubleButton).m_correctTrials = w.m_correctTrials ∧
    (w.handleDoubleButton).m_trialsCompleted = w.m_trialsCompleted ∧
    (w.handleDoubleButton).m_levelActive = w.m_levelActive ∧
    (w.handleDoubleButton).m_mode = w.m_mode ∧
    (w.handleDoubleButton).m_state.m_history = w.m_state.m_history := by
  unfold PitchTraining.handleDoubleButton PitchTraining.updateFeedback
    TrainingState.consumeTokens TrainingState.incrementTokensSpent
  refine ⟨?_, ?_, ?_, ?_, ?_, ?_, ?_, ?_, ?_⟩ <;> dsimp only <;> split_ifs <;> rfl

set_option maxHeartbeats 1000000 in
theorem prepareNextTrial_counters (w : PitchTraining) (draw : TrialDraw) :
    (w.prepareNextTrial draw).m_requiredTrials = w.m_requiredTrials ∧
    (w.prepareNextTrial draw).m_effectiveBonus = w.m_effectiveBonus ∧
    (w.prepareNextTrial draw).m_correctTrials = w.m_correctTrials := by
  unfold PitchTraining.prepareNextTrial PitchTraining.setResponseEnabled
    PitchTraining.updateFeedback
  refine ⟨?_, ?_, ?_⟩ <;> dsimp only <;> split_ifs <;> rfl

/-- Every level of the table asks for a pass accuracy above 0. -/
theorem specForIndex_passAccuracy_pos (i : Int) : 0 < (specForIndex i).passAccuracy := by
  rw [specForIndex_eq]
  generalize (max 0 (min i 287)).toNat = k
  have hm : k % 24 < 24 := Nat.mod_lt _ (by decide)
  have hp : (levelSpecEntry k).passAccuracy
      = accuracyTargets.getD (((k % 24 : Nat) : Int) + 1 - 1).toNat 0 := rfl
  rw [hp]
  generalize k % 24 = m at hm
  interval_cases m <;> simp [accuracyTargets] <;> norm_num

/-- Counters within their bounds give an effective accuracy of at most twice the actual
one, and with no correct trial a level of the table is not passed. -/
theorem levelCounters_accuracy (s : PitchTraining) (h : LevelCounters s) :
    s.actualAccuracy = (s.m_correctTrials : ℚ) / 20 ∧
    s.effectiveAccuracy ≤ 2 * s.actualAccuracy ∧
    (s.m_correctTrials = 0 → 0 < s.m_currentSpec.passAccuracy → s.levelPassed = false) := by
  obtain ⟨hreq, hb0, hbc, hct, -⟩ := h
  have hact : s.actualAccuracy = (s.m_correctTrials : ℚ) / 20 := by
    simp [PitchTraining.actualAccuracy, hreq]
  have heff : s.effectiveAccuracy
      = min 1 (((s.m_correctTrials : ℚ) + s.m_effectiveBonus) / 20) := by
    simp [PitchTraining.effectiveAccuracy, hreq]
  refine ⟨hact, ?_, ?_⟩
  · rw [heff, hact]
    calc min 1 (((s.m_correctTrials : ℚ) + s.m_effectiveBonus) / 20)
        ≤ ((s.m_correctTrials : ℚ) + s.m_effectiveBonus) / 20 := min_le_right _ _
      _ ≤ 2 * ((s.m_correctTrials : ℚ) / 20) := by linarith
  · intro hzero hpos
    have hb : s.m_effectiveBonus = 0 := by
      rw [hzero] at hbc
      exact le_antisymm (by simpa using hbc) hb0
    unfold PitchTraining.levelPassed
    rw [heff, hzero, hb]
    simp
    linarith

/-- `LevelRun` reads only these members of the engine. -/
theorem levelRun_congr (spec : LevelSpec) (s t : PitchTraining)
    (h1 : t.m_specialContext = s.m_specialContext) (h2 : t.m_currentSpec = s.m_currentSpec)
    (h3 : t.m_requiredTrials = s.m_requiredTrials)
    (h4 : t.m_effectiveBonus = s.m_effectiveBonus)
    (h5 : t.m_correctTrials = s.m_correctTrials)
    (h6 : t.m_trialsCompleted = s.m_trialsCompleted)
    (h7 : t.m_levelActive = s.m_levelActive) (h8 : t.m_mode = s.m_mode)
    (h9 : t.m_state.m_history = s.m_state.m_history) (h : LevelRun spec s) :
    LevelRun spec t := by
  have hp : t.levelPassed = s.levelPassed := by
    unfold PitchTraining.levelPassed PitchTraining.effectiveAccuracy
    rw [h2, h3, h4, h5]
  have ha : t.actualAccuracy = s.actualAccuracy := by
    unfold PitchTraining.actualAccuracy
    rw [h3, h5]
  unfold LevelRun LevelCounters at h ⊢
  rw [h1, h2, h3, h4, h5, h6, h7, h8, h9, hp, ha]
  exact h

/-- The engine that `resolveLevelCompletion` leaves, as `LevelRun` reads it. -/
theorem resolveLevelCompletion_run (w : PitchTraining) (clock : Clock) :
    (w.resolveLevelCompletion clock).m_levelActive = false ∧
    (w.resolveLevelCompletion clock).m_specialContext = w.m_specialContext ∧
    (w.resolveLevelCompletion clock).m_currentSpec = w.m_currentSpec ∧
    ∃ summary : LevelSummary,
      (w.resolveLevelCompletion clock).m_state.m_history.getLast? = some summary ∧
      summary.passed = w.levelPassed ∧ summary.accuracy = w.actualAccuracy ∧
      summary.specialExercise = false := by
  obtain ⟨pre, summary, hres, -, s2, s3, s4, -, hspec, -, hact, hctx, -, hh, -⟩ :=
    resolveLevelCompletion_eq w clock
  obtain ⟨-, f2, -, -, -, -, f7, f8, f9⟩ := resolveFinalLevel_frame pre w.levelPassed clock
  rw [hres]
  refine ⟨f7.trans hact, f8.trans hctx, f9.trans hspec, summary, ?_, s3, s2, s4⟩
  rw [f2, hh]
  exact recordLevelSummary_getLast _ _

/-- A trial resolved in a level in progress keeps `LevelRun`. -/
theorem finishCurrentTrial_run (spec : LevelSpec) (q : PitchTraining) (timedOut : Bool)
    (elapsedMs : Int) (clock : Clock) (h : LevelRun spec q) (hact : q.m_levelActive = true) :
    LevelRun spec (q.finishCurrentTrial timedOut elapsedMs clock) := by
  obtain ⟨hnos, hspec, ⟨hreq, hb0, hbc, hct, -⟩, hA, -⟩ := h
  obtain ⟨hmode, hlt⟩ := hA hact
  obtain ⟨-, f2, f3, f4, -, f6, f7, -⟩ := recordTrial_frame q timedOut elapsedMs
  obtain ⟨-, -, b3, b4, b5, -⟩ := recordTrial_bonus q timedOut elapsedMs
  have hfin := finishCurrentTrial_eq q timedOut elapsedMs clock (by rw [hact]; rfl)
  rw [hmode] at hfin b4
  simp only [reduceCtorEq, if_false] at hfin
  generalize q.recordTrial timedOut elapsedMs = r at *
  have hcounters : LevelCounters r := by
    refine ⟨b5.trans hreq, ?_, ?_, ?_, ?_⟩
    · rw [b3]
      split_ifs
      · linarith
      · linarith
    · rw [b3, b4]
      cases hc : (q.judgeTrial timedOut).2
      · simpa using hbc
      · simp only [Bool.true_and, ne_eq, reduceCtorEq, not_false_eq_true, decide_True,
          if_true]
        push_cast
        split_ifs
        · linarith
        · linarith
    · rw [b4, f4]
      split_ifs
      · omega
      · omega
    · rw [f4, b5, hreq]
      omega
  rw [hfin]
  by_cases hdone : r.m_trialsCompleted ≥ q.m_requiredTrials
  · rw [if_pos hdone]
    obtain ⟨z1, z2, z3, summary, z4, z5, z6, z7⟩ := resolveLevelCompletion_run r clock
    obtain ⟨e1, -, -, e4, e5, e6, -⟩ := resolveLevelCompletion_engine r clock
    have hp : (r.resolveLevelCompletion clock).levelPassed = r.levelPassed := by
      unfold PitchTraining.levelPassed PitchTraining.effectiveAccuracy
      rw [z3, e6, e1, e4]
    have ha : (r.resolveLevelCompletion clock).actualAccuracy = r.actualAccuracy := by
      unfold PitchTraining.actualAccuracy
      rw [e6, e4]
    refine ⟨by rw [z2, f2, hnos], by rw [z3, f7, hspec], ?_, ?_, ?_⟩
    · unfold LevelCounters at hcounters ⊢
      rw [e1, e4, e5, e6]
      exact hcounters
    · intro hz
      rw [z1] at hz
      exact absurd hz (by decide)
    · intro _
      exact ⟨summary, z4, by rw [z5, hp], by rw [z6, ha], z7⟩
  · rw [if_neg hdone]
    refine ⟨by show r.m_specialContext.active = false; rw [f2, hnos],
      by show r.m_currentSpec = spec; rw [f7, hspec], hcounters, ?_, ?_⟩
    · intro _
      refine ⟨by show r.m_mode = _; rw [f3, hmode], ?_⟩
      show r.m_trialsCompleted < 20
      rw [hreq] at hdone
      omega
    · intro hz
      have : r.m_levelActive = false := hz
      rw [f6, hact] at this
      exact absurd this (by decide)

/-- Every event of a level keeps `LevelRun`. -/
theorem applyLevelEvent_run (spec : LevelSpec) (s : PitchTraining) (e : LevelEvent)
    (h : LevelRun spec s) : LevelRun spec (applyLevelEvent s e) := by
  cases e with
  | startTrial draw =>
    show LevelRun spec (s.handleStartTrial draw)
    unfold PitchTraining.handleStartTrial
    split_ifs
    · exact h
    · obtain ⟨p1, p2, p3, p4, -, p6, -, p8, -⟩ := prepareNextTrial_frame s draw
      obtain ⟨c1, c2, c3⟩ := prepareNextTrial_counters s draw
      exact levelRun_congr spec s _ p2 p8 c1 c2 c3 p4 p6 p3 (by rw [p1]) h
  | armBonus =>
    show LevelRun spec s.handleDoubleButton
    obtain ⟨d1, d2, d3, d4, d5, d6, d7, d8, d9⟩ := handleDoubleButton_frame s
    exact levelRun_congr spec s _ d1 d2 d3 d4 d5 d6 d7 d8 d9 h
  | response button elapsedMs clock =>
    show LevelRun spec (s.handleResponse button elapsedMs clock)
    unfold PitchTraining.handleResponse
    split_ifs with hguard
    · exact h
    · cases button with
      | none => exact h
      | some b =>
        dsimp only
        have hact : s.m_levelActive = true := by
          cases hl : s.m_levelActive
          · rw [hl] at hguard; simp at hguard
          · rfl
        exact finishCurrentTrial_run spec _ false elapsedMs clock
          (levelRun_congr spec s _ rfl rfl rfl rfl rfl rfl rfl rfl rfl h) hact
  | timeout elapsedMs clock =>
    show LevelRun spec (s.finishCurrentTrial true elapsedMs clock)
    cases hl : s.m_levelActive
    · have hidle : s.finishCurrentTrial true elapsedMs clock = s := by
        unfold PitchTraining.finishCurrentTrial
        rw [if_pos (by rw [hl, h.1]; rfl)]
      rw [hidle]
      exact h
    · exact finishCurrentTrial_run spec s true elapsedMs clock h hl

theorem specForIndex_trialCount (i : Int) : (specForIndex i).trialCount = 20 := by
  rw [specForIndex_eq]
  rfl

/-- The level that `startLevelInternal` starts satisfies `LevelRun`. -/
theorem startLevelInternal_run (w : PitchTraining) (hnos : w.m_specialContext.active = false) :
    LevelRun (specForIndex w.m_state.m_currentLevelIndex) w.startLevelInternal := by
  obtain ⟨m1, -, -, m4, m5, m6, m7, -⟩ := startLevelInternal_members w
  obtain ⟨f1, f2, f3, -⟩ := startLevelInternal_frame w
  refine ⟨by rw [f3, hnos], m1, ⟨?_, ?_, ?_, ?_, ?_⟩, ?_, ?_⟩
  · rw [m4, specForIndex_trialCount]
  · rw [m7]
  · rw [m7, m6]; simp
  · rw [m6, m5]
  · rw [m5, m4, specForIndex_trialCount]; decide
  · intro _
    exact ⟨f2, by rw [m5]; decide⟩
  · intro hz
    rw [f1] at hz
    exact absurd hz (by decide)

/-- Claim C29: in every state that a level started by `startLevelInternal` (with no special
exercise active) reaches through any sequence of trial starts, bonus armings, responses and
timeouts, `0 ≤ effectiveBonus ≤ correctTrials ≤ trialsCompleted ≤ requiredTrials = 20`;
so the effective accuracy is at most twice the actual accuracy, with no correct trial the
pass criterion is not met, and once the level is completed the summary it has recorded
carries that pass flag: a level completed with zero correct trials is recorded as failed,
whatever bonuses were armed. -/
theorem level_counters_bounded (w : PitchTraining) (events : List LevelEvent)
    (hnos : w.m_specialContext.active = false) :
    0 ≤ (runLevelEvents w.startLevelInternal events).m_effectiveBonus ∧
    (runLevelEvents w.startLevelInternal events).m_effectiveBonus
      ≤ ((runLevelEvents w.startLevelInternal events).m_correctTrials : ℚ) ∧
    (runLevelEvents w.startLevelInternal events).m_correctTrials
      ≤ (runLevelEvents w.startLevelInternal events).m_trialsCompleted ∧
    (runLevelEvents w.startLevelInternal events).m_trialsCompleted
      ≤ (runLevelEvents w.startLevelInternal events).m_requiredTrials ∧
    (runLevelEvents w.startLevelInternal events).m_requiredTrials = 20 ∧
    (runLevelEvents w.startLevelInternal events).effectiveAccuracy
      ≤ 2 * (runLevelEvents w.startLevelInternal events).actualAccuracy ∧
    ((runLevelEvents w.startLevelInternal events).m_correctTrials = 0 →
      (runLevelEvents w.startLevelInternal events).levelPassed = false ∧
      ((runLevelEvents w.startLevelInternal events).m_levelActive = false →
        ∃ summary : LevelSummary,
          (runLevelEvents w.startLevelInternal events).m_state.m_history.getLast?
            = some summary ∧
          summary.passed = false ∧ summary.accuracy = 0)) := by
  have key : ∀ l : List LevelEvent,
      LevelRun (specForIndex w.m_state.m_currentLevelIndex)
        (runLevelEvents w.startLevelInternal l) := by
    intro l
    induction l using List.reverseRecOn with
    | nil => exact startLevelInternal_run w hnos
    | append_singleton l e ih =>
      have hsnoc : runLevelEvents w.startLevelInternal (l ++ [e])
          = applyLevelEvent (runLevelEvents w.startLevelInternal l) e := by
        unfold runLevelEvents
        rw [List.foldl_append]
        rfl
      rw [hsnoc]
      exact applyLevelEvent_run _ _ e ih
  obtain ⟨-, hspec, hcnt, -, hidle⟩ := key events
  generalize runLevelEvents w.startLevelInternal events = s at *
  obtain ⟨a1, a2, a3⟩ := levelCounters_accuracy s hcnt
  obtain ⟨c1, c2, c3, c4, c5⟩ := hcnt
  refine ⟨c2, c3, c4, c5, c1, a2, fun hzero => ?_⟩
  have hfail := a3 hzero (by rw [hspec]; exact specForIndex_passAccuracy_pos _)
  refine ⟨hfail, fun hdone => ?_⟩
  obtain ⟨summary, s1, s2, s3, -⟩ := hidle hdone
  refine ⟨summary, s1, s2.trans hfail, ?_⟩
  rw [s3, a1, hzero]
  simp

theorem level_counters_bounded_witness :
    freshSession.m_specialContext.active = false ∧
    (runLevelEvents freshSession.startLevelInternal
        [.startTrial secondOfPool, .armBonus, .response (some buttonF) 900 sampleClock,
          .timeout 2028 sampleClock]).m_correctTrials
      ≤ (runLevelEvents freshSession.startLevelInternal
        [.startTrial secondOfPool, .armBonus, .response (some buttonF) 900 sampleClock,
          .timeout 2028 sampleClock]).m_trialsCompleted ∧
    (runLevelEvents freshSession.startLevelInternal
        [.startTrial secondOfPool, .armBonus, .response (some buttonF) 900 sampleClock,
          .timeout 2028 sampleClock]).m_requiredTrials = 20 :=
  have h := level_counters_bounded freshSession
    [.startTrial secondOfPool, .armBonus, .response (some buttonF) 900 sampleClock,
      .timeout 2028 sampleClock] rfl
  ⟨rfl, h.2.2.1, h.2.2.2.2.1⟩

/-! ## The target of a special exercise after a level with distractors -/

theorem judgeTrial_pitches (w : PitchTraining) (timedOut : Bool) :
    (w.judgeTrial timedOut).1.m_trainingPitches = w.m_trainingPitches := by
  unfold PitchTraining.judgeTrial
  dsimp only
  split_ifs <;> rfl

theorem applyTrialBonus_pitches (w : PitchTraining) (correct : Bool) :
    (w.applyTrialBonus correct).m_trainingPitches = w.m_trainingPitches := by
  unfold PitchTraining.applyTrialBonus
  dsimp only
  split_ifs <;> rfl

theorem reportTrial_pitches (w : PitchTraining) (correct timedOut : Bool) (n : Int) :
    (w.reportTrial correct timedOut n).m_trainingPitches = w.m_trainingPitches := by
  unfold PitchTraining.reportTrial PitchTraining.appendTrialLogEntry
    PitchTraining.setResponseEnabled PitchTraining.updateFeedback
  dsimp only
  split_ifs <;> rfl

/-- The trained pitches are left alone when a trial is settled. -/
theorem recordTrial_pitches (w : PitchTraining) (timedOut : Bool) (elapsedMs : Int) :
    (w.recordTrial timedOut elapsedMs).m_trainingPitches = w.m_trainingPitches := by
  unfold PitchTraining.recordTrial
  dsimp only
  rw [reportTrial_pitches, applyTrialBonus_pitches,
    apply_ite (fun x : PitchTraining => x.m_trainingPitches)]
  dsimp only
  rw [ite_self, judgeTrial_pitches]

set_option maxHeartbeats 1000000 in
/-- The trained pitches are left alone when a trial is prepared. -/
theorem prepareNextTrial_pitches (w : PitchTraining) (draw : TrialDraw) :
    (w.prepareNextTrial draw).m_trainingPitches = w.m_trainingPitches := by
  unfold PitchTraining.prepareNextTrial PitchTraining.setResponseEnabled
    PitchTraining.updateFeedback
  dsimp only
  split_ifs <;> rfl

/-- An answer to a level trial: the trial is settled, its entry joins the trial log, and the
level is completed when the trial was its last. -/
theorem handleResponse_settled (p : PitchTraining) (button : ResponseButton)
    (elapsedMs : Int) (clock : Clock) (hact : p.m_levelActive = true)
    (hmode : p.m_mode = .Level) :
    ∃ r : PitchTraining,
      p.handleResponse (some button) elapsedMs clock
        = (if p.m_trialsCompleted + 1 ≥ p.m_requiredTrials then r.resolveLevelCompletion clock
            else { r with startTrialEnabled := true }) ∧
      r.m_levelActive = true ∧ r.m_mode = .Level ∧
      r.m_waitingForShepard = p.m_waitingForShepard ∧
      r.m_specialContext = p.m_specialContext ∧ r.m_sessionActive = p.m_sessionActive ∧
      r.m_requiredTrials = p.m_requiredTrials ∧ r.m_state = p.m_state ∧
      r.m_trainingPitches = p.m_trainingPitches ∧
      r.m_outOfBoundsPitches = p.m_outOfBoundsPitches ∧ r.m_currentSpec = p.m_currentSpec ∧
      r.m_trialsCompleted = p.m_trialsCompleted + 1 ∧
      r.m_trialLog.map TrialData.tallied
        = p.m_trialLog.map TrialData.tallied
          ++ [(p.m_currentTrial.outOfBounds, p.m_currentTrial.presentedPitch,
              if p.m_currentTrial.outOfBounds then
                decide ((if button.outOfBound then "OUT" else button.pitch) = "OUT")
              else decide ((if button.outOfBound then "OUT" else button.pitch)
                = p.m_currentTrial.presentedPitch))] := by
  unfold PitchTraining.handleResponse
  rw [if_neg (by rw [hact, hmode]; simp)]
  dsimp only
  generalize hq : ({ p with m_currentTrial :=
      { p.m_currentTrial with
        response := if button.outOfBound then "OUT" else button.pitch } }
      : PitchTraining) = q
  have q0 : q.m_levelActive = p.m_levelActive := by rw [← hq]
  have q1 : q.m_state = p.m_state := by rw [← hq]
  have q2 : q.m_mode = p.m_mode := by rw [← hq]
  have q3 : q.m_trialsCompleted = p.m_trialsCompleted := by rw [← hq]
  have q3b : q.m_requiredTrials = p.m_requiredTrials := by rw [← hq]
  have q4 : q.m_trialLog = p.m_trialLog := by rw [← hq]
  have q5 : q.m_currentTrial.presentedPitch = p.m_currentTrial.presentedPitch := by rw [← hq]
  have q6 : q.m_currentTrial.outOfBounds = p.m_currentTrial.outOfBounds := by rw [← hq]
  have q7 : q.m_currentTrial.response
      = (if button.outOfBound then "OUT" else button.pitch) := by rw [← hq]
  have q8 : q.m_waitingForShepard = p.m_waitingForShepard := by rw [← hq]
  have q9 : q.m_specialContext = p.m_specialContext := by rw [← hq]
  have q10 : q.m_sessionActive = p.m_sessionActive := by rw [← hq]
  have q11 : q.m_trainingPitches = p.m_trainingPitches := by rw [← hq]
  have q12 : q.m_outOfBoundsPitches = p.m_outOfBoundsPitches := by rw [← hq]
  have q13 : q.m_currentSpec = p.m_currentSpec := by rw [← hq]
  obtain ⟨f1, f2, f3, f4, f5, f6, f7, f8⟩ := recordTrial_frame q false elapsedMs
  obtain ⟨s1, -, s3, s4, -, -⟩ := recordTrial_semitone q false elapsedMs
  obtain ⟨-, -, -, -, b5, b6, -, -, b9⟩ := recordTrial_bonus q false elapsedMs
  have hp := recordTrial_pitches q false elapsedMs
  have hfin := finishCurrentTrial_eq q false elapsedMs clock (by rw [q0, hact]; rfl)
  rw [q2, hmode] at hfin
  simp only [reduceCtorEq, if_false] at hfin
  have hsame : q.finishCurrentTrial false elapsedMs clock
      = (if p.m_trialsCompleted + 1 ≥ p.m_requiredTrials
          then (q.recordTrial false elapsedMs).resolveLevelCompletion clock
          else { q.recordTrial false elapsedMs with startTrialEnabled := true }) := by
    rw [hfin]
    by_cases hc : p.m_trialsCompleted + 1 ≥ p.m_requiredTrials
    · rw [if_pos hc, if_pos (by rw [f4, q3, q3b]; exact hc)]
    · rw [if_neg hc, if_neg (by rw [f4, q3, q3b]; exact hc)]
  refine ⟨q.recordTrial false elapsedMs, hsame, f6.trans (q0.trans hact),
    f3.trans (q2.trans hmode), f5.trans q8, f2.trans q9, b9.trans q10, b5.trans q3b,
    f1.trans q1, hp.trans q11, f8.trans q12, f7.trans q13, by rw [f4, q3], ?_⟩
  rw [s1, q4, List.map_append, List.map_singleton]
  congr 2
  unfold TrialData.tallied
  rw [s4, s3, b6, judgeTrial_correct, q2, hmode, q6, q7, q5]
  simp

/-- A trial of a level in progress, started and answered: the trial is settled with its
entry added, and the level is completed when the trial was the twentieth. -/
theorem answeredTrial_settled (st : TrainingState) (trained distractors : List String)
    (spec : LevelSpec) (tallies : List (Bool × String × Bool)) (s : PitchTraining)
    (draw : TrialDraw) (button : ResponseButton) (pitch : String)
    (h : TrialsRunning st trained distractors spec tallies s)
    (hpitch : (distractors.foldl
        (fun pool name => if !pool.contains name then pool ++ [name] else pool)
        trained).getD draw.poolIndex.toNat "" = pitch) :
    ∃ r : PitchTraining,
      runLevelEvents s (answeredTrial draw button)
        = (if tallies.length + 1 ≥ 20 then r.resolveLevelCompletion sampleClock
            else { r with startTrialEnabled := true }) ∧
      TrialsRunning st trained distractors spec
        (tallies ++ [(distractors.contains pitch, pitch,
          if distractors.contains pitch then
            decide ((if button.outOfBound then "OUT" else button.pitch) = "OUT")
          else decide ((if button.outOfBound then "OUT" else button.pitch) = pitch))]) r := by
  obtain ⟨h1, h2, h3, h4, h5, h6, h7, h8, h9, h10, h11, h12⟩ := h
  have hrun : runLevelEvents s (answeredTrial draw button)
      = (s.handleStartTrial draw).handleResponse (some button) 900 sampleClock := rfl
  have hstart : s.handleStartTrial draw = s.prepareNextTrial draw := by
    unfold PitchTraining.handleStartTrial
    rw [h1, h3]
    rfl
  obtain ⟨p1, p2, p3, p4, p5, p6, p7, p8, p9⟩ := prepareNextTrial_frame s draw
  obtain ⟨l1, l2, -, -, -, -, -, -, l9, l10⟩ :=
    prepareNextTrial_level s draw (by rw [h2]; decide)
  have hp := prepareNextTrial_pitches s draw
  rw [h9, h8, hpitch] at l1 l2
  rw [hrun, hstart]
  generalize s.prepareNextTrial draw = p at *
  obtain ⟨r, hr, r1, r2, r3, r4, r5, r6, r7, r8, r9, r10, r11, r12⟩ :=
    handleResponse_settled p button 900 sampleClock (p6.trans h1) (p3.trans h2)
  rw [l1, l2, p7, h12] at r12
  refine ⟨r, ?_, r1, r2, r3.trans (p5.trans h3), by rw [r4, p2, h4], by rw [r5, l10, h5],
    by rw [r6, l9, h6], by rw [r7, p1, h7], by rw [r8, hp, h8], by rw [r9, p9, h9],
    by rw [r10, p8, h10], ?_, r12⟩
  · rw [hr, p4, l9, h6, h11]
    by_cases hc : tallies.length + 1 ≥ 20
    · rw [if_pos hc, if_pos (by omega)]
    · rw [if_neg hc, if_neg (by omega)]
  · rw [r11, p4, h11]
    simp

/-- A trial that is not the last of the level: the level goes on. -/
theorem answeredTrial_running (st : TrainingState) (trained distractors : List String)
    (spec : LevelSpec) (tallies : List (Bool × String × Bool)) (s : PitchTraining)
    (draw : TrialDraw) (button : ResponseButton) (pitch : String)
    (h : TrialsRunning st trained distractors spec tallies s)
    (hpitch : (distractors.foldl
        (fun pool name => if !pool.contains name then pool ++ [name] else pool)
        trained).getD draw.poolIndex.toNat "" = pitch)
    (hmore : tallies.length + 1 < 20) :
    TrialsRunning st trained distractors spec
      (tallies ++ [(distractors.contains pitch, pitch,
        if distractors.contains pitch then
          decide ((if button.outOfBound then "OUT" else button.pitch) = "OUT")
        else decide ((if button.outOfBound then "OUT" else button.pitch) = pitch))])
      (runLevelEvents s (answeredTrial draw button)) := by
  obtain ⟨r, hr, hrun⟩ :=
    answeredTrial_settled st trained distractors spec tallies s draw button pitch h hpitch
  rw [hr, if_neg (show ¬ (tallies.length + 1 ≥ 20) by omega)]
  exact hrun

/-- A run of equal trials none of which is the last of the level. -/
theorem answeredTrials_running (st : TrainingState) (trained distractors : List String)
    (spec : LevelSpec) (draw : TrialDraw) (button : ResponseButton) (pitch : String)
    (hpitch : (distractors.foldl
        (fun pool name => if !pool.contains name then pool ++ [name] else pool)
        trained).getD draw.poolIndex.toNat "" = pitch) (n : Nat) :
    ∀ (tallies : List (Bool × String × Bool)) (s : PitchTraining),
      TrialsRunning st trained distractors spec tallies s → tallies.length + n < 20 →
      TrialsRunning st trained distractors spec
        (tallies ++ List.replicate n (distractors.contains pitch, pitch,
          if distractors.contains pitch then
            decide ((if button.outOfBound then "OUT" else button.pitch) = "OUT")
          else decide ((if button.outOfBound then "OUT" else button.pitch) = pitch)))
        (runLevelEvents s (List.replicate n (answeredTrial draw button)).flatten) := by
  induction n with
  | zero =>
    intro tallies s h _
    simpa [runLevelEvents] using h
  | succ n ih =>
    intro tallies s h hlen
    have h1 := answeredTrial_running st trained distractors spec tallies s draw button pitch
      h hpitch (by omega)
    have h2 := ih _ _ h1 (by simp; omega)
    have hev : runLevelEvents s (List.replicate (n + 1) (answeredTrial draw button)).flatten
        = runLevelEvents (runLevelEvents s (answeredTrial draw button))
            (List.replicate n (answeredTrial draw button)).flatten := by
      rw [List.replicate_succ, List.flatten_cons]
      unfold runLevelEvents
      rw [List.foldl_append]
    rw [hev, List.replicate_succ]
    simpa using h2

theorem stagePitchSet_five : stagePitchSet 5 = ["F", "E", "F#", "D#", "G"] := by
  rw [stagePitchSet_eq_take 5 (by decide) (by decide)]
  rfl

theorem outOfBoundsForStage_five : outOfBoundsForStage 5 = ["D", "C#", "G#", "A"] := by
  rw [outOfBoundsForStage_eq 5 (by decide) (by decide)]
  simp [chromaticOrder, buildChromaticOrder]

theorem specForIndex_ninetySix : specForIndex 96 = levelSpecEntry 96 := by
  rw [specForIndex_eq]
  congr 1

/-- The level that `handleStartLevel` starts from `beforeFifteenth`. -/
theorem beforeFifteenth_level :
    TrialsRunning beforeFifteenth.m_state ["F", "E", "F#", "D#", "G"] ["D", "C#", "G#", "A"]
      (specForIndex 96) [] (beforeFifteenth.handleStartLevel sampleClock) := by
  have hidx : beforeFifteenth.m_state.m_currentLevelIndex = 96 := rfl
  have hdue : beforeFifteenth.shouldRunSpecialExercise = false := by
    simp [PitchTraining.shouldRunSpecialExercise, beforeFifteenth]
  obtain ⟨m1, m2, m3, m4, m5, -, -, -, -, m10, m11, m12⟩ :=
    startLevelInternal_members beforeFifteenth
  obtain ⟨f1, f2, f3, f4⟩ := startLevelInternal_frame beforeFifteenth
  rw [hidx] at m1
  rw [hidx, specForIndex_ninetySix] at m2 m3 m4 m11
  rw [(handleStartLevel_cases beforeFifteenth sampleClock).2.2.2 rfl rfl rfl hdue,
    if_neg (by rw [hidx, specForIndex_ninetySix]; decide)]
  refine ⟨f1, f2, ?_, ?_, m12, m4, f4, ?_, ?_, m1, m5, ?_⟩
  · rw [m11]; rfl
  · rw [f3]; rfl
  · rw [m2]; exact stagePitchSet_five
  · rw [m3]; exact outOfBoundsForStage_five
  · rw [m10]; rfl

/-- The per-pitch counts that `recordSummary` builds, in terms of what it reads of the
trials of the log. -/
theorem tallyTrials_perPitch (log : List TrialData) (s : LevelSummary) :
    (PitchTraining.tallyTrials s log).perPitch
      = (log.map TrialData.tallied).foldl
          (fun (h : PitchHash) (k : Bool × String × Bool) =>
            h.insert (if k.1 then "OUT" else k.2.1)
              (if k.2.2 then
                { totalTrials := (h.value (if k.1 then "OUT" else k.2.1)).totalTrials + 1,
                  correctTrials
                    := (h.value (if k.1 then "OUT" else k.2.1)).correctTrials + 1 }
              else
                { totalTrials := (h.value (if k.1 then "OUT" else k.2.1)).totalTrials + 1,
                  correctTrials := (h.value (if k.1 then "OUT" else k.2.1)).correctTrials }))
          s.perPitch := by
  induction log generalizing s with
  | nil => rfl
  | cons a t ih =>
    have hcons : PitchTraining.tallyTrials s (a :: t)
        = PitchTraining.tallyTrials (PitchTraining.tallyTrials s [a]) t := rfl
    rw [hcons, ih, List.map_cons, List.foldl_cons]
    congr 1

/-- The history after `resolveLevelCompletion`: the summary that `recordSummary` builds from
the trial log is recorded. -/
theorem resolveLevelCompletion_history (w : PitchTraining) (clock : Clock) :
    (w.resolveLevelCompletion clock).m_state.m_history
      = (w.m_state.recordLevelSummary
          (PitchTraining.tallyTrials
            { levelIndex := w.m_currentSpec.globalIndex, accuracy := w.actualAccuracy,
              passed := w.levelPassed, specialExercise := false,
              completedAt := .valid clock.nowMs } w.m_trialLog)).m_history := by
  obtain ⟨r1, r2, r3, -⟩ := rewardLevel_frame w w.actualAccuracy w.effectiveAccuracy
    w.levelPassed
  have hres : w.resolveLevelCompletion clock
      = (((w.rewardLevel w.actualAccuracy w.effectiveAccuracy w.levelPassed).closeLevel
            w.actualAccuracy w.levelPassed clock).advanceLevel w.actualAccuracy
          w.levelPassed).resolveFinalLevel w.levelPassed clock := rfl
  rw [hres, (resolveFinalLevel_frame _ _ _).2.1]
  generalize w.rewardLevel w.actualAccuracy w.effectiveAccuracy w.levelPassed = w1 at *
  have hadv : ∀ (x : PitchTraining) (a : ℚ) (p : Bool),
      (x.advanceLevel a p).m_state.m_history = x.m_state.m_history := by
    intro x a p
    unfold PitchTraining.advanceLevel TrainingState.setCurrentLevelIndex
    rfl
  have hclose : (w1.closeLevel w.actualAccuracy w.levelPassed clock).m_state.m_history
      = (w1.m_state.recordLevelSummary
          (PitchTraining.tallyTrials
            { levelIndex := w1.m_currentSpec.globalIndex, accuracy := w.actualAccuracy,
              passed := w.levelPassed, specialExercise := false,
              completedAt := .valid clock.nowMs } w1.m_trialLog)).m_history := by
    show (TrainingState.markActivity _ _).m_history = _
    rw [(markActivity_frame _ _).2.1]
    rfl
  rw [hadv, hclose, r2, r3, recordLevelSummary_history, recordLevelSummary_history, r1]
  split_ifs <;> rfl

/-- The entries that the trials of `distractorsMissed` leave at stage 5: ten for F judged
correct and ten for the distractor D judged incorrect. -/
theorem distractorsMissed_run :
    ∃ r : PitchTraining,
      runLevelEvents (beforeFifteenth.handleStartLevel sampleClock) distractorsMissed
        = r.resolveLevelCompletion sampleClock ∧
      TrialsRunning beforeFifteenth.m_state ["F", "E", "F#", "D#", "G"]
        ["D", "C#", "G#", "A"] (specForIndex 96)
        (List.replicate 10 (false, "F", true) ++ List.replicate 10 (true, "D", false)) r := by
  have h1 := answeredTrials_running beforeFifteenth.m_state ["F", "E", "F#", "D#", "G"]
    ["D", "C#", "G#", "A"] (specForIndex 96) firstOfPool buttonF "F" (by simp [firstOfPool])
    10 [] _ beforeFifteenth_level (by simp)
  have h2 := answeredTrials_running beforeFifteenth.m_state ["F", "E", "F#", "D#", "G"]
    ["D", "C#", "G#", "A"] (specForIndex 96) sixthOfPool buttonF "D" (by simp [sixthOfPool])
    9 _ _ h1 (by simp)
  obtain ⟨r, hr, h3⟩ := answeredTrial_settled beforeFifteenth.m_state
    ["F", "E", "F#", "D#", "G"] ["D", "C#", "G#", "A"] (specForIndex 96) _ _ sixthOfPool
    buttonF "D" h2 (by simp [sixthOfPool])
  rw [if_pos (by simp)] at hr
  have hev : distractorsMissed
      = (List.replicate 10 (answeredTrial firstOfPool buttonF)).flatten
        ++ ((List.replicate 9 (answeredTrial sixthOfPool buttonF)).flatten
          ++ answeredTrial sixthOfPool buttonF) := rfl
  refine ⟨r, ?_, ?_⟩
  · rw [hev]
    unfold runLevelEvents at hr ⊢
    rw [List.foldl_append, List.foldl_append]
    exact hr
  · have hk : (([] ++ List.replicate 10
          ((["D", "C#", "G#", "A"] : List String).contains "F", "F",
            if (["D", "C#", "G#", "A"] : List String).contains "F" then
              decide ((if buttonF.outOfBound then "OUT" else buttonF.pitch) = "OUT")
            else decide ((if buttonF.outOfBound then "OUT" else buttonF.pitch) = "F")))
          ++ List.replicate 9
            ((["D", "C#", "G#", "A"] : List String).contains "D", "D",
              if (["D", "C#", "G#", "A"] : List String).contains "D" then
                decide ((if buttonF.outOfBound then "OUT" else buttonF.pitch) = "OUT")
              else decide ((if buttonF.outOfBound then "OUT" else buttonF.pitch) = "D")))
          ++ [((["D", "C#", "G#", "A"] : List String).contains "D", "D",
              if (["D", "C#", "G#", "A"] : List String).contains "D" then
                decide ((if buttonF.outOfBound then "OUT" else buttonF.pitch) = "OUT")
              else decide ((if buttonF.outOfBound then "OUT" else buttonF.pitch) = "D"))]
        = List.replicate 10 (false, "F", true) ++ List.replicate 10 (true, "D", false) := by
      simp [buttonF, List.replicate]
    rw [hk] at h3
    exact h3

/-- The level pointer after a completed level that started at index 96 is still in stage 5
or beyond. -/
theorem nextLevelAfter_ninetySix (w : PitchTraining) (passed : Bool) (achieved : ℚ)
    (hidx : w.m_state.m_currentLevelIndex = 96) (hspec : w.m_currentSpec = specForIndex 96) :
    96 ≤ w.nextLevelAfter passed achieved ∧ w.nextLevelAfter passed achieved ≤ 287 := by
  unfold PitchTraining.nextLevelAfter
  rw [hidx, hspec]
  cases passed
  · simp
  · simp only [if_true]
    have h := advanceLoop_range (specForIndex 96) achieved 96 (by norm_num)
      (by rw [(specForIndex_stage 96 (by norm_num) (by norm_num)).1]) _ (96 + 1)
      (min (96 + 1) (totalLevelCount - 1)) rfl (by norm_num) (by norm_num)
      (by rw [show totalLevelCount - 1 = 287 by decide]; decide)
    exact ⟨by omega, h.2.1⟩

/-- The weakest pitch of a history whose only summary tells ten correct trials of ten on F
and none of ten on the marker. -/
theorem leastAccuratePitch_marker (st : TrainingState) (s : LevelSummary)
    (hh : st.m_history = [s]) (hs : s.specialExercise = false)
    (hp : s.perPitch = [("F", { totalTrials := 10, correctTrials := 10 }),
      ("OUT", { totalTrials := 10, correctTrials := 0 })]) :
    st.leastAccuratePitch = "OUT" := by
  rw [leastAccuratePitch_eq, hh]
  simp [TrainingState.aggregateSummaries, hs, hp, TrainingState.addPerPitch,
    TrainingState.selectLeast, PitchHash.value, PitchHash.insert, insertEntry]

/-- Claim C27 fails on the code, by the defect that claim C12 shares: `recordSummary` files
the trials on distractors under the marker `"OUT"`, `leastAccuratePitch` can return that
key, and `startSpecialExercise` takes it as the target. From an idle engine at level 1 of
stage 5 with an empty history, 14 levels after the last special exercise, a level is started
and its 20 trials are done: ten present F and are answered F, ten present the distractor D
and are answered F. The completed level records the only summary of the history, with ten
of ten trials right on F and none of ten on `"OUT"`; the next `handleStartLevel` starts a
special exercise whose target is `"OUT"`, which is no pitch name of the chromatic order. -/
theorem special_target_after_recorded_level :
    beforeFifteenth.m_state.m_history = [] ∧
    (beforeFifteenth.handleStartLevel sampleClock).m_levelActive = true ∧
    (runLevelEvents (beforeFifteenth.handleStartLevel sampleClock)
        distractorsMissed).m_levelActive = false ∧
    (runLevelEvents (beforeFifteenth.handleStartLevel sampleClock)
        distractorsMissed).m_state.m_history.map (fun s => (s.specialExercise, s.perPitch))
      = [(false, [("F", { totalTrials := 10, correctTrials := 10 }),
          ("OUT", { totalTrials := 10, correctTrials := 0 })])] ∧
    ((runLevelEvents (beforeFifteenth.handleStartLevel sampleClock)
        distractorsMissed).handleStartLevel sampleClock).m_specialContext.active = true ∧
    ((runLevelEvents (beforeFifteenth.handleStartLevel sampleClock)
        distractorsMissed).handleStartLevel sampleClock).m_specialContext.targetPitch
      = "OUT" ∧
    "OUT" ∉ chromaticOrder := by
  obtain ⟨r, hrun, -, -, -, k4, k5, -, k7, -, -, k10, -, k12⟩ := distractorsMissed_run
  have hstart : (beforeFifteenth.handleStartLevel sampleClock).m_levelActive = true :=
    beforeFifteenth_level.1
  rw [hrun]
  obtain ⟨z1, z2, -, -⟩ := resolveLevelCompletion_run r sampleClock
  have z3 := (resolveLevelCompletion_engine r sampleClock).2.2.2.2.2.2.1
  have hhist := resolveLevelCompletion_history r sampleClock
  obtain ⟨-, -, -, t4, -⟩ := tallyTrials_fields r.m_trialLog
    { levelIndex := r.m_currentSpec.globalIndex, accuracy := r.actualAccuracy,
      passed := r.levelPassed, specialExercise := false,
      completedAt := .valid sampleClock.nowMs }
  have hper := tallyTrials_perPitch r.m_trialLog
    { levelIndex := r.m_currentSpec.globalIndex, accuracy := r.actualAccuracy,
      passed := r.levelPassed, specialExercise := false,
      completedAt := .valid sampleClock.nowMs }
  rw [k12] at hper
  have hper2 : (PitchTraining.tallyTrials
      { levelIndex := r.m_currentSpec.globalIndex, accuracy := r.actualAccuracy,
        passed := r.levelPassed, specialExercise := false,
        completedAt := .valid sampleClock.nowMs } r.m_trialLog).perPitch
      = [("F", { totalTrials := 10, correctTrials := 10 }),
        ("OUT", { totalTrials := 10, correctTrials := 0 })] := by
    rw [hper]
    simp [List.replicate, PitchHash.value, PitchHash.insert, insertEntry]
  generalize PitchTraining.tallyTrials
      { levelIndex := r.m_currentSpec.globalIndex, accuracy := r.actualAccuracy,
        passed := r.levelPassed, specialExercise := false,
        completedAt := .valid sampleClock.nowMs } r.m_trialLog = summary at *
  rw [recordLevelSummary_history, k7] at hhist
  have hone : (r.resolveLevelCompletion sampleClock).m_state.m_history = [summary] := by
    rw [hhist]
    rfl
  obtain ⟨pre, -, hres, -, -, -, -, -, -, -, -, -, -, -, -, e14, e15, -⟩ :=
    resolveLevelCompletion_eq r sampleClock
  obtain ⟨-, -, g3, -, g5, -⟩ := resolveFinalLevel_frame pre r.levelPassed sampleClock
  rw [← hres] at g3 g5
  obtain ⟨n1, n2⟩ := nextLevelAfter_ninetySix r r.levelPassed r.actualAccuracy
    (by rw [k7]; rfl) k10
  have hptr : (r.resolveLevelCompletion sampleClock).m_state.m_currentLevelIndex ≥ 96 := by
    rw [g3, e15]
    omega
  have hsince : (r.resolveLevelCompletion sampleClock).m_state.m_levelsSinceSpecial = 15 := by
    rw [g5, e14, k7]
    rfl
  have hdue : (r.resolveLevelCompletion sampleClock).shouldRunSpecialExercise = true := by
    unfold PitchTraining.shouldRunSpecialExercise
    simp only [hsince, Bool.and_eq_true, decide_eq_true_eq]
    exact ⟨le_refl _, (stage_ge_five_iff _).mpr hptr⟩
  have hleast : (r.resolveLevelCompletion sampleClock).m_state.leastAccuratePitch = "OUT" :=
    leastAccuratePitch_marker _ summary hone t4 hper2
  generalize r.resolveLevelCompletion sampleClock = after at *
  rw [(handleStartLevel_cases after sampleClock).2.2.1 z1 (by rw [z2, k4]) (by rw [z3, k5])
    hdue]
  refine ⟨rfl, hstart, z1, ?_, (startSpecialExercise_frame after).2.2.1, ?_, ?_⟩
  · rw [hone, List.map_singleton, t4, hper2]
  · rw [(startSpecialExercise_context after).2.2.1, hleast]
    rfl
  · simp [chromaticOrder, buildChromaticOrder]

end AbsolutePitchTrainer
